import Mathlib

/-!
# The DWARF CFI interpreter and register-state engine of libunwind (src/dwarf/Gparser.c)

A shallow embedding of `Gparser.c`: the CFI interpreter `run_cfi_program`, the
drivers `setup_fde` / `parse_fde` / `dwarf_reg_states_table_iterate`, the
register-state cache (`dwarf_flush_rs_cache`, `hash`, `rs_lookup`, `rs_new`), and
the step engine (`apply_reg_state`, `find_reg_state`, `dwarf_step`).

Conventions.
* `unw_word_t` is a 64-bit word: a `Nat` with arithmetic reduced modulo `2^64`
  at the places where the C code computes.
* C arrays are total functions `Nat → _`; the bound of an array is stated where
  a property depends on it.
* A C function returning `int` with out-parameters is a function returning a
  record of the return code and the out-parameters.
* Everything that `Gparser.c` calls but does not define (accessors, expression
  evaluator, proc-info provider, target macros) is a parameter.
* `while` loops whose termination depends on the input carry a fuel argument and
  return `none` when the fuel runs out.
-/

namespace Gparser

/-! ## Words -/

/-- The number of values of `unw_word_t` (64 bits). -/
def WORD : Nat := 2 ^ 64

/-- Addition of `unw_word_t`. -/
def wadd (a b : Nat) : Nat := (a + b) % WORD

/-- Multiplication of `unw_word_t`. -/
def wmul (a b : Nat) : Nat := (a * b) % WORD

/-- The C expression `~x + 1` on `unw_word_t`. -/
def wneg (x : Nat) : Nat := ((WORD - 1 - x % WORD) + 1) % WORD

/-- Subtraction of `unw_word_t`. -/
def wsub (a b : Nat) : Nat := (a + (WORD - b % WORD)) % WORD

/-! ## Error codes -/

/-- The error kinds of `unw_error_t`; a C return value `-UNW_E...` is the
corresponding constructor. -/
inductive UnwError where
  | EUNSPEC
  | ENOMEM
  | EBADREG
  | EREADONLYREG
  | ESTOPUNWIND
  | EINVALIDIP
  | EBADFRAME
  | EINVAL
  | EBADVERSION
  | ENOINFO
  deriving DecidableEq, Repr

open UnwError

/-! ## Register-state records -/

/-- The tags of `dwarf_where_t`, in the order of the enumeration (so that the
integer `0` is `UNDEF`). -/
inductive Where where
  | UNDEF
  | SAME
  | CFAREL
  | REG
  | EXPR
  | VAL_EXPR
  | CFA
  deriving DecidableEq, Repr

/-- The record `dwarf_reg_state_t`: `ret_addr_column` and the two arrays
`reg.where[]`, `reg.val[]` of `DWARF_NUM_PRESERVED_REGS + 2` slots. -/
structure RegState where
  ret_addr_column : Nat
  where_ : Nat → Where
  val : Nat → Nat

/-- The record `dwarf_state_record_t`. -/
structure StateRecord where
  rs_initial : RegState
  rs_current : RegState
  args_size : Nat

/-- The fields of `struct dwarf_cie_info` that the parser reads. -/
structure CieInfo where
  cie_instr_start : Nat
  cie_instr_end : Nat
  fde_instr_start : Nat
  fde_instr_end : Nat
  code_align : Nat
  data_align : Nat
  ret_addr_column : Nat
  fde_encoding : Nat
  signal_frame : Bool

/-- The values of `unw_dyn_info_format_t` (field `format` of the proc info). -/
inductive InfoFormat where
  | DYNAMIC
  | TABLE
  | REMOTE_TABLE
  | OTHER
  deriving DecidableEq, Repr

/-- The fields of `unw_proc_info_t` that the parser reads. -/
structure ProcInfo where
  format : InfoFormat
  start_ip : Nat
  end_ip : Nat
  last_ip : Nat
  debug_frame : Bool
  /-- Whether the pointer `unwind_info` is non-NULL. -/
  has_unwind_info : Bool
  /-- The record `unwind_info` points to. -/
  unwind_info : CieInfo

/-! ## Parameters: target and accessors -/

/-- The build-time target: the macros and `#ifdef` switches `Gparser.c` depends on. -/
structure Target where
  /-- The macro DWARF_NUM_PRESERVED_REGS. -/
  NUM_PRESERVED_REGS : Nat
  /-- The macro TDEP_DWARF_SP. -/
  TDEP_DWARF_SP : Nat
  /-- Whether UNW_TARGET_SPARC is defined. -/
  sparc : Bool
  /-- Whether UNW_TARGET_AARCH64 is defined. -/
  aarch64 : Bool
  /-- Whether UNW_TARGET_MIPS is defined. -/
  mips : Bool
  /-- Whether the guard of the SP default in setup_fde holds
  (neither ARM nor MIPS with the 64-bit ABI). -/
  sp_defaults_to_cfa : Bool
  /-- The register UNW_AARCH64_RA_SIGN_STATE. -/
  RA_SIGN_STATE : Nat
  /-- Whether NEED_LAST_IP is defined. -/
  need_last_ip : Bool
  /-- The macro DWARF_DEFAULT_LOG_UNW_CACHE_SIZE. -/
  DEFAULT_LOG_UNW_CACHE_SIZE : Nat
  /-- Whether HAVE___CACHE_PER_THREAD is set. -/
  cache_per_thread : Bool
  /-- Whether the build is for s390x. -/
  s390x : Bool
  /-- Whether the build is for 32-bit ARM (the macro `__arm__`). -/
  arm : Bool

/-- The column DWARF_CFA_REG_COLUMN. -/
def Target.CFA_REG_COLUMN (t : Target) : Nat := t.NUM_PRESERVED_REGS

/-- The column DWARF_CFA_OFF_COLUMN. -/
def Target.CFA_OFF_COLUMN (t : Target) : Nat := t.NUM_PRESERVED_REGS + 1

/-- The result of a reader `int f (..., unw_word_t *addr, T *valp, ...)`:
the return code (`none` when it is non-negative), the value stored through
`valp` and the byte cursor `*addr` after the call. -/
structure Rd where
  ret : Option UnwError
  val : Nat
  addr : Nat

/-- The readers of the address-space accessor set used by the interpreter;
each maps the byte cursor before the call to the result of the call. -/
structure Accessors where
  dwarf_readu8 : Nat → Rd
  dwarf_readu16 : Nat → Rd
  dwarf_readu32 : Nat → Rd
  dwarf_readu64 : Nat → Rd
  dwarf_read_uleb128 : Nat → Rd
  dwarf_read_sleb128 : Nat → Rd
  /-- Arguments: the pointer encoding, the proc info, the byte cursor. -/
  dwarf_read_encoded_pointer : Nat → ProcInfo → Nat → Rd

/-- What the interpreter takes from its environment: the accessors of the local
address space (used for `.debug_frame`), those of the cursor's address space,
and the register-state pool (whether `alloc_reg_state` succeeds when the stack
already holds the given number of snapshots). -/
structure Env where
  local_acc : Accessors
  remote_acc : Accessors
  alloc_ok : Nat → Bool

/-! ## CFI opcodes -/

/-- Modelled from the spec: the mask DWARF_CFA_OPCODE_MASK of `dwarf.h` (absent
from the sources), the two high bits of a packed opcode of DWARF §6.4. -/
def DWARF_CFA_OPCODE_MASK : Nat := 0xc0

/-- Modelled from the spec: the mask DWARF_CFA_OPERAND_MASK of `dwarf.h` (absent
from the sources), the six low bits of a packed opcode of DWARF §6.4. -/
def DWARF_CFA_OPERAND_MASK : Nat := 0x3f

/-- Modelled from the spec: the enumeration `dwarf_cfa_t` of `dwarf.h` (absent
from the sources), the CFI opcode numbers of DWARF §6.4 and of the GNU and
vendor extensions that `run_cfi_program` names. -/
inductive dwarf_cfa_t where
  | DW_CFA_advance_loc
  | DW_CFA_offset
  | DW_CFA_restore
  | DW_CFA_nop
  | DW_CFA_set_loc
  | DW_CFA_advance_loc1
  | DW_CFA_advance_loc2
  | DW_CFA_advance_loc4
  | DW_CFA_offset_extended
  | DW_CFA_restore_extended
  | DW_CFA_undefined
  | DW_CFA_same_value
  | DW_CFA_register
  | DW_CFA_remember_state
  | DW_CFA_restore_state
  | DW_CFA_def_cfa
  | DW_CFA_def_cfa_register
  | DW_CFA_def_cfa_offset
  | DW_CFA_def_cfa_expression
  | DW_CFA_expression
  | DW_CFA_offset_extended_sf
  | DW_CFA_def_cfa_sf
  | DW_CFA_def_cfa_offset_sf
  | DW_CFA_val_expression
  | DW_CFA_lo_user
  | DW_CFA_MIPS_advance_loc8
  | DW_CFA_GNU_window_save
  | DW_CFA_GNU_args_size
  | DW_CFA_GNU_negative_offset_extended
  | DW_CFA_hi_user
  deriving DecidableEq, Repr

open dwarf_cfa_t

/-- Modelled from the spec: the numeric value of each enumerator of
`dwarf_cfa_t` (DWARF §6.4; `dwarf.h` is absent from the sources). -/
def dwarf_cfa_t.code : dwarf_cfa_t → Nat
  | DW_CFA_advance_loc => 0x40
  | DW_CFA_offset => 0x80
  | DW_CFA_restore => 0xc0
  | DW_CFA_nop => 0x00
  | DW_CFA_set_loc => 0x01
  | DW_CFA_advance_loc1 => 0x02
  | DW_CFA_advance_loc2 => 0x03
  | DW_CFA_advance_loc4 => 0x04
  | DW_CFA_offset_extended => 0x05
  | DW_CFA_restore_extended => 0x06
  | DW_CFA_undefined => 0x07
  | DW_CFA_same_value => 0x08
  | DW_CFA_register => 0x09
  | DW_CFA_remember_state => 0x0a
  | DW_CFA_restore_state => 0x0b
  | DW_CFA_def_cfa => 0x0c
  | DW_CFA_def_cfa_register => 0x0d
  | DW_CFA_def_cfa_offset => 0x0e
  | DW_CFA_def_cfa_expression => 0x0f
  | DW_CFA_expression => 0x10
  | DW_CFA_offset_extended_sf => 0x11
  | DW_CFA_def_cfa_sf => 0x12
  | DW_CFA_def_cfa_offset_sf => 0x13
  | DW_CFA_val_expression => 0x16
  | DW_CFA_lo_user => 0x1c
  | DW_CFA_MIPS_advance_loc8 => 0x1d
  | DW_CFA_GNU_window_save => 0x2d
  | DW_CFA_GNU_args_size => 0x2e
  | DW_CFA_GNU_negative_offset_extended => 0x2f
  | DW_CFA_hi_user => 0x3c

/-- The list of all enumerators of `dwarf_cfa_t`. -/
def dwarf_cfa_t.all : List dwarf_cfa_t :=
  [DW_CFA_advance_loc, DW_CFA_offset, DW_CFA_restore, DW_CFA_nop, DW_CFA_set_loc,
   DW_CFA_advance_loc1, DW_CFA_advance_loc2, DW_CFA_advance_loc4,
   DW_CFA_offset_extended, DW_CFA_restore_extended, DW_CFA_undefined,
   DW_CFA_same_value, DW_CFA_register, DW_CFA_remember_state, DW_CFA_restore_state,
   DW_CFA_def_cfa, DW_CFA_def_cfa_register, DW_CFA_def_cfa_offset,
   DW_CFA_def_cfa_expression, DW_CFA_expression, DW_CFA_offset_extended_sf,
   DW_CFA_def_cfa_sf, DW_CFA_def_cfa_offset_sf, DW_CFA_val_expression,
   DW_CFA_lo_user, DW_CFA_MIPS_advance_loc8, DW_CFA_GNU_window_save,
   DW_CFA_GNU_args_size, DW_CFA_GNU_negative_offset_extended, DW_CFA_hi_user]

/-- The cast `(dwarf_cfa_t) op` as the `switch` sees it: the enumerator whose
value is `op`, or `none` when no case label has that value. -/
def decode_cfa (op : Nat) : Option dwarf_cfa_t :=
  dwarf_cfa_t.all.find? (fun k => k.code == op)

/-! ## The CFI interpreter -/

/-- The state of one run of the interpreter: the location counter `*ip`, the byte
cursor `*addr`, the state record `*sr` and the state-record stack `*rs_stack`
(top first). -/
structure Cfi where
  ip : Nat
  addr : Nat
  sr : StateRecord
  rs_stack : List RegState

/-- The value of `ret` together with the interpreter state. `ret = none` stands
for a non-negative `ret`. -/
structure Outcome where
  ret : Option UnwError
  st : Cfi

/-- Assignment to one slot of `reg.where[]` / `reg.val[]`. -/
def RegState.set (rs : RegState) (regnum : Nat) (w : Where) (v : Nat) : RegState :=
  { rs with where_ := Function.update rs.where_ regnum w,
            val := Function.update rs.val regnum v }

/-- The function `set_reg`. -/
def set_reg (sr : StateRecord) (regnum : Nat) (w : Where) (v : Nat) : StateRecord :=
  { sr with rs_current := sr.rs_current.set regnum w v }

/-- The function `read_regnum`. -/
def read_regnum (t : Target) (a : Accessors) (addr : Nat) : Rd :=
  let r := a.dwarf_read_uleb128 addr
  match r.ret with
  | some e => ⟨some e, r.val, r.addr⟩
  | none =>
    if r.val ≥ t.NUM_PRESERVED_REGS then ⟨some EBADREG, r.val, r.addr⟩
    else ⟨none, r.val, r.addr⟩

/-- The function `push_rstate_stack`: `none` when the allocation fails (the stack
is then left as it was), else the stack with a fresh top whose `state` is not yet
assigned (it holds `junk`). -/
def push_rstate_stack (env : Env) (junk : RegState) (stk : List RegState) :
    Option (List RegState) :=
  if env.alloc_ok stk.length then some (junk :: stk) else none

/-- The function `pop_rstate_stack`. -/
def pop_rstate_stack (stk : List RegState) : List RegState := stk.tail

/-- The function `empty_rstate_stack`. -/
def empty_rstate_stack (stk : List RegState) : List RegState :=
  match stk with
  | [] => []
  | _ :: rest => empty_rstate_stack rest

/-- The function `aarch64_negate_ra_sign_state`. -/
def aarch64_negate_ra_sign_state (t : Target) (sr : StateRecord) : StateRecord :=
  set_reg sr t.RA_SIGN_STATE Where.SAME
    (Nat.xor (sr.rs_current.val t.RA_SIGN_STATE) 1)

/-- The loop `for (regnum = 16; regnum < 32; ++regnum) set_reg (...)` of
DW_CFA_GNU_window_save on SPARC, `n` registers starting at `regnum`. -/
def sparc_window_save (sr : StateRecord) (regnum : Nat) : Nat → StateRecord
  | 0 => sr
  | n + 1 =>
    sparc_window_save (set_reg sr regnum Where.CFAREL (wmul (regnum - 16) 8)) (regnum + 1) n

/-- An iteration that ends with `ret < 0`. -/
def Outcome.fail (e : UnwError) (s : Cfi) : Outcome := ⟨some e, s⟩

/-- An iteration that ends with `ret >= 0`. -/
def Outcome.cont (s : Cfi) : Outcome := ⟨none, s⟩

/-- A reader call `(ret = f (as, a, addr, &v, arg)) < 0` followed by `break` on
failure: the byte cursor is advanced as the reader says, and the rest of the
case runs on success. -/
def rd_then (r : Rd) (s : Cfi) (k : Nat → Cfi → Outcome) : Outcome :=
  match r.ret with
  | some e => Outcome.fail e { s with addr := r.addr }
  | none => k r.val { s with addr := r.addr }

/-- The case bodies of the `switch` in `run_cfi_program`, for the opcode `op`
(after masking) and the embedded `operand`; `s` is the state after the opcode
byte has been read. -/
def cfi_case (t : Target) (env : Env) (a : Accessors) (pi : ProcInfo) (dci : CieInfo)
    (op : dwarf_cfa_t) (operand : Nat) (s : Cfi) : Outcome :=
  match op with
  | DW_CFA_advance_loc =>
    Outcome.cont { s with ip := wadd s.ip (wmul operand dci.code_align) }
  | DW_CFA_advance_loc1 =>
    rd_then (a.dwarf_readu8 s.addr) s fun u8 s =>
      Outcome.cont { s with ip := wadd s.ip (wmul (u8 % 2 ^ 8) dci.code_align) }
  | DW_CFA_advance_loc2 =>
    rd_then (a.dwarf_readu16 s.addr) s fun u16 s =>
      Outcome.cont { s with ip := wadd s.ip (wmul (u16 % 2 ^ 16) dci.code_align) }
  | DW_CFA_advance_loc4 =>
    rd_then (a.dwarf_readu32 s.addr) s fun u32 s =>
      Outcome.cont { s with ip := wadd s.ip (wmul (u32 % 2 ^ 32) dci.code_align) }
  | DW_CFA_MIPS_advance_loc8 =>
    if t.mips then
      rd_then (a.dwarf_readu64 s.addr) s fun u64 s =>
        Outcome.cont { s with ip := wadd s.ip (wmul (u64 % 2 ^ 64) dci.code_align) }
    else Outcome.fail EINVAL s
  | DW_CFA_offset =>
    let regnum := operand
    if regnum ≥ t.NUM_PRESERVED_REGS then Outcome.fail EBADREG s
    else
      rd_then (a.dwarf_read_uleb128 s.addr) s fun val s =>
        Outcome.cont { s with sr := set_reg s.sr regnum Where.CFAREL (wmul val dci.data_align) }
  | DW_CFA_offset_extended =>
    rd_then (read_regnum t a s.addr) s fun regnum s =>
    rd_then (a.dwarf_read_uleb128 s.addr) s fun val s =>
      Outcome.cont { s with sr := set_reg s.sr regnum Where.CFAREL (wmul val dci.data_align) }
  | DW_CFA_offset_extended_sf =>
    rd_then (read_regnum t a s.addr) s fun regnum s =>
    rd_then (a.dwarf_read_sleb128 s.addr) s fun val s =>
      Outcome.cont { s with sr := set_reg s.sr regnum Where.CFAREL (wmul val dci.data_align) }
  | DW_CFA_restore =>
    let regnum := operand
    if regnum ≥ t.NUM_PRESERVED_REGS then Outcome.fail EINVAL s
    else
      let sr1 := set_reg s.sr regnum (s.sr.rs_initial.where_ regnum) (s.sr.rs_initial.val regnum)
      Outcome.cont { s with sr := sr1 }
  | DW_CFA_restore_extended =>
    rd_then (a.dwarf_read_uleb128 s.addr) s fun regnum s =>
      if regnum ≥ t.NUM_PRESERVED_REGS then Outcome.fail EINVAL s
      else
        let sr1 := set_reg s.sr regnum (s.sr.rs_initial.where_ regnum) (s.sr.rs_initial.val regnum)
        Outcome.cont { s with sr := sr1 }
  | DW_CFA_nop => Outcome.cont s
  | DW_CFA_set_loc =>
    let r := a.dwarf_read_encoded_pointer dci.fde_encoding pi s.addr
    match r.ret with
    | some e => Outcome.fail e { s with addr := r.addr, ip := r.val }
    | none => Outcome.cont { s with addr := r.addr, ip := r.val }
  | DW_CFA_undefined =>
    rd_then (read_regnum t a s.addr) s fun regnum s =>
      Outcome.cont { s with sr := set_reg s.sr regnum Where.UNDEF 0 }
  | DW_CFA_same_value =>
    rd_then (read_regnum t a s.addr) s fun regnum s =>
      Outcome.cont { s with sr := set_reg s.sr regnum Where.SAME 0 }
  | DW_CFA_register =>
    rd_then (read_regnum t a s.addr) s fun regnum s =>
    rd_then (a.dwarf_read_uleb128 s.addr) s fun val s =>
      Outcome.cont { s with sr := set_reg s.sr regnum Where.REG val }
  | DW_CFA_remember_state =>
    match push_rstate_stack env s.sr.rs_current s.rs_stack with
    | none => Outcome.fail ENOMEM s
    | some stk => Outcome.cont { s with rs_stack := s.sr.rs_current :: stk.tail }
  | DW_CFA_restore_state =>
    match s.rs_stack with
    | [] => Outcome.fail EINVAL s
    | top :: _ =>
      let sr1 := { s.sr with rs_current := top }
      Outcome.cont { s with sr := sr1, rs_stack := pop_rstate_stack s.rs_stack }
  | DW_CFA_def_cfa =>
    rd_then (read_regnum t a s.addr) s fun regnum s =>
    rd_then (a.dwarf_read_uleb128 s.addr) s fun val s =>
      let sr1 := set_reg s.sr t.CFA_REG_COLUMN Where.REG regnum
      Outcome.cont { s with sr := set_reg sr1 t.CFA_OFF_COLUMN Where.UNDEF val }
  | DW_CFA_def_cfa_sf =>
    rd_then (read_regnum t a s.addr) s fun regnum s =>
    rd_then (a.dwarf_read_sleb128 s.addr) s fun val s =>
      let sr1 := set_reg s.sr t.CFA_REG_COLUMN Where.REG regnum
      Outcome.cont { s with sr := set_reg sr1 t.CFA_OFF_COLUMN Where.UNDEF (wmul val dci.data_align) }
  | DW_CFA_def_cfa_register =>
    rd_then (read_regnum t a s.addr) s fun regnum s =>
      Outcome.cont { s with sr := set_reg s.sr t.CFA_REG_COLUMN Where.REG regnum }
  | DW_CFA_def_cfa_offset =>
    rd_then (a.dwarf_read_uleb128 s.addr) s fun val s =>
      Outcome.cont { s with sr := set_reg s.sr t.CFA_OFF_COLUMN Where.UNDEF val }
  | DW_CFA_def_cfa_offset_sf =>
    rd_then (a.dwarf_read_sleb128 s.addr) s fun val s =>
      Outcome.cont { s with sr := set_reg s.sr t.CFA_OFF_COLUMN Where.UNDEF (wmul val dci.data_align) }
  | DW_CFA_def_cfa_expression =>
    let s1 := { s with sr := set_reg s.sr t.CFA_REG_COLUMN Where.EXPR s.addr }
    rd_then (a.dwarf_read_uleb128 s1.addr) s1 fun len s =>
      Outcome.cont { s with addr := wadd s.addr len }
  | DW_CFA_expression =>
    rd_then (read_regnum t a s.addr) s fun regnum s =>
      let s1 := { s with sr := set_reg s.sr regnum Where.EXPR s.addr }
      rd_then (a.dwarf_read_uleb128 s1.addr) s1 fun len s =>
        Outcome.cont { s with addr := wadd s.addr len }
  | DW_CFA_val_expression =>
    rd_then (read_regnum t a s.addr) s fun regnum s =>
      let s1 := { s with sr := set_reg s.sr regnum Where.VAL_EXPR s.addr }
      rd_then (a.dwarf_read_uleb128 s1.addr) s1 fun len s =>
        Outcome.cont { s with addr := wadd s.addr len }
  | DW_CFA_GNU_args_size =>
    rd_then (a.dwarf_read_uleb128 s.addr) s fun val s =>
      Outcome.cont { s with sr := { s.sr with args_size := val } }
  | DW_CFA_GNU_negative_offset_extended =>
    rd_then (read_regnum t a s.addr) s fun regnum s =>
    rd_then (a.dwarf_read_uleb128 s.addr) s fun val s =>
      Outcome.cont { s with sr := set_reg s.sr regnum Where.CFAREL (wneg (wmul val dci.data_align)) }
  | DW_CFA_GNU_window_save =>
    if t.sparc then Outcome.cont { s with sr := sparc_window_save s.sr 16 16 }
    else if t.aarch64 then Outcome.cont { s with sr := aarch64_negate_ra_sign_state t s.sr }
    else Outcome.fail EINVAL s
  | DW_CFA_lo_user => Outcome.fail EINVAL s
  | DW_CFA_hi_user => Outcome.fail EINVAL s

/-- The accessors `run_cfi_program` selects: those of the local address space
for `.debug_frame` CFI, else those of the cursor's address space. -/
def select_acc (env : Env) (pi : ProcInfo) : Accessors :=
  if pi.debug_frame then env.local_acc else env.remote_acc

/-- One iteration of the `while` loop of `run_cfi_program`: read the opcode
byte, split a packed opcode, and run the matching case of the `switch`. The
`switch` has no `default` label: when no case matches, control leaves the
`switch` with `ret` as the opcode read left it. -/
def cfi_step (t : Target) (env : Env) (pi : ProcInfo) (dci : CieInfo) (s : Cfi) : Outcome :=
  let a := select_acc env pi
  rd_then (a.dwarf_readu8 s.addr) s fun b s =>
    let op0 := b % 2 ^ 8
    let operand := if op0 &&& DWARF_CFA_OPCODE_MASK ≠ 0 then op0 &&& DWARF_CFA_OPERAND_MASK else 0
    let op := if op0 &&& DWARF_CFA_OPCODE_MASK ≠ 0 then op0 &&& (255 - DWARF_CFA_OPERAND_MASK) else op0
    match decode_cfa op with
    | some k => cfi_case t env a pi dci k operand s
    | none => Outcome.cont s

/-- The loop of `run_cfi_program`: `while (*ip <= end_ip && *addr < end_addr &&
ret >= 0)`. Returns `none` when `fuel` iterations do not finish the loop. -/
def run_cfi_loop (t : Target) (env : Env) (pi : ProcInfo) (dci : CieInfo)
    (end_ip end_addr : Nat) : Nat → Cfi → Option Outcome
  | 0, s => if s.ip ≤ end_ip ∧ s.addr < end_addr then none else some (Outcome.cont s)
  | fuel + 1, s =>
    if s.ip ≤ end_ip ∧ s.addr < end_addr then
      match (cfi_step t env pi dci s).ret with
      | some _ => some (cfi_step t env pi dci s)
      | none => run_cfi_loop t env pi dci end_ip end_addr fuel (cfi_step t env pi dci s).st
    else some (Outcome.cont s)

/-- The function `run_cfi_program`; the final `if (ret > 0) ret = 0` is the
identity on `Option UnwError`. -/
def run_cfi_program (t : Target) (env : Env) (pi : ProcInfo) (sr : StateRecord)
    (ip end_ip addr end_addr : Nat) (rs_stack : List RegState) (dci : CieInfo)
    (fuel : Nat) : Option Outcome :=
  run_cfi_loop t env pi dci end_ip end_addr fuel ⟨ip, addr, sr, rs_stack⟩

/-! ## The FDE/CIE driver -/

/-- What a driver leaves behind: its return code, the state record, and its
local variable `rs_stack` at the `return`. -/
structure DriverOut where
  ret : Option UnwError
  sr : StateRecord
  rs_stack : List RegState

/-- The record after `memset (sr, 0, sizeof (*sr))`. -/
def zero_state_record : StateRecord :=
  { rs_initial := ⟨0, fun _ => Where.UNDEF, fun _ => 0⟩,
    rs_current := ⟨0, fun _ => Where.UNDEF, fun _ => 0⟩,
    args_size := 0 }

/-- The loop `for (i = 0; i < DWARF_NUM_PRESERVED_REGS + 2; ++i) set_reg (sr, i,
DWARF_WHERE_SAME, 0)` of `setup_fde`, `n` slots starting at `i`. -/
def setup_fde_loop (sr : StateRecord) (i : Nat) : Nat → StateRecord
  | 0 => sr
  | n + 1 => setup_fde_loop (set_reg sr i Where.SAME 0) (i + 1) n

/-- The state record of `setup_fde` just before the CIE program is run. -/
def setup_fde_seed (t : Target) (dci : CieInfo) : StateRecord :=
  let sr0 := setup_fde_loop zero_state_record 0 (t.NUM_PRESERVED_REGS + 2)
  let sr1 := if t.sp_defaults_to_cfa then set_reg sr0 t.TDEP_DWARF_SP Where.CFA 0 else sr0
  { sr1 with rs_current := { sr1.rs_current with ret_addr_column := dci.ret_addr_column } }

/-- The function `setup_fde`. -/
def setup_fde (t : Target) (env : Env) (pi : ProcInfo) (fuel : Nat) : Option DriverOut :=
  let dci := pi.unwind_info
  let sr := setup_fde_seed t dci
  match run_cfi_program t env pi sr 0 (WORD - 1) dci.cie_instr_start dci.cie_instr_end [] dci fuel with
  | none => none
  | some o =>
    let stk := empty_rstate_stack o.st.rs_stack
    match o.ret with
    | some e => some ⟨some e, o.st.sr, stk⟩
    | none => some ⟨none, { o.st.sr with rs_initial := o.st.sr.rs_current }, stk⟩

/-- The function `parse_fde`; `use_prev_instr` is the cursor's field. -/
def parse_fde (t : Target) (env : Env) (pi : ProcInfo) (use_prev_instr : Nat) (ip : Nat)
    (sr : StateRecord) (fuel : Nat) : Option DriverOut :=
  let dci := pi.unwind_info
  match run_cfi_program t env pi sr pi.start_ip (wsub ip use_prev_instr)
      dci.fde_instr_start dci.fde_instr_end [] dci fuel with
  | none => none
  | some o => some ⟨o.ret, o.st.sr, empty_rstate_stack o.st.rs_stack⟩

/-! ## The register-state cache -/

/-- The macro DWARF_UNW_CACHE_SIZE. -/
def DWARF_UNW_CACHE_SIZE (log_size : Nat) : Nat := 1 <<< log_size

/-- The macro DWARF_UNW_HASH_SIZE. -/
def DWARF_UNW_HASH_SIZE (log_size : Nat) : Nat := 1 <<< (log_size + 1)

/-- The number of values of `unsigned short`, the type of `unw_hash_index_t`,
of the chain fields and of `rr_head`. -/
def USHORT : Nat := 2 ^ 16

/-- The value `(unsigned short) -1`, stored by the flush in every hash head and
every `coll_chain`. -/
def SENTINEL : Nat := USHORT - 1

/-- One element of `cache->links[]`. -/
structure Link where
  ip : Nat
  coll_chain : Nat
  hint : Nat
  valid : Bool
  signal_frame : Bool

/-- Where one of the pointers `cache->hash`, `cache->buckets`, `cache->links`
points: nowhere, to the inline default array, or to a mapped block of the given
number of entries. -/
inductive ArrPtr where
  | null
  | inline
  | heap (entries : Nat)
  deriving DecidableEq, Repr

/-- The record `struct dwarf_rs_cache`. The fields `hash`, `buckets`, `links`
are the contents of the arrays the three pointers point to. -/
structure RsCache where
  rr_head : Nat
  log_size : Nat
  prev_log_size : Nat
  generation : Nat
  hash_ptr : ArrPtr
  buckets_ptr : ArrPtr
  links_ptr : ArrPtr
  hash : Nat → Nat
  buckets : Nat → RegState
  links : Nat → Link

/-- What `dwarf_flush_rs_cache` takes from the memory system: whether each of
the three GET_MEMORY requests delivers, and the contents of arrays at the moment
they are installed (before the flush resets them). -/
structure MemEnv where
  hash_ok : Bool
  buckets_ok : Bool
  links_ok : Bool
  hash0 : Nat → Nat
  buckets0 : Nat → RegState
  links0 : Nat → Link

/-- The first loop of `dwarf_flush_rs_cache`: `links[i].coll_chain = -1;
links[i].ip = 0; links[i].valid = 0` for `n` entries from `i` on. -/
def flush_links_loop (links : Nat → Link) (i : Nat) : Nat → (Nat → Link)
  | 0 => links
  | n + 1 =>
    flush_links_loop
      (Function.update links i { links i with coll_chain := SENTINEL, ip := 0, valid := false })
      (i + 1) n

/-- The second loop of `dwarf_flush_rs_cache`: `hash[i] = -1` for `n` entries
from `i` on. -/
def flush_hash_loop (hash : Nat → Nat) (i : Nat) : Nat → (Nat → Nat)
  | 0 => hash
  | n + 1 => flush_hash_loop (Function.update hash i SENTINEL) (i + 1) n

/-- The first part of `dwarf_flush_rs_cache`, which installs the arrays: the
cache after it, or `none` when a GET_MEMORY request fails. -/
def flush_install (t : Target) (mm : MemEnv) (cache : RsCache) : Option RsCache :=
  if cache.log_size = t.DEFAULT_LOG_UNW_CACHE_SIZE ∨ cache.hash_ptr = ArrPtr.null then
    some { cache with
      hash_ptr := ArrPtr.inline, buckets_ptr := ArrPtr.inline, links_ptr := ArrPtr.inline,
      hash := if cache.hash_ptr = ArrPtr.inline then cache.hash else mm.hash0,
      buckets := if cache.buckets_ptr = ArrPtr.inline then cache.buckets else mm.buckets0,
      links := if cache.links_ptr = ArrPtr.inline then cache.links else mm.links0,
      log_size := t.DEFAULT_LOG_UNW_CACHE_SIZE }
  else
    if mm.hash_ok ∧ mm.buckets_ok ∧ mm.links_ok then
      some { cache with
        hash_ptr := ArrPtr.heap (DWARF_UNW_HASH_SIZE cache.log_size),
        buckets_ptr := ArrPtr.heap (DWARF_UNW_CACHE_SIZE cache.log_size),
        links_ptr := ArrPtr.heap (DWARF_UNW_CACHE_SIZE cache.log_size),
        hash := mm.hash0, buckets := mm.buckets0, links := mm.links0,
        prev_log_size := cache.log_size }
    else none

/-- The cache `dwarf_flush_rs_cache` leaves when it returns -UNW_ENOMEM: the
pointers are what the three GET_MEMORY requests gave. -/
def flush_nomem (mm : MemEnv) (cache : RsCache) : RsCache :=
  { cache with
    hash_ptr := if mm.hash_ok then ArrPtr.heap (DWARF_UNW_HASH_SIZE cache.log_size)
      else ArrPtr.null,
    buckets_ptr := if mm.buckets_ok then ArrPtr.heap (DWARF_UNW_CACHE_SIZE cache.log_size)
      else ArrPtr.null,
    links_ptr := if mm.links_ok then ArrPtr.heap (DWARF_UNW_CACHE_SIZE cache.log_size)
      else ArrPtr.null,
    hash := mm.hash0, buckets := mm.buckets0, links := mm.links0 }

/-- The second part of `dwarf_flush_rs_cache`, from `cache->rr_head = 0` on. -/
def flush_reset (c2 : RsCache) : RsCache :=
  { c2 with
    rr_head := 0,
    links := flush_links_loop c2.links 0 (DWARF_UNW_CACHE_SIZE c2.log_size),
    hash := flush_hash_loop c2.hash 0 (DWARF_UNW_HASH_SIZE c2.log_size) }

/-- The function `dwarf_flush_rs_cache`: its return code and the cache after it. -/
def dwarf_flush_rs_cache (t : Target) (mm : MemEnv) (cache : RsCache) :
    Option UnwError × RsCache :=
  match flush_install t mm cache with
  | none => (some UnwError.ENOMEM, flush_nomem mm cache)
  | some c2 => (none, flush_reset c2)

/-- The constant `magic` of `hash`. -/
def magic : Nat := 0x9e3779b97f4a7c16

/-- The function `hash`: `(unw_hash_index_t) (ip * magic >> (64 - (log_size + 1)))`. -/
def hash (ip : Nat) (log_size : Nat) : Nat :=
  (wmul ip magic >>> (64 - (log_size + 1))) % USHORT

/-- The function `cache_match`. -/
def cache_match (cache : RsCache) (index : Nat) (ip : Nat) : Bool :=
  (cache.links index).valid && (ip == (cache.links index).ip)

/-- The `for` loop of `rs_lookup`, entered with the given `index`: the index of
the bucket returned, `some none` for the return of NULL, and `none` when `fuel`
iterations do not finish the walk. -/
def rs_lookup_loop (cache : RsCache) (ip : Nat) : Nat → Nat → Option (Option Nat)
  | 0, index =>
    if index < DWARF_UNW_CACHE_SIZE cache.log_size then
      if cache_match cache index ip then some (some index) else none
    else some none
  | fuel + 1, index =>
    if index < DWARF_UNW_CACHE_SIZE cache.log_size then
      if cache_match cache index ip then some (some index)
      else rs_lookup_loop cache ip fuel (cache.links index).coll_chain
    else some none

/-- The function `rs_lookup` for a cursor with the given `ip` and `hint`; the
bucket returned is given by its index. -/
def rs_lookup (cache : RsCache) (ip hint : Nat) (fuel : Nat) : Option (Option Nat) :=
  if 0 < hint ∧ cache_match cache ((hint - 1) % USHORT) ip then some (some ((hint - 1) % USHORT))
  else rs_lookup_loop cache ip fuel (cache.hash (hash ip cache.log_size))

/-- The pointer `pindex` of `rs_new`: the address of a hash head or of the
`coll_chain` field of a link. -/
inductive PIndex where
  | head (i : Nat)
  | chain (i : Nat)
  deriving DecidableEq, Repr

/-- The value `*pindex`. -/
def RsCache.deref (cache : RsCache) : PIndex → Nat
  | PIndex.head i => cache.hash i
  | PIndex.chain i => (cache.links i).coll_chain

/-- The assignment `*pindex = v`. -/
def RsCache.assign (cache : RsCache) (p : PIndex) (v : Nat) : RsCache :=
  match p with
  | PIndex.head i => { cache with hash := Function.update cache.hash i v }
  | PIndex.chain i =>
    { cache with links := Function.update cache.links i { cache.links i with coll_chain := v } }

/-- The `for` loop of `rs_new` that removes `head` from its collision chain;
`none` when `fuel` iterations do not finish the walk. -/
def rs_new_unlink (head : Nat) : Nat → RsCache → PIndex → Option RsCache
  | 0, cache, pindex =>
    if cache.deref pindex < DWARF_UNW_CACHE_SIZE cache.log_size then
      if cache.deref pindex = head then
        some (cache.assign pindex (cache.links (cache.deref pindex)).coll_chain)
      else none
    else some cache
  | fuel + 1, cache, pindex =>
    if cache.deref pindex < DWARF_UNW_CACHE_SIZE cache.log_size then
      if cache.deref pindex = head then
        some (cache.assign pindex (cache.links (cache.deref pindex)).coll_chain)
      else rs_new_unlink head fuel cache (PIndex.chain (cache.deref pindex))
    else some cache

/-- The function `rs_new` for a cursor with the given `ip`, for which
`tdep_cache_frame` answers `sig`: the cache after the call and the index of the
bucket returned. -/
def rs_new (cache : RsCache) (ip : Nat) (sig : Bool) (fuel : Nat) : Option (RsCache × Nat) :=
  let head := cache.rr_head
  let c1 := { cache with
    rr_head := ((head + 1) &&& (DWARF_UNW_CACHE_SIZE cache.log_size - 1)) % USHORT }
  let c2 : Option RsCache :=
    if (c1.links head).ip ≠ 0 then
      rs_new_unlink head fuel c1 (PIndex.head (hash (c1.links head).ip c1.log_size))
    else some c1
  match c2 with
  | none => none
  | some c3 =>
    let index := hash ip c3.log_size
    let l1 := Function.update c3.links head { c3.links head with coll_chain := c3.hash index }
    let h1 := Function.update c3.hash index head
    let l2 := Function.update l1 head { l1 head with ip := ip, valid := true, signal_frame := sig }
    some ({ c3 with links := l2, hash := h1 }, head)

/-! ## The cursor and the step engine -/

/-- The location macros of the target layer (`DWARF_NULL_LOC`, `DWARF_MEM_LOC`,
...), over the target's type `Loc` of `dwarf_loc_t`. -/
structure LocOps (Loc : Type) where
  NULL_LOC : Loc
  IS_NULL_LOC : Loc → Bool
  VAL_LOC : Nat → Loc
  MEM_LOC : Nat → Loc
  REG_LOC : Nat → Loc
  FPREG_LOC : Nat → Loc
  IS_REG_LOC : Loc → Bool
  GET_LOC : Loc → Nat

/-- The fields of `struct dwarf_cursor` that `Gparser.c` uses. `frame_info`
stands for the target's private frame bookkeeping, the only part of the cursor
the target hooks write. -/
structure Cursor (Loc : Type) where
  ip : Nat
  cfa : Nat
  loc : Nat → Loc
  hint : Nat
  prev_rs : Nat
  use_prev_instr : Nat
  pi : ProcInfo
  pi_valid : Bool
  pi_is_dynamic : Bool
  stash_frames : Bool
  args_size : Nat
  frame_info : Nat

/-- A return code with one out-parameter. -/
structure RV where
  ret : Option UnwError
  val : Nat

/-- The result of `dwarf_eval_expr`: return code, `*addr` after the call, `*valp`
and `*is_register`. -/
structure EvalOut where
  ret : Option UnwError
  addr : Nat
  val : Nat
  is_register : Bool

/-- The result of a proc-info lookup: the return code (`none` for a
non-negative one) and the proc info it leaves in the cursor. -/
structure ProvOut where
  ret : Option UnwError
  pi : ProcInfo

/-- What the step engine calls but `Gparser.c` does not define. -/
structure StepEnv (Loc : Type) where
  L : LocOps Loc
  dwarf_to_unw_regnum : Nat → Nat
  unw_is_fpreg : Nat → Bool
  unw_get_reg : Cursor Loc → Nat → RV
  dwarf_get : Cursor Loc → Loc → RV
  /-- Arguments: cursor, initial stack value, `*addr`, `len`. -/
  dwarf_eval_expr : Cursor Loc → Nat → Nat → Nat → EvalOut
  tdep_strip_ptrauth_insn_mask : Cursor Loc → Nat → Nat
  tdep_stash_frame : Cursor Loc → RegState → Nat
  tdep_reuse_frame : Cursor Loc → Bool → Nat
  tdep_cache_frame : Cursor Loc → Bool
  tdep_fetch_frame : Cursor Loc → Nat → Nat
  unwi_find_dynamic_proc_info : Nat → ProvOut
  tdep_find_proc_info : Cursor Loc → Nat → ProvOut

/-- The function `eval_location_expr`: the return code and the location stored
through `locp` on success. -/
def eval_location_expr {Loc : Type} (se : StepEnv Loc) (a : Accessors) (c : Cursor Loc)
    (stack_val addr : Nat) : Except UnwError Loc :=
  let r := a.dwarf_read_uleb128 addr
  match r.ret with
  | some e => Except.error e
  | none =>
    let ev := se.dwarf_eval_expr c stack_val r.addr r.val
    match ev.ret with
    | some e => Except.error e
    | none =>
      if ev.is_register then Except.ok (se.L.REG_LOC (se.dwarf_to_unw_regnum ev.val))
      else Except.ok (se.L.MEM_LOC ev.val)

/-- The computation of the CFA at the start of `apply_reg_state`. The `assert`
of the second branch is not part of the control flow. -/
def apply_cfa {Loc : Type} (t : Target) (se : StepEnv Loc) (a : Accessors) (c : Cursor Loc)
    (rs : RegState) : Except UnwError Nat :=
  if rs.where_ t.CFA_REG_COLUMN = Where.REG then
    if rs.val t.CFA_REG_COLUMN = t.TDEP_DWARF_SP ∧ t.TDEP_DWARF_SP < t.NUM_PRESERVED_REGS + 2 ∧
        se.L.IS_NULL_LOC (c.loc t.TDEP_DWARF_SP) = true then
      Except.ok (wadd c.cfa (rs.val t.CFA_OFF_COLUMN))
    else
      let r := se.unw_get_reg c (se.dwarf_to_unw_regnum (rs.val t.CFA_REG_COLUMN))
      match r.ret with
      | some e => Except.error e
      | none => Except.ok (wadd r.val (rs.val t.CFA_OFF_COLUMN))
  else
    match eval_location_expr se a c 0 (rs.val t.CFA_REG_COLUMN) with
    | Except.error e => Except.error e
    | Except.ok cfa_loc =>
      if se.L.IS_REG_LOC cfa_loc then Except.error UnwError.EBADFRAME
      else Except.ok (se.L.GET_LOC cfa_loc)

/-- The body of the loop over the preserved registers in `apply_reg_state`, for
register `i`: the array `new_loc` after it, or the error returned. -/
def apply_slot {Loc : Type} (t : Target) (se : StepEnv Loc) (a : Accessors) (c : Cursor Loc)
    (rs : RegState) (cfa : Nat) (i : Nat) (new_loc : Nat → Loc) : Except UnwError (Nat → Loc) :=
  match rs.where_ i with
  | Where.UNDEF => Except.ok (Function.update new_loc i se.L.NULL_LOC)
  | Where.SAME => Except.ok new_loc
  | Where.CFA => Except.ok (Function.update new_loc i (se.L.VAL_LOC cfa))
  | Where.CFAREL => Except.ok (Function.update new_loc i (se.L.MEM_LOC (wadd cfa (rs.val i))))
  | Where.REG =>
    if t.s390x ∧ se.unw_is_fpreg (se.dwarf_to_unw_regnum (rs.val i)) = true then
      Except.ok (Function.update new_loc i (se.L.FPREG_LOC (se.dwarf_to_unw_regnum (rs.val i))))
    else Except.ok (Function.update new_loc i (new_loc (rs.val i)))
  | Where.EXPR =>
    match eval_location_expr se a c cfa (rs.val i) with
    | Except.error e => Except.error e
    | Except.ok l => Except.ok (Function.update new_loc i l)
  | Where.VAL_EXPR =>
    match eval_location_expr se a c cfa (rs.val i) with
    | Except.error e => Except.error e
    | Except.ok l => Except.ok (Function.update new_loc i (se.L.VAL_LOC (se.L.GET_LOC l)))

/-- The loop `for (i = 0; i < DWARF_NUM_PRESERVED_REGS; ++i)` of
`apply_reg_state`, `n` registers from `i` on. -/
def apply_loop {Loc : Type} (t : Target) (se : StepEnv Loc) (a : Accessors) (c : Cursor Loc)
    (rs : RegState) (cfa : Nat) : Nat → Nat → (Nat → Loc) → Except UnwError (Nat → Loc)
  | _, 0, new_loc => Except.ok new_loc
  | i, n + 1, new_loc =>
    match apply_slot t se a c rs cfa i new_loc with
    | Except.error e => Except.error e
    | Except.ok nl => apply_loop t se a c rs cfa (i + 1) n nl

/-- The return value of `apply_reg_state` and of `dwarf_step` (an `int`: a
non-negative value or `-UNW_E...`) with the cursor after the call. -/
structure StepOut (Loc : Type) where
  ret : Except UnwError Nat
  c : Cursor Loc

/-- The cursor after `memcpy (c->loc, new_loc, sizeof (new_loc)); c->cfa = cfa`. -/
def apply_store {Loc : Type} (t : Target) (c : Cursor Loc) (cfa : Nat) (new_loc : Nat → Loc) :
    Cursor Loc :=
  { c with loc := fun i => if i < t.NUM_PRESERVED_REGS then new_loc i else c.loc i, cfa := cfa }

/-- The part of `apply_reg_state` that sets `c->ip` from the return-address
column: the cursor after it, or the error returned by `dwarf_get`. -/
def apply_ip {Loc : Type} (t : Target) (se : StepEnv Loc) (c1 : Cursor Loc) (rs : RegState) :
    Except UnwError (Cursor Loc) :=
  if se.L.IS_NULL_LOC (c1.loc rs.ret_addr_column) then Except.ok { c1 with ip := 0 }
  else
    let r := se.dwarf_get c1 (c1.loc rs.ret_addr_column)
    match r.ret with
    | some e => Except.error e
    | none =>
      if t.aarch64 ∧ rs.val t.RA_SIGN_STATE ≠ 0 then
        Except.ok { c1 with ip := se.tdep_strip_ptrauth_insn_mask c1 r.val }
      else Except.ok { c1 with ip := r.val }

/-- The end of `apply_reg_state`, from `ret = (c->ip != 0) ? 1 : 0` on: the
stagnation guard and the stash hook; `c2` is the cursor at that point. -/
def apply_guard {Loc : Type} (se : StepEnv Loc) (prev_ip prev_cfa : Nat) (c2 : Cursor Loc)
    (rs : RegState) : StepOut Loc :=
  if c2.ip = prev_ip ∧ c2.cfa = prev_cfa then ⟨Except.error UnwError.EBADFRAME, c2⟩
  else
    let c3 := if c2.stash_frames then { c2 with frame_info := se.tdep_stash_frame c2 rs } else c2
    ⟨Except.ok (if c2.ip ≠ 0 then 1 else 0), c3⟩

/-- The part of `apply_reg_state` from `memcpy (c->loc, new_loc, ...)` to the
end: commit, return address, stagnation guard, stash hook. -/
def apply_commit {Loc : Type} (t : Target) (se : StepEnv Loc) (c : Cursor Loc)
    (rs : RegState) (cfa : Nat) (new_loc : Nat → Loc) : StepOut Loc :=
  match apply_ip t se (apply_store t c cfa new_loc) rs with
  | Except.error e => ⟨Except.error e, apply_store t c cfa new_loc⟩
  | Except.ok c2 => apply_guard se c.ip c.cfa c2 rs

/-- The function `apply_reg_state`. -/
def apply_reg_state {Loc : Type} (t : Target) (env : Env) (se : StepEnv Loc) (c : Cursor Loc)
    (rs : RegState) : StepOut Loc :=
  if rs.ret_addr_column ≥ t.NUM_PRESERVED_REGS then ⟨Except.error UnwError.EBADFRAME, c⟩
  else
    match apply_cfa t se env.remote_acc c rs with
    | Except.error e => ⟨Except.error e, c⟩
    | Except.ok cfa =>
      match apply_loop t se env.remote_acc c rs cfa 0 t.NUM_PRESERVED_REGS c.loc with
      | Except.error e => ⟨Except.error e, c⟩
      | Except.ok new_loc => apply_commit t se c rs cfa new_loc

/-- The values of `unw_caching_policy_t`. -/
inductive CachingPolicy where
  | NONE
  | GLOBAL
  | PER_THREAD
  deriving DecidableEq, Repr

/-- The fields of the address space that the cache code uses. -/
structure AddrSpace where
  caching_policy : CachingPolicy
  cache_generation : Nat
  global_cache : RsCache

/-- The address space of the cursor together with the thread-local cache of the
calling thread (the `static _Thread_local` variable of `get_rs_cache`). -/
structure World where
  as : AddrSpace
  tls_cache : RsCache

/-- Which cache `get_rs_cache` returned. -/
inductive CacheSel where
  | global
  | tls
  deriving DecidableEq, Repr

/-- The cache a selector designates. -/
def World.cache (w : World) : CacheSel → RsCache
  | CacheSel.global => w.as.global_cache
  | CacheSel.tls => w.tls_cache

/-- Assignment to the cache a selector designates. -/
def World.set_cache (w : World) (sel : CacheSel) (k : RsCache) : World :=
  match sel with
  | CacheSel.global => { w with as := { w.as with global_cache := k } }
  | CacheSel.tls => { w with tls_cache := k }

/-- The cache `get_rs_cache` works on: the thread-local one when per-thread
caches are compiled in and the policy asks for them, else the global one. -/
def select_cache (t : Target) (w : World) : CacheSel :=
  if t.cache_per_thread ∧ w.as.caching_policy = CachingPolicy.PER_THREAD
    then CacheSel.tls else CacheSel.global

/-- The branch of `get_rs_cache` taken for a stale or uninitialised cache: copy
the size, flush, copy the generation. -/
def get_rs_cache_flush (t : Target) (mm : MemEnv) (w : World) (sel : CacheSel) :
    Option CacheSel × World :=
  let r := dwarf_flush_rs_cache t mm { w.cache sel with log_size := w.as.global_cache.log_size }
  match r.1 with
  | some _ => (none, w.set_cache sel r.2)
  | none => (some sel, w.set_cache sel { r.2 with generation := w.as.cache_generation })

/-- The function `get_rs_cache`: the cache returned (`none` for NULL) and the
world after the call. Locks and signal masks are not modelled. -/
def get_rs_cache (t : Target) (mm : MemEnv) (w : World) : Option CacheSel × World :=
  if w.as.caching_policy = CachingPolicy.NONE then (none, w)
  else
    if w.as.cache_generation ≠ (w.cache (select_cache t w)).generation ∨
        (w.cache (select_cache t w)).hash_ptr = ArrPtr.null then
      get_rs_cache_flush t mm w (select_cache t w)
    else (some (select_cache t w), w)

/-- The result of `fetch_proc_info`: return code, cursor, and the number of
calls made to the proc-info providers (instrumentation; not part of the C
state). The provider is handed the zeroed `c->pi` and says what it leaves there. -/
structure FetchOut (Loc : Type) where
  ret : Option UnwError
  c : Cursor Loc
  n_proc_info : Nat

/-- The end of `fetch_proc_info`, from the test of `c->pi.format` on; `ret` is
the return code of the provider that answered and `dynamic` tells which one. -/
def fetch_finish {Loc : Type} (se : StepEnv Loc) (ret : Option UnwError) (c2 : Cursor Loc)
    (dynamic : Bool) (ip1 : Nat) (n : Nat) : FetchOut Loc :=
  if c2.pi.format ≠ InfoFormat.DYNAMIC ∧ c2.pi.format ≠ InfoFormat.TABLE ∧
      c2.pi.format ≠ InfoFormat.REMOTE_TABLE then ⟨some UnwError.ENOINFO, c2, n⟩
  else
    match ret with
    | none =>
      ⟨none, { c2 with pi_valid := true, pi_is_dynamic := dynamic,
                       frame_info := se.tdep_fetch_frame
                         { c2 with pi_valid := true, pi_is_dynamic := dynamic } ip1 }, n⟩
    | some e => ⟨some e, { c2 with pi_valid := true, pi_is_dynamic := dynamic }, n⟩

/-- The address `fetch_proc_info` looks up: `ip`, backed up by one (after
clearing the thumb bit on ARM) for a normal call frame. -/
def fetch_ip {Loc : Type} (t : Target) (c : Cursor Loc) (ip : Nat) : Nat :=
  if c.use_prev_instr ≠ 0 then wsub (if t.arm then ip - ip % 2 else ip) 1 else ip

/-- The function `fetch_proc_info`. -/
def fetch_proc_info {Loc : Type} (t : Target) (se : StepEnv Loc) (c : Cursor Loc) (ip : Nat) :
    FetchOut Loc :=
  if (se.unwi_find_dynamic_proc_info (fetch_ip t c ip)).ret = some UnwError.ENOINFO then
    let c1 := { c with pi := (se.unwi_find_dynamic_proc_info (fetch_ip t c ip)).pi }
    match (se.tdep_find_proc_info c1 (fetch_ip t c ip)).ret with
    | some e => ⟨some e, { c1 with pi := (se.tdep_find_proc_info c1 (fetch_ip t c ip)).pi }, 2⟩
    | none =>
      fetch_finish se none { c1 with pi := (se.tdep_find_proc_info c1 (fetch_ip t c ip)).pi }
        false (fetch_ip t c ip) 2
  else
    fetch_finish se (se.unwi_find_dynamic_proc_info (fetch_ip t c ip)).ret
      { c with pi := (se.unwi_find_dynamic_proc_info (fetch_ip t c ip)).pi } true
      (fetch_ip t c ip) 1

/-- The function `parse_dynamic`. -/
def parse_dynamic : Option UnwError := some UnwError.ENOINFO

/-- The function `put_unwind_info`, applied to the cursor's own proc info. -/
def put_unwind_info {Loc : Type} (c : Cursor Loc) : Cursor Loc :=
  if c.pi_is_dynamic then { c with pi_valid := false }
  else if c.pi.has_unwind_info ∧ c.pi.format = InfoFormat.TABLE then
    { c with pi := { c.pi with has_unwind_info := false }, pi_valid := false }
  else { c with pi_valid := false }

/-- The result of `create_state_record_for`: return code, state record, and the
number of `run_cfi_program` invocations made (instrumentation). -/
structure CreateOut where
  ret : Option UnwError
  sr : StateRecord
  n_cfi : Nat

/-- The function `create_state_record_for`; `sr` is the caller's record. -/
def create_state_record_for {Loc : Type} (t : Target) (env : Env) (c : Cursor Loc)
    (sr : StateRecord) (ip : Nat) (fuel : Nat) : Option CreateOut :=
  match c.pi.format with
  | InfoFormat.TABLE | InfoFormat.REMOTE_TABLE =>
    match setup_fde t env c.pi fuel with
    | none => none
    | some o1 =>
      match o1.ret with
      | some e => some ⟨some e, o1.sr, 1⟩
      | none =>
        match parse_fde t env c.pi c.use_prev_instr ip o1.sr fuel with
        | none => none
        | some o2 => some ⟨o2.ret, o2.sr, 2⟩
  | InfoFormat.DYNAMIC => some ⟨parse_dynamic, sr, 0⟩
  | InfoFormat.OTHER => some ⟨some UnwError.EINVAL, sr, 0⟩

/-- The result of `find_reg_state`: return code, cursor, state record, world,
the bucket `rs` points to at the end (`none` for NULL), and the number of
proc-info provider calls and of `run_cfi_program` invocations made
(instrumentation; not part of the C state). -/
structure FindOut (Loc : Type) where
  ret : Option UnwError
  c : Cursor Loc
  sr : StateRecord
  w : World
  rs : Option Nat
  n_proc_info : Nat
  n_cfi : Nat

/-- The tail of `find_reg_state`, from `unsigned short index = -1` on. -/
def find_reg_state_hints {Loc : Type} (se : StepEnv Loc) (w : World) (cache : Option CacheSel)
    (rs : Option Nat) (ret : Option UnwError) (c : Cursor Loc) : Cursor Loc × World :=
  match cache with
  | none => (c, w)
  | some sel =>
    let k := w.cache sel
    let r : Nat × Cursor Loc × RsCache :=
      match rs with
      | none => (SENTINEL, c, k)
      | some index =>
        let c1 := { c with hint := (k.links index).hint }
        let l1 : Link := { k.links c1.prev_rs with hint := (index + 1) % USHORT }
        let k1 := { k with links := Function.update k.links c1.prev_rs l1 }
        (index, { c1 with prev_rs := index }, k1)
    let c2 := match ret with
      | none => { r.2.1 with frame_info := se.tdep_reuse_frame r.2.1 (r.2.2.links r.1).signal_frame }
      | some _ => r.2.1
    (c2, w.set_cache sel r.2.2)

/-- The first branch of `find_reg_state` (the lookup returned bucket `index` of
the cache `sel`), followed by the tail of the function. -/
def find_reg_state_hit {Loc : Type} (se : StepEnv Loc) (w : World) (sel : CacheSel)
    (index : Nat) (c : Cursor Loc) (sr : StateRecord) : FindOut Loc :=
  let k := w.cache sel
  let c1 := { c with use_prev_instr := if (k.links index).signal_frame then 0 else 1 }
  let h := find_reg_state_hints se w (some sel) (some index) none c1
  ⟨none, h.1, { sr with rs_current := k.buckets index }, h.2, some index, 0, 0⟩

/-- What the second branch of `find_reg_state` computes before it touches the
cache: return code, state record, cursor, and the numbers of provider calls and
of interpreter runs. -/
structure Computed (Loc : Type) where
  ret : Option UnwError
  sr : StateRecord
  c : Cursor Loc
  n_proc_info : Nat
  n_cfi : Nat

/-- The second branch of `find_reg_state` up to `c->use_prev_instr =
next_use_prev_instr`. -/
def find_reg_state_compute {Loc : Type} (t : Target) (env : Env) (se : StepEnv Loc)
    (c : Cursor Loc) (sr : StateRecord) (fuel : Nat) : Option (Computed Loc) :=
  let f := fetch_proc_info t se c c.ip
  match f.ret with
  | some e =>
    some ⟨some e, sr, { put_unwind_info f.c with use_prev_instr := f.c.use_prev_instr },
      f.n_proc_info, 0⟩
  | none =>
    match create_state_record_for t env f.c sr f.c.ip fuel with
    | none => none
    | some cr =>
      some ⟨cr.ret, cr.sr,
        { put_unwind_info f.c with
          use_prev_instr := if f.c.pi.unwind_info.signal_frame then 0 else 1 },
        f.n_proc_info, cr.n_cfi⟩

/-- The insertion `rs = rs_new (cache, c); cache->links[rs - cache->buckets].hint
= 0; memcpy (rs, &sr->rs_current, sizeof (*rs))`: the cache after it and the
index of the bucket. -/
def find_reg_state_insert {Loc : Type} (se : StepEnv Loc) (k : RsCache) (c1 : Cursor Loc)
    (sr1 : StateRecord) (fuel : Nat) : Option (RsCache × Nat) :=
  match rs_new k c1.ip (se.tdep_cache_frame c1) fuel with
  | none => none
  | some r =>
    some ({ r.1 with links := Function.update r.1.links r.2 { r.1.links r.2 with hint := 0 },
                     buckets := Function.update r.1.buckets r.2 sr1.rs_current }, r.2)

/-- The second branch of `find_reg_state` (no cache, or the lookup returned
NULL), followed by the tail of the function. -/
def find_reg_state_miss {Loc : Type} (t : Target) (env : Env) (se : StepEnv Loc) (w : World)
    (cache : Option CacheSel) (c : Cursor Loc) (sr : StateRecord) (fuel : Nat) :
    Option (FindOut Loc) :=
  match find_reg_state_compute t env se c sr fuel with
  | none => none
  | some m =>
    match cache, m.ret with
    | some sel, none =>
      match find_reg_state_insert se (w.cache sel) m.c m.sr fuel with
      | none => none
      | some r =>
        let h := find_reg_state_hints se (w.set_cache sel r.1) cache (some r.2) m.ret m.c
        some ⟨m.ret, h.1, m.sr, h.2, some r.2, m.n_proc_info, m.n_cfi⟩
    | _, _ =>
      let h := find_reg_state_hints se w cache none m.ret m.c
      some ⟨m.ret, h.1, m.sr, h.2, none, m.n_proc_info, m.n_cfi⟩

/-- The function `find_reg_state`; `sr` is the caller's (uninitialised) record. -/
def find_reg_state {Loc : Type} (t : Target) (env : Env) (mm : MemEnv) (se : StepEnv Loc)
    (w : World) (c : Cursor Loc) (sr : StateRecord) (fuel : Nat) : Option (FindOut Loc) :=
  match (get_rs_cache t mm w).1 with
  | none => find_reg_state_miss t env se (get_rs_cache t mm w).2 none c sr fuel
  | some sel =>
    match rs_lookup ((get_rs_cache t mm w).2.cache sel) c.ip c.hint fuel with
    | none => none
    | some (some index) => some (find_reg_state_hit se (get_rs_cache t mm w).2 sel index c sr)
    | some none => find_reg_state_miss t env se (get_rs_cache t mm w).2 (some sel) c sr fuel

/-- The function `dwarf_step`, with the world after the call; `sr` is the
uninitialised local record. -/
def dwarf_step {Loc : Type} (t : Target) (env : Env) (mm : MemEnv) (se : StepEnv Loc)
    (w : World) (c : Cursor Loc) (sr : StateRecord) (fuel : Nat) :
    Option (StepOut Loc × World) :=
  match find_reg_state t env mm se w c sr fuel with
  | none => none
  | some f =>
    match f.ret with
    | some e => some (⟨Except.error e, f.c⟩, f.w)
    | none => some (apply_reg_state t env se f.c f.sr.rs_current, f.w)

/-! ## The register-state iterator -/

/-- One call of the callback of `dwarf_reg_states_table_iterate`: the state
record and the interval `[prev_ip, curr_ip)` handed to it. -/
structure Slice where
  rs : RegState
  prev_ip : Nat
  curr_ip : Nat

/-- The state of `dwarf_reg_states_table_iterate`: the return code so far, the
interpreter state (`curr_ip`, `addr`, `sr`, `rs_stack`), and the calls of the
callback made so far, first call first. -/
structure IterSt where
  ret : Option UnwError
  st : Cfi
  out : List Slice

/-- The `while` loop of `dwarf_reg_states_table_iterate`. The callback `cb` is
given the calls made before and the present one and answers with its return
code. `fuel` bounds the number of iterations of this loop and of each run of
the interpreter. -/
def table_iterate_loop (t : Target) (env : Env) (pi : ProcInfo)
    (cb : List Slice → Slice → Option UnwError) (fuel : Nat) : Nat → IterSt → Option IterSt
  | 0, x =>
    if x.ret = none ∧ x.st.ip < pi.end_ip ∧ x.st.addr < pi.unwind_info.fde_instr_end then none
    else some x
  | n + 1, x =>
    if x.ret = none ∧ x.st.ip < pi.end_ip ∧ x.st.addr < pi.unwind_info.fde_instr_end then
      let prev_ip := x.st.ip
      match run_cfi_program t env pi x.st.sr x.st.ip prev_ip x.st.addr
          pi.unwind_info.fde_instr_end x.st.rs_stack pi.unwind_info fuel with
      | none => none
      | some o =>
        if o.ret = none ∧ prev_ip < o.st.ip then
          let sl : Slice := ⟨o.st.sr.rs_current, prev_ip, o.st.ip⟩
          table_iterate_loop t env pi cb fuel n ⟨cb x.out sl, o.st, x.out ++ [sl]⟩
        else table_iterate_loop t env pi cb fuel n ⟨o.ret, o.st, x.out⟩
    else some x

/-- The function `dwarf_reg_states_table_iterate`: its return code and the calls
of the callback it made, first call first. -/
def dwarf_reg_states_table_iterate (t : Target) (env : Env) (pi : ProcInfo)
    (cb : List Slice → Slice → Option UnwError) (fuel : Nat) :
    Option (Option UnwError × List Slice × List RegState) :=
  match setup_fde t env pi fuel with
  | none => none
  | some o0 =>
    match table_iterate_loop t env pi cb fuel fuel
        ⟨o0.ret, ⟨pi.start_ip, pi.unwind_info.fde_instr_start, o0.sr, []⟩, []⟩ with
    | none => none
    | some x =>
      let stk := empty_rstate_stack x.st.rs_stack
      let limit := if t.need_last_ip then pi.last_ip else pi.end_ip
      if x.ret = none ∧ x.st.ip < limit then
        let sl : Slice := ⟨x.st.sr.rs_current, x.st.ip, limit⟩
        some (cb x.out sl, x.out ++ [sl], stk)
      else some (x.ret, x.out, stk)

/-! ## Notions used in the statements -/

/-- The opcodes whose register operand is read by `read_regnum`. -/
def regnum_opcodes : List dwarf_cfa_t :=
  open dwarf_cfa_t in
  [DW_CFA_offset_extended, DW_CFA_offset_extended_sf, DW_CFA_undefined, DW_CFA_same_value,
   DW_CFA_register, DW_CFA_def_cfa, DW_CFA_def_cfa_sf, DW_CFA_def_cfa_register,
   DW_CFA_expression, DW_CFA_val_expression, DW_CFA_GNU_negative_offset_extended]

/-- Whether the interval of a slice contains `ip`. -/
def Slice.contains (ip : Nat) (sl : Slice) : Bool :=
  decide (sl.prev_ip ≤ ip ∧ ip < sl.curr_ip)

/-- The value under `Except.ok`, or `d` for an error. -/
def Except.get_or {ε α : Type} (d : α) : Except ε α → α
  | Except.ok a => a
  | Except.error _ => d

/-! ## Balanced runs (for remember_state / restore_state) -/

/-- The opcode byte at the byte cursor of `s` is read successfully and is `b`. -/
def opcode_at (env : Env) (pi : ProcInfo) (s : Cfi) (b : Nat) : Prop :=
  ((select_acc env pi).dwarf_readu8 s.addr).ret = none ∧
  ((select_acc env pi).dwarf_readu8 s.addr).val % 2 ^ 8 = b

instance (env : Env) (pi : ProcInfo) (s : Cfi) (b : Nat) : Decidable (opcode_at env pi s b) := by
  unfold opcode_at; infer_instance

/-- The state after `n` further iterations of the loop of `run_cfi_program`
from `s`, provided the loop condition holds before each of them, each ends with
`ret >= 0`, and each leaves more than `d` snapshots on the state-record stack;
`none` otherwise. -/
def run_balanced (t : Target) (env : Env) (pi : ProcInfo) (dci : CieInfo)
    (end_ip end_addr d : Nat) : Nat → Cfi → Option Cfi
  | 0, s => some s
  | n + 1, s =>
    if s.ip ≤ end_ip ∧ s.addr < end_addr then
      match (cfi_step t env pi dci s).ret with
      | some _ => none
      | none =>
        if d < (cfi_step t env pi dci s).st.rs_stack.length then
          run_balanced t env pi dci end_ip end_addr d n (cfi_step t env pi dci s).st
        else none
    else none

/-! ## Collision chains -/

/-- The indices the walk `index = links[index].coll_chain` visits from `i` on,
at most `n + 1` of them, up to the first index that is not below the cache size. -/
def chain (cache : RsCache) : Nat → Nat → List Nat
  | 0, i => if i < DWARF_UNW_CACHE_SIZE cache.log_size then [i] else []
  | n + 1, i =>
    if i < DWARF_UNW_CACHE_SIZE cache.log_size then i :: chain cache n (cache.links i).coll_chain
    else []

/-- Whether the walk from `i` reaches an index that is not below the cache size
after at most `n` entries. -/
def chain_ends (cache : RsCache) : Nat → Nat → Bool
  | 0, i => !decide (i < DWARF_UNW_CACHE_SIZE cache.log_size)
  | n + 1, i =>
    if i < DWARF_UNW_CACHE_SIZE cache.log_size then chain_ends cache n (cache.links i).coll_chain
    else true

/-- The result of `rs_lookup` in the words of the specification: the bucket
`hint - 1` when the hint is positive and that entry is valid with the queried
ip; otherwise the first entry on the chain from `hash[hash (ip)]` that is valid
and has the queried ip; otherwise a miss. Of the chain the first `fuel + 1`
entries are considered; when none of them matches and the chain is longer, the
result is `none`. -/
def rs_lookup_spec (cache : RsCache) (ip hint : Nat) (fuel : Nat) : Option (Option Nat) :=
  if 0 < hint ∧ (cache.links (hint - 1)).valid = true ∧ (cache.links (hint - 1)).ip = ip then
    some (some (hint - 1))
  else
    match (chain cache fuel (cache.hash (hash ip cache.log_size))).find?
        (fun i => (cache.links i).valid && (cache.links i).ip == ip) with
    | some i => some (some i)
    | none =>
      if chain_ends cache fuel (cache.hash (hash ip cache.log_size)) then some none else none

/-! ## Relations between caches -/

/-- The cache `k1` differs from `k` in hash heads and `coll_chain` fields only. -/
def same_entries (k k1 : RsCache) : Prop :=
  k1.rr_head = k.rr_head ∧ k1.log_size = k.log_size ∧ k1.prev_log_size = k.prev_log_size ∧
  k1.generation = k.generation ∧ k1.hash_ptr = k.hash_ptr ∧ k1.buckets_ptr = k.buckets_ptr ∧
  k1.links_ptr = k.links_ptr ∧ k1.buckets = k.buckets ∧
  ∀ i, (k1.links i).ip = (k.links i).ip ∧ (k1.links i).valid = (k.links i).valid ∧
    (k1.links i).hint = (k.links i).hint ∧ (k1.links i).signal_frame = (k.links i).signal_frame

/-! ## A concrete address space, for examples -/

/-- Modelled from the spec: the byte reader of the address-space accessor set
(`dwarf_readu8` is not among the sources), over a memory that holds the bytes
`m` from address 0 on; a read outside it fails. -/
def mem_readu8 (m : List Nat) (addr : Nat) : Rd :=
  match m.get? addr with
  | some b => ⟨none, b % 256, (addr + 1) % WORD⟩
  | none => ⟨some EINVAL, 0, (addr + 1) % WORD⟩

/-- Modelled from the spec: a little-endian reader of `n` bytes of the
address-space accessor set (`dwarf_readu16/32/64` are not among the sources). -/
def mem_readle (m : List Nat) : Nat → Nat → Rd
  | 0, addr => ⟨none, 0, addr⟩
  | n + 1, addr =>
    let b := mem_readu8 m addr
    match b.ret with
    | some e => ⟨some e, 0, b.addr⟩
    | none =>
      let r := mem_readle m n b.addr
      ⟨r.ret, b.val + 256 * r.val, r.addr⟩

/-- Modelled from the spec: the ULEB128 decoder of the address-space accessor
set (`dwarf_read_uleb128` is not among the sources): seven bits per byte, low
group first, the high bit of a byte announcing another one. -/
def mem_read_uleb128 (m : List Nat) : Nat → Nat → Nat → Nat → Rd
  | 0, addr, val, _ => ⟨some EINVAL, val, addr⟩
  | n + 1, addr, val, shift =>
    let b := mem_readu8 m addr
    match b.ret with
    | some e => ⟨some e, val, b.addr⟩
    | none =>
      let val1 := (val ||| ((b.val &&& 0x7f) <<< shift)) % WORD
      if b.val &&& 0x80 ≠ 0 then mem_read_uleb128 m n b.addr val1 (shift + 7)
      else ⟨none, val1, b.addr⟩

/-- Modelled from the spec: the SLEB128 decoder of the address-space accessor
set (`dwarf_read_sleb128` is not among the sources): as ULEB128, sign-extended
from bit 6 of the last byte. -/
def mem_read_sleb128 (m : List Nat) : Nat → Nat → Nat → Nat → Rd
  | 0, addr, val, _ => ⟨some EINVAL, val, addr⟩
  | n + 1, addr, val, shift =>
    let b := mem_readu8 m addr
    match b.ret with
    | some e => ⟨some e, val, b.addr⟩
    | none =>
      let val1 := (val ||| ((b.val &&& 0x7f) <<< shift)) % WORD
      if b.val &&& 0x80 ≠ 0 then mem_read_sleb128 m n b.addr val1 (shift + 7)
      else if shift + 7 < 64 ∧ b.val &&& 0x40 ≠ 0 then
        ⟨none, (val1 + (WORD - 2 ^ (shift + 7))) % WORD, b.addr⟩
      else ⟨none, val1, b.addr⟩

/-- The accessors of the memory holding the bytes `m` from address 0 on;
encoded pointers are absolute 8-byte words. -/
def mem_acc (m : List Nat) : Accessors :=
  { dwarf_readu8 := mem_readu8 m,
    dwarf_readu16 := mem_readle m 2,
    dwarf_readu32 := mem_readle m 4,
    dwarf_readu64 := mem_readle m 8,
    dwarf_read_uleb128 := fun addr => mem_read_uleb128 m 10 addr 0 0,
    dwarf_read_sleb128 := fun addr => mem_read_sleb128 m 10 addr 0 0,
    dwarf_read_encoded_pointer := fun _ _ addr => mem_readle m 8 addr }

/-- The environment of the memory `m`, with a pool that never runs dry. -/
def mem_env (m : List Nat) : Env :=
  { local_acc := mem_acc m, remote_acc := mem_acc m, alloc_ok := fun _ => true }

/-- The x86-64 target: 17 preserved registers, stack pointer in column 7. -/
def x86_64 : Target :=
  { NUM_PRESERVED_REGS := 17, TDEP_DWARF_SP := 7, sparc := false, aarch64 := false,
    mips := false, sp_defaults_to_cfa := true, RA_SIGN_STATE := 0, need_last_ip := false,
    DEFAULT_LOG_UNW_CACHE_SIZE := 7, cache_per_thread := false, s390x := false,
    arm := false }

/-- A CIE descriptor with `code_align = 1`, the given `data_align`, return
address in column 16, CIE program `[cs, ce)` and FDE program `[fs, fe)`. -/
def mk_cie (data_align cs ce fs fe : Nat) : CieInfo :=
  { cie_instr_start := cs, cie_instr_end := ce, fde_instr_start := fs, fde_instr_end := fe,
    code_align := 1, data_align := data_align, ret_addr_column := 16, fde_encoding := 0,
    signal_frame := false }

/-- A proc info covering `[start_ip, end_ip)`. -/
def mk_pi (start_ip end_ip : Nat) (dci : CieInfo) : ProcInfo :=
  { format := InfoFormat.TABLE, start_ip := start_ip, end_ip := end_ip, last_ip := end_ip,
    debug_frame := false, has_unwind_info := true, unwind_info := dci }


/-! ## A concrete cursor, for examples -/

/-- Modelled from the spec: the locations of the target layer (`dwarf_loc_t` and
its macros are not among the sources): the null location, a memory location, a
register location, a value location, a floating-point register location. -/
inductive XLoc where
  | null
  | mem (addr : Nat)
  | reg (r : Nat)
  | val (v : Nat)
  | fpreg (r : Nat)
  deriving DecidableEq, Repr

/-- Modelled from the spec: the location macros over `XLoc`. -/
def xloc_ops : LocOps XLoc :=
  { NULL_LOC := XLoc.null,
    IS_NULL_LOC := fun l => l == XLoc.null,
    VAL_LOC := XLoc.val,
    MEM_LOC := XLoc.mem,
    REG_LOC := XLoc.reg,
    FPREG_LOC := XLoc.fpreg,
    IS_REG_LOC := fun l => match l with
      | XLoc.reg _ => true
      | _ => false,
    GET_LOC := fun l => match l with
      | XLoc.null => 0
      | XLoc.mem a => a
      | XLoc.reg r => r
      | XLoc.val v => v
      | XLoc.fpreg r => r }

/-- Modelled from the spec: `dwarf_get` over `XLoc`, for a machine with register
file `regs` and memory `memw` (one word per address). -/
def x_get (regs memw : Nat → Nat) (l : XLoc) : RV :=
  match l with
  | XLoc.null => ⟨some UnwError.EINVAL, 0⟩
  | XLoc.mem a => ⟨none, memw a⟩
  | XLoc.reg r => ⟨none, regs r⟩
  | XLoc.val v => ⟨none, v⟩
  | XLoc.fpreg _ => ⟨some UnwError.EBADREG, 0⟩

/-- A step environment over `XLoc` for a machine with register file `regs` and
memory `memw`: registers are read through the cursor's locations (a register
whose location is null is read from the register file), no expression can be
evaluated, the hooks leave the frame bookkeeping alone, and the table provider
answers every lookup with `pi`. -/
def x_env (regs memw : Nat → Nat) (pi : ProcInfo) : StepEnv XLoc :=
  { L := xloc_ops,
    dwarf_to_unw_regnum := fun r => r,
    unw_is_fpreg := fun _ => false,
    unw_get_reg := fun c r =>
      if c.loc r = XLoc.null then ⟨none, regs r⟩ else x_get regs memw (c.loc r),
    dwarf_get := fun _ l => x_get regs memw l,
    dwarf_eval_expr := fun _ _ addr _ => ⟨some UnwError.EINVAL, addr, 0, false⟩,
    tdep_strip_ptrauth_insn_mask := fun _ ip => ip,
    tdep_stash_frame := fun c _ => c.frame_info,
    tdep_reuse_frame := fun c _ => c.frame_info,
    tdep_cache_frame := fun _ => false,
    tdep_fetch_frame := fun c _ => c.frame_info,
    unwi_find_dynamic_proc_info := fun _ => ⟨some UnwError.ENOINFO, pi⟩,
    tdep_find_proc_info := fun _ _ => ⟨none, pi⟩ }

/-- A cursor at `ip` with the given CFA in which every register lives in
itself. -/
def x_cursor (ip cfa : Nat) (pi : ProcInfo) : Cursor XLoc :=
  { ip := ip, cfa := cfa, loc := fun r => XLoc.reg r, hint := 0, prev_rs := 0,
    use_prev_instr := 0, pi := pi, pi_valid := false, pi_is_dynamic := false,
    stash_frames := false, args_size := 0, frame_info := 0 }

/-! ## The remember/restore example of the specification -/

/-- The CFI program `offset r5 factor 1; remember_state; offset r5 factor 2;
restore_state`. -/
def rr_prog : List Nat := [0x85, 0x01, 0x0a, 0x85, 0x02, 0x0b]

/-- A CIE descriptor with `data_align = -8` whose FDE program is `rr_prog`. -/
def rr_dci : CieInfo := mk_cie (WORD - 8) 0 0 0 6

/-- The proc info of the remember/restore example. -/
def rr_pi : ProcInfo := mk_pi 0 100 rr_dci

/-- The interpreter state of the example after `k` iterations from the seeded
record. -/
def rr_state : Nat → Cfi
  | 0 => ⟨0, 0, setup_fde_seed x86_64 rr_dci, []⟩
  | k + 1 => (cfi_step x86_64 (mem_env rr_prog) rr_pi rr_dci (rr_state k)).st

/-! ## An example where a register is saved in a register saved before it -/

/-- The CIE program `def_cfa r7, 16` followed by the FDE program `offset r3
factor 1; register r5, r3`. -/
def reg_prog : List Nat := [0x0c, 0x07, 0x10, 0x83, 0x01, 0x09, 0x05, 0x03]

/-- The proc info of the example: `data_align = -8`, CIE program at `[0, 3)`,
FDE program at `[3, 8)`, procedure at `[0x100, 0x200)`. -/
def reg_pi : ProcInfo := mk_pi 0x100 0x200 (mk_cie (WORD - 8) 0 3 3 8)

/-- The state record `setup_fde` and `parse_fde` compute for `ip = 0x150`. -/
def reg_rs : Option RegState :=
  match setup_fde x86_64 (mem_env reg_prog) reg_pi 10 with
  | none => none
  | some o1 =>
    match parse_fde x86_64 (mem_env reg_prog) reg_pi 0 0x150 o1.sr 10 with
    | none => none
    | some o2 => if o1.ret = none ∧ o2.ret = none then some o2.sr.rs_current else none

/-- The register file of the example: the stack pointer r7 holds 0x1000, the
return-address column 16 holds 0x4000. -/
def reg_regs (r : Nat) : Nat := if r = 7 then 0x1000 else if r = 16 then 0x4000 else 0

/-- The result of `apply_reg_state` on a cursor at 0x150 in which every register
lives in itself. -/
def reg_apply : Option (StepOut XLoc) :=
  reg_rs.map fun rs =>
    apply_reg_state x86_64 (mem_env reg_prog) (x_env reg_regs (fun _ => 0) reg_pi)
      (x_cursor 0x150 0 reg_pi) rs

/-! ## An example state record for `apply_reg_state` -/

/-- The x86-64 record in which the CFA is r7 + 16, r7 is the CFA itself, and
every other register, the return-address column 16 included, is SAME. -/
def leaf_rs : RegState :=
  let sr0 := setup_fde_seed x86_64 (mk_cie (WORD - 8) 0 0 0 0)
  let sr1 := set_reg sr0 x86_64.CFA_REG_COLUMN Where.REG 7
  (set_reg sr1 x86_64.CFA_OFF_COLUMN Where.UNDEF 16).rs_current

/-- The step environment of the example: r7 holds 0x1000 and r16 holds 0x4000. -/
def leaf_se : StepEnv XLoc := x_env reg_regs (fun _ => 0) (mk_pi 0x100 0x200 (mk_cie (WORD - 8) 0 0 0 0))

/-- A cursor of the example at the given `ip` and `cfa`, every register living
in itself. -/
def leaf_cursor (ip cfa : Nat) : Cursor XLoc :=
  x_cursor ip cfa (mk_pi 0x100 0x200 (mk_cie (WORD - 8) 0 0 0 0))

/-! ## An example cache -/

/-- A cache whose pointers are set to the inline arrays, with the given
`log_size`, before any flush. -/
def blank_cache (log_size : Nat) : RsCache :=
  { rr_head := 0, log_size := log_size, prev_log_size := 0, generation := 0,
    hash_ptr := ArrPtr.inline, buckets_ptr := ArrPtr.inline, links_ptr := ArrPtr.inline,
    hash := fun _ => 0, buckets := fun _ => ⟨0, fun _ => Where.UNDEF, fun _ => 0⟩,
    links := fun _ => ⟨0, 0, 0, false, false⟩ }

/-- A memory system that delivers zeroed arrays. -/
def mem_ok : MemEnv :=
  { hash_ok := true, buckets_ok := true, links_ok := true,
    hash0 := fun _ => 0, buckets0 := fun _ => ⟨0, fun _ => Where.UNDEF, fun _ => 0⟩,
    links0 := fun _ => ⟨0, 0, 0, false, false⟩ }

/-- The cache with two buckets (`log_size = 1`) just after a flush. -/
def flushed2 : RsCache := (dwarf_flush_rs_cache x86_64 mem_ok (blank_cache 1)).2

/-- A sequence of `rs_new` calls for cursors with the given ips. -/
def rs_new_seq (fuel : Nat) : RsCache → List Nat → Option RsCache
  | k, [] => some k
  | k, ip :: rest =>
    match rs_new k ip false fuel with
    | none => none
    | some r => rs_new_seq fuel r.1 rest

/-- The cache with two buckets after a flush and insertions for the ips 0, 1
and 2, in this order. -/
def zero_ip_cache : RsCache := (rs_new_seq 4 flushed2 [0, 1, 2]).getD flushed2

/-- The cache with two buckets after a flush and insertions for the ips 1 and 2. -/
def two_entry_cache : RsCache := (rs_new_seq 4 flushed2 [1, 2]).getD flushed2

/-! ## An example world -/

/-- A world with the global caching policy whose global cache, of two buckets,
is stale (the generation of the address space is 1, that of the cache 0), so
that the first `get_rs_cache` flushes it. -/
def stale_world : World :=
  { as := { caching_policy := CachingPolicy.GLOBAL, cache_generation := 1,
            global_cache := blank_cache 1 },
    tls_cache := blank_cache 1 }

/-- The result of `find_reg_state` on the stale world for a cursor at 0x150 of
the procedure of `reg_pi`, or `d` if it does not finish. -/
def first_find (d : FindOut XLoc) : FindOut XLoc :=
  (find_reg_state x86_64 (mem_env reg_prog) mem_ok (x_env reg_regs (fun _ => 0) reg_pi)
    stale_world (x_cursor 0x150 0 reg_pi) zero_state_record 10).getD d

/-- A result of `find_reg_state` that reports -UNW_EUNSPEC. -/
def no_find : FindOut XLoc :=
  ⟨some UnwError.EUNSPEC, x_cursor 0 0 reg_pi, zero_state_record, stale_world, none, 0, 0⟩

/-! ## An example with two slices -/

/-- The FDE program `def_cfa_offset 16; advance_loc 4; def_cfa_offset 32`. -/
def two_slice_prog : List Nat := [0x0e, 0x10, 0x44, 0x0e, 0x20]

/-- The proc info of the example: an empty CIE program, the FDE program at
`[0, 5)`, the procedure at `[0x100, 0x200)`. -/
def two_slice_pi : ProcInfo := mk_pi 0x100 0x200 (mk_cie (WORD - 8) 0 0 0 5)

/-- The result of `setup_fde` in the example, or the zero record if it does not
finish. -/
def two_slice_setup : DriverOut :=
  (setup_fde x86_64 (mem_env two_slice_prog) two_slice_pi 10).getD ⟨none, zero_state_record, []⟩

/-- The result of `parse_fde` in the example for `ip = 0x104` and a cursor with
the given `use_prev_instr`, or the zero record if it does not finish. -/
def two_slice_parse (use_prev_instr : Nat) : DriverOut :=
  (parse_fde x86_64 (mem_env two_slice_prog) two_slice_pi use_prev_instr 0x104
    two_slice_setup.sr 10).getD ⟨none, zero_state_record, []⟩

/-- The calls of the callback `dwarf_reg_states_table_iterate` makes in the
example, with a callback that always returns 0. -/
def two_slice_iter : List Slice :=
  ((dwarf_reg_states_table_iterate x86_64 (mem_env two_slice_prog) two_slice_pi
    (fun _ _ => none) 10).map (fun r => r.2.1)).getD []

/-! ## An example with a location counter that goes back -/

/-- The FDE program `advance_loc 16; def_cfa_offset 16; set_loc 0x102`. -/
def back_prog : List Nat := [0x50, 0x0e, 0x10, 0x01, 0x02, 0x01, 0, 0, 0, 0, 0, 0]

/-- The proc info of the example: an empty CIE program, the FDE program at
`[0, 12)`, the procedure at `[0x100, 0x200)`. -/
def back_pi : ProcInfo := mk_pi 0x100 0x200 (mk_cie (WORD - 8) 0 0 0 12)

/-- The result of `setup_fde` followed by `parse_fde` for `ip = 0x105` and
`use_prev_instr = 0` in the example, or the zero record if they do not finish. -/
def back_parse : DriverOut :=
  (parse_fde x86_64 (mem_env back_prog) back_pi 0 0x105
    ((setup_fde x86_64 (mem_env back_prog) back_pi 10).getD ⟨none, zero_state_record, []⟩).sr
    10).getD ⟨some UnwError.EUNSPEC, zero_state_record, []⟩

/-- The calls of the callback `dwarf_reg_states_table_iterate` makes in the
example, with a callback that always returns 0. -/
def back_iter : List Slice :=
  ((dwarf_reg_states_table_iterate x86_64 (mem_env back_prog) back_pi
    (fun _ _ => none) 10).map (fun r => r.2.1)).getD []

/-! ## Examples for the end of the stack and for failing steps -/

/-- The leaf record with the return-address column 16 tagged UNDEF. -/
def end_rs : RegState := leaf_rs.set 16 Where.UNDEF 0

/-- The leaf record with a return-address column outside the preserved
registers. -/
def bad_col_rs : RegState := { leaf_rs with ret_addr_column := 17 }

/-- The CIE program `def_cfa r7, 16` followed by the FDE program `offset r16
factor 1; offset r3 factor 2`: the return address is saved at CFA - 8 and r3 at
CFA - 16. -/
def ra_prog : List Nat := [0x0c, 0x07, 0x10, 0x90, 0x01, 0x83, 0x02]

/-- The proc info of `ra_prog`: `data_align = -8`, CIE program at `[0, 3)`, FDE
program at `[3, 7)`, procedure at `[0x100, 0x200)`. -/
def ra_pi : ProcInfo := mk_pi 0x100 0x200 (mk_cie (WORD - 8) 0 3 3 7)

/-- The step environment of `ra_prog` on a machine whose memory cannot be read:
every `dwarf_get` fails. -/
def ra_se : StepEnv XLoc :=
  { x_env reg_regs (fun _ => 0) ra_pi with dwarf_get := fun _ _ => ⟨some UnwError.EINVAL, 0⟩ }

/-- A world in which caching is switched off. -/
def nocache_world : World :=
  { as := { caching_policy := CachingPolicy.NONE, cache_generation := 0,
            global_cache := blank_cache 1 },
    tls_cache := blank_cache 1 }

/-- The result of `dwarf_step` without a cache for the cursor `c` in the step
environment `se` over the memory `m`, or `c` with -UNW_EUNSPEC if it does not
finish. -/
def step_nocache (m : List Nat) (se : StepEnv XLoc) (c : Cursor XLoc) : StepOut XLoc :=
  ((dwarf_step x86_64 (mem_env m) mem_ok se nocache_world c zero_state_record 10).map
    (fun r => r.1)).getD ⟨Except.error UnwError.EUNSPEC, c⟩

/-- The CIE program `def_cfa r7, 16` followed by the FDE program `offset r3
factor 1`; the return address stays in r16. -/
def stag_prog : List Nat := [0x0c, 0x07, 0x10, 0x83, 0x01]

/-- The proc info of `stag_prog`. -/
def stag_pi : ProcInfo := mk_pi 0x100 0x200 (mk_cie (WORD - 8) 0 3 3 5)

/-- The FDE program that consists of the opcode DW_CFA_lo_user. -/
def bad_prog : List Nat := [0x1c]

/-- The proc info of `bad_prog`: empty CIE program, FDE program at `[0, 1)`. -/
def bad_pi : ProcInfo := mk_pi 0x100 0x200 (mk_cie (WORD - 8) 0 0 0 1)

/-- The result of `find_reg_state` on the stale world for a cursor at 0x150 of
the procedure of `bad_pi`, or `d` if it does not finish. -/
def bad_find (d : FindOut XLoc) : FindOut XLoc :=
  (find_reg_state x86_64 (mem_env bad_prog) mem_ok (x_env reg_regs (fun _ => 0) bad_pi)
    stale_world (x_cursor 0x150 0 bad_pi) zero_state_record 10).getD d

/-- A register file in which the stack pointer r7 holds 0x1000 and the
return-address column 16 holds 0x150. -/
def stag_regs (r : Nat) : Nat := if r = 7 then 0x1000 else if r = 16 then 0x150 else 0

/-- The outcome of `run_cfi_program` on the FDE program of the two-slice example
from ip 0x100 up to `end_ip`, or -UNW_EUNSPEC if it does not finish. -/
def two_slice_run (end_ip : Nat) : Outcome :=
  (run_cfi_program x86_64 (mem_env two_slice_prog) two_slice_pi two_slice_setup.sr 0x100 end_ip
    0 5 [] two_slice_pi.unwind_info 10).getD
    (Outcome.fail UnwError.EUNSPEC ⟨0, 0, zero_state_record, []⟩)

/-! ## Reads and the end of the CFI bytes -/

/-- Every read of the accessors `a` that succeeds leaves the byte cursor at or
below `E`: the accessors serve no byte at or beyond `E`. -/
def Accessors.bounded (a : Accessors) (E : Nat) : Prop :=
  (∀ x, (a.dwarf_readu8 x).ret = none → (a.dwarf_readu8 x).addr ≤ E) ∧
  (∀ x, (a.dwarf_readu16 x).ret = none → (a.dwarf_readu16 x).addr ≤ E) ∧
  (∀ x, (a.dwarf_readu32 x).ret = none → (a.dwarf_readu32 x).addr ≤ E) ∧
  (∀ x, (a.dwarf_readu64 x).ret = none → (a.dwarf_readu64 x).addr ≤ E) ∧
  (∀ x, (a.dwarf_read_uleb128 x).ret = none → (a.dwarf_read_uleb128 x).addr ≤ E) ∧
  (∀ x, (a.dwarf_read_sleb128 x).ret = none → (a.dwarf_read_sleb128 x).addr ≤ E) ∧
  (∀ enc pi x, (a.dwarf_read_encoded_pointer enc pi x).ret = none →
    (a.dwarf_read_encoded_pointer enc pi x).addr ≤ E)

/-- The enumerator the `switch` of `run_cfi_program` sees for the opcode byte
`b`: a packed opcode is reduced to its two high bits first. -/
def switch_opcode (b : Nat) : Option dwarf_cfa_t :=
  decode_cfa (if b &&& DWARF_CFA_OPCODE_MASK ≠ 0 then b &&& (255 - DWARF_CFA_OPERAND_MASK) else b)

/-- The three opcodes that carry an expression block. -/
def is_expr_opcode : dwarf_cfa_t → Bool
  | dwarf_cfa_t.DW_CFA_def_cfa_expression => true
  | dwarf_cfa_t.DW_CFA_expression => true
  | dwarf_cfa_t.DW_CFA_val_expression => true
  | _ => false

/-- A proc info whose FDE program is the single byte at address 0. -/
def one_byte_pi : ProcInfo := mk_pi 0x100 0x200 (mk_cie (WORD - 8) 0 0 0 1)

/-- The outcome of `run_cfi_program` over the memory `m` from byte 0 up to
`end_addr`, with ip from 0x100 up to 0x200, or -UNW_EUNSPEC if it does not
finish. -/
def bytes_run (m : List Nat) (end_addr : Nat) : Outcome :=
  (run_cfi_program x86_64 (mem_env m) one_byte_pi zero_state_record 0x100 0x200 0 end_addr []
    one_byte_pi.unwind_info 10).getD (Outcome.fail UnwError.EUNSPEC ⟨0, 0, zero_state_record, []⟩)

/-! ## The interpreter without a bound on the location counter -/

/-- Following the specification ("no ip bound"): the loop of the interpreter
with the test on the location counter left out: it runs while `addr < end_addr`
and no error has occurred. -/
def run_cfi_unbounded (t : Target) (env : Env) (pi : ProcInfo) (dci : CieInfo)
    (end_addr : Nat) : Nat → Cfi → Option Outcome
  | 0, s => if s.addr < end_addr then none else some (Outcome.cont s)
  | fuel + 1, s =>
    if s.addr < end_addr then
      match (cfi_step t env pi dci s).ret with
      | some _ => some (cfi_step t env pi dci s)
      | none => run_cfi_unbounded t env pi dci end_addr fuel (cfi_step t env pi dci s).st
    else some (Outcome.cont s)

/-- The result of `setup_fde` for the proc info `ra_pi` (CIE program `def_cfa
r7, 16`), or -UNW_EUNSPEC if it does not finish. -/
def ra_setup : DriverOut :=
  (setup_fde x86_64 (mem_env ra_prog) ra_pi 10).getD ⟨some UnwError.EUNSPEC, zero_state_record, []⟩

/-! ## The AArch64 example of the specification -/

/-- The state of a cache just after a flush: none of its entries is valid, every
`coll_chain` and every hash head holds the sentinel, every entry's ip is 0, and
the round-robin head is 0. -/
def RsCache.flushed (k : RsCache) : Prop :=
  (∀ i, i < DWARF_UNW_CACHE_SIZE k.log_size →
    (k.links i).valid = false ∧ (k.links i).coll_chain = SENTINEL ∧ (k.links i).ip = 0) ∧
  (∀ i, i < DWARF_UNW_HASH_SIZE k.log_size → k.hash i = SENTINEL) ∧
  k.rr_head = 0

/-! ## Sequences of cache operations -/

/-- An operation on the cache: `rs_lookup` for a cursor with the given ip and
hint, or `rs_new` for a cursor with the given ip (`sig` is the answer of
`tdep_cache_frame`). -/
inductive CacheOp where
  | lookup (ip hint : Nat)
  | insert (ip : Nat) (sig : Bool)

/-- A sequence of `rs_lookup` and `rs_new` calls: the cache after them and, for
each insertion in order, the index of the bucket `rs_new` returned and the ip
inserted; `none` when a call does not finish with the given fuel. -/
def run_ops (fuel : Nat) : RsCache → List CacheOp → Option (RsCache × List (Nat × Nat))
  | k, [] => some (k, [])
  | k, CacheOp.lookup ip hint :: rest =>
    match rs_lookup k ip hint fuel with
    | none => none
    | some _ => run_ops fuel k rest
  | k, CacheOp.insert ip sig :: rest =>
    match rs_new k ip sig fuel with
    | none => none
    | some r =>
      match run_ops fuel r.1 rest with
      | none => none
      | some q => some (q.1, (r.2, ip) :: q.2)

/-- The cache and the insertions of the sequence "insert ip 1, look up ip 1,
insert ip 2, insert ip 3" on the flushed cache with two buckets. -/
def three_inserts : RsCache × List (Nat × Nat) :=
  (run_ops 4 flushed2 [CacheOp.insert 1 false, CacheOp.lookup 1 0, CacheOp.insert 2 false,
    CacheOp.insert 3 false]).getD (flushed2, [])

/-- The leaf cursor at 0x150 with cfa 0x2000 whose stack pointer r7 has the null
location. -/
def nullsp_cursor : Cursor XLoc :=
  { leaf_cursor 0x150 0x2000 with loc := fun r => if r = 7 then XLoc.null else XLoc.reg r }

/-! ## Caches for the flush examples -/

/-- A cache that has never been flushed: no array is installed, and the
requested size is `log_size`. -/
def fresh_cache (log_size : Nat) : RsCache :=
  { blank_cache log_size with
    hash_ptr := ArrPtr.null, buckets_ptr := ArrPtr.null, links_ptr := ArrPtr.null }

/-- A cache with heap arrays for `log_size = 8` whose requested size is now the
default of x86-64, 7. -/
def shrunk_cache : RsCache :=
  { blank_cache 7 with
    prev_log_size := 8, hash_ptr := ArrPtr.heap 512, buckets_ptr := ArrPtr.heap 256,
    links_ptr := ArrPtr.heap 256 }

/-- A world with the global caching policy whose global cache has never been
flushed and for which 256 buckets (`log_size = 8`) have been requested. -/
def fresh_world : World :=
  { as := { caching_policy := CachingPolicy.GLOBAL, cache_generation := 0,
            global_cache := fresh_cache 8 },
    tls_cache := fresh_cache 7 }

/-! ## The state-record stack across the calls of the iterator -/

/-- The depth of the state-record stack at each entry of `run_cfi_program` in
the `while` loop of `dwarf_reg_states_table_iterate`, first call first
(instrumentation: the loop is that of `table_iterate_loop`). -/
def table_iterate_entries (t : Target) (env : Env) (pi : ProcInfo)
    (cb : List Slice → Slice → Option UnwError) (fuel : Nat) : Nat → IterSt → Option (List Nat)
  | 0, x =>
    if x.ret = none ∧ x.st.ip < pi.end_ip ∧ x.st.addr < pi.unwind_info.fde_instr_end then none
    else some []
  | n + 1, x =>
    if x.ret = none ∧ x.st.ip < pi.end_ip ∧ x.st.addr < pi.unwind_info.fde_instr_end then
      let prev_ip := x.st.ip
      match run_cfi_program t env pi x.st.sr x.st.ip prev_ip x.st.addr
          pi.unwind_info.fde_instr_end x.st.rs_stack pi.unwind_info fuel with
      | none => none
      | some o =>
        let rest :=
          if o.ret = none ∧ prev_ip < o.st.ip then
            let sl : Slice := ⟨o.st.sr.rs_current, prev_ip, o.st.ip⟩
            table_iterate_entries t env pi cb fuel n ⟨cb x.out sl, o.st, x.out ++ [sl]⟩
          else table_iterate_entries t env pi cb fuel n ⟨o.ret, o.st, x.out⟩
        rest.map (fun l => x.st.rs_stack.length :: l)
    else some []

/-- The FDE program `remember_state; advance_loc 4; restore_state`. -/
def rem_prog : List Nat := [0x0a, 0x44, 0x0b]

/-- The proc info of `rem_prog`: an empty CIE program, the FDE program at
`[0, 3)`, the procedure at `[0x100, 0x200)`. -/
def rem_pi : ProcInfo := mk_pi 0x100 0x200 (mk_cie (WORD - 8) 0 0 0 3)

/-- The state in which `dwarf_reg_states_table_iterate` enters its loop for
`rem_prog`. -/
def rem_start : IterSt :=
  ⟨none, ⟨0x100, 0, ((setup_fde x86_64 (mem_env rem_prog) rem_pi 10).getD
    ⟨some UnwError.EUNSPEC, zero_state_record, []⟩).sr, []⟩, []⟩

/-- The outcome of the call of `run_cfi_program` that `parse_fde` makes for
`rem_prog` and ip 0x102 (`use_prev_instr = 0`), or -UNW_EUNSPEC if it does not
finish. -/
def rem_parse_run : Outcome :=
  (run_cfi_program x86_64 (mem_env rem_prog) rem_pi rem_start.st.sr 0x100 0x102 0 3 []
    rem_pi.unwind_info 10).getD (Outcome.fail UnwError.EUNSPEC ⟨0, 0, zero_state_record, []⟩)

/-! ## Progress of the byte cursor -/

/-- Every read of the accessors `a` that succeeds leaves the byte cursor beyond
the address it was given. -/
def Accessors.advancing (a : Accessors) : Prop :=
  (∀ x, (a.dwarf_readu8 x).ret = none → x < (a.dwarf_readu8 x).addr) ∧
  (∀ x, (a.dwarf_readu16 x).ret = none → x < (a.dwarf_readu16 x).addr) ∧
  (∀ x, (a.dwarf_readu32 x).ret = none → x < (a.dwarf_readu32 x).addr) ∧
  (∀ x, (a.dwarf_readu64 x).ret = none → x < (a.dwarf_readu64 x).addr) ∧
  (∀ x, (a.dwarf_read_uleb128 x).ret = none → x < (a.dwarf_read_uleb128 x).addr) ∧
  (∀ x, (a.dwarf_read_sleb128 x).ret = none → x < (a.dwarf_read_sleb128 x).addr) ∧
  (∀ enc pi x, (a.dwarf_read_encoded_pointer enc pi x).ret = none →
    x < (a.dwarf_read_encoded_pointer enc pi x).addr)

/-- The program `def_cfa_expression` with a block length of 2^64 - 11 (ULEB128
in ten bytes): the block ends where the instruction begins. -/
def wrap_prog : List Nat := [0x0f, 0xf5, 0xff, 0xff, 0xff, 0xff, 0xff, 0xff, 0xff, 0xff, 0x01]

/-- The program `def_cfa_offset 32; advance_loc 4; def_cfa_offset 48`. -/
def plain_prog : List Nat := [0x0e, 0x20, 0x44, 0x0e, 0x30]

/-- The read of the length prefix of the expression block of an instruction
with opcode `op`, `addr` being the byte cursor after the opcode byte: the prefix
follows the opcode for `def_cfa_expression` and the register number for
`expression` and `val_expression`. -/
def expr_block_len (t : Target) (a : Accessors) (op : dwarf_cfa_t) (addr : Nat) : Rd :=
  match op with
  | dwarf_cfa_t.DW_CFA_def_cfa_expression => a.dwarf_read_uleb128 addr
  | _ => a.dwarf_read_uleb128 (read_regnum t a addr).addr

/-- The proc info of `wrap_prog`: an empty CIE program, the FDE program at
`[0, 11)`, the procedure at `[0x100, 0x200)`. -/
def wrap_pi : ProcInfo := mk_pi 0x100 0x200 (mk_cie (WORD - 8) 0 0 0 11)

/-- The state in which `parse_fde` starts the interpreter on `wrap_prog`. -/
def wrap_start : Cfi := ⟨0x100, 0, zero_state_record, []⟩

/-- The proc info of `plain_prog`: an empty CIE program, the FDE program at
`[0, 5)`, the procedure at `[0x100, 0x200)`. -/
def plain_pi : ProcInfo := mk_pi 0x100 0x200 (mk_cie (WORD - 8) 0 0 0 5)

/-! ## Slices that tile an interval -/

/-- The slices `out` tile the interval from `a` to `b`: each of them is
non-empty (`prev_ip < curr_ip`), the first begins at `a`, each later one begins
where the one before it ended, and the last one ends at `b`; with no slice,
`a = b`. -/
def tiles : Nat → List Slice → Nat → Prop
  | a, [], b => a = b
  | a, sl :: rest, b => sl.prev_ip = a ∧ sl.prev_ip < sl.curr_ip ∧ tiles sl.curr_ip rest b

/-- The state after `n` iterations of the loop body of `run_cfi_program` from
`s`, whatever the loop bounds; `none` if one of them fails. -/
def cfi_iter (t : Target) (env : Env) (pi : ProcInfo) (dci : CieInfo) : Nat → Cfi → Option Cfi
  | 0, s => some s
  | n + 1, s =>
    match cfi_iter t env pi dci n s with
    | none => none
    | some s1 =>
      if (cfi_step t env pi dci s1).ret = none then some (cfi_step t env pi dci s1).st else none

/-! ## A register rule that names a register outside the table -/

/-- The FDE program `register r0, r17`: `DW_CFA_register` with the operands 0
and 17. -/
def reg17_prog : List Nat := [0x09, 0x00, 0x11]

/-- A proc info for `reg17_prog`: an empty CIE program, the FDE program in bytes
`[0, 3)`, covering `[0x100, 0x200)`. -/
def reg17_pi : ProcInfo := mk_pi 0x100 0x200 (mk_cie (WORD - 8) 0 0 0 3)

/-- The result of `setup_fde` for `reg17_pi`, or the zero record if it does not
finish. -/
def reg17_setup : DriverOut :=
  (setup_fde x86_64 (mem_env reg17_prog) reg17_pi 10).getD ⟨none, zero_state_record, []⟩

/-- The register state that `parse_fde` produces for `reg17_pi` at ip 0x150, or
the zero state if it does not finish. -/
def reg17_rs : RegState :=
  ((parse_fde x86_64 (mem_env reg17_prog) reg17_pi 0 0x150 reg17_setup.sr 10).getD
    ⟨none, zero_state_record, []⟩).sr.rs_current

/-! ## Stretches of the interpreter loop that keep a slot -/

/-- The slot `j` of `rs_current` (its tag and its payload) is the same in `s1`
as in `s`. -/
def same_slot (j : Nat) (s s1 : Cfi) : Prop :=
  s1.sr.rs_current.where_ j = s.sr.rs_current.where_ j ∧
  s1.sr.rs_current.val j = s.sr.rs_current.val j

instance (j : Nat) (s s1 : Cfi) : Decidable (same_slot j s s1) := by
  unfold same_slot; infer_instance

/-- The slots of `rs_current` that the case of the switch for the opcode `op`
assigns through `set_reg`; `addr` is the byte cursor after the opcode byte.
DW_CFA_restore_state, which replaces all of `rs_current`, and
DW_CFA_GNU_window_save are not covered. -/
def set_reg_slots (t : Target) (a : Accessors) (op : dwarf_cfa_t) (operand addr : Nat) :
    List Nat :=
  match op with
  | DW_CFA_offset => [operand]
  | DW_CFA_restore => [operand]
  | DW_CFA_offset_extended => [(read_regnum t a addr).val]
  | DW_CFA_offset_extended_sf => [(read_regnum t a addr).val]
  | DW_CFA_GNU_negative_offset_extended => [(read_regnum t a addr).val]
  | DW_CFA_undefined => [(read_regnum t a addr).val]
  | DW_CFA_same_value => [(read_regnum t a addr).val]
  | DW_CFA_register => [(read_regnum t a addr).val]
  | DW_CFA_expression => [(read_regnum t a addr).val]
  | DW_CFA_val_expression => [(read_regnum t a addr).val]
  | DW_CFA_restore_extended => [(a.dwarf_read_uleb128 addr).val]
  | DW_CFA_def_cfa => [t.CFA_REG_COLUMN, t.CFA_OFF_COLUMN]
  | DW_CFA_def_cfa_sf => [t.CFA_REG_COLUMN, t.CFA_OFF_COLUMN]
  | DW_CFA_def_cfa_register => [t.CFA_REG_COLUMN]
  | DW_CFA_def_cfa_expression => [t.CFA_REG_COLUMN]
  | DW_CFA_def_cfa_offset => [t.CFA_OFF_COLUMN]
  | DW_CFA_def_cfa_offset_sf => [t.CFA_OFF_COLUMN]
  | _ => []

end Gparser

/-! # Theorems -/

namespace Gparser
open UnwError dwarf_cfa_t

/-! ## Frame lemmas of the interpreter -/

/-- A reader call followed by a continuation that keeps the stack keeps the
stack. -/
theorem rd_then_stack (r : Rd) (s : Cfi) (k : Nat → Cfi → Outcome) (stk : List RegState)
    (hs : s.rs_stack = stk)
    (hk : ∀ v s1, s1.rs_stack = stk → (k v s1).st.rs_stack = stk) :
    (rd_then r s k).st.rs_stack = stk := by
  unfold rd_then
  split
  · simpa [Outcome.fail] using hs
  · exact hk _ _ (by simpa using hs)

/-- Every case of the switch other than remember_state and restore_state leaves
the state-record stack as it was, whether the case succeeds or fails. -/
theorem cfi_case_stack (t : Target) (env : Env) (a : Accessors) (pi : ProcInfo)
    (dci : CieInfo) (op : dwarf_cfa_t) (operand : Nat) (s : Cfi)
    (h1 : op ≠ DW_CFA_remember_state) (h2 : op ≠ DW_CFA_restore_state) :
    (cfi_case t env a pi dci op operand s).st.rs_stack = s.rs_stack := by
  cases op <;> simp only [cfi_case, Outcome.cont, Outcome.fail] <;>
    first
    | contradiction
    | skip
  all_goals
    repeat' (first
      | (apply rd_then_stack _ _ _ _ (by simp [*]); intro _ _ hh)
      | split)
  all_goals simp [*]

/-- The loop body, with the opcode read exposed. -/
theorem cfi_step_of_opcode (t : Target) (env : Env) (pi : ProcInfo) (dci : CieInfo)
    (s : Cfi) (b : Nat) (h : opcode_at env pi s b) :
    cfi_step t env pi dci s =
      (let s1 : Cfi := { s with addr := ((select_acc env pi).dwarf_readu8 s.addr).addr }
       let operand := if b &&& DWARF_CFA_OPCODE_MASK ≠ 0 then b &&& DWARF_CFA_OPERAND_MASK else 0
       let op := if b &&& DWARF_CFA_OPCODE_MASK ≠ 0 then b &&& (255 - DWARF_CFA_OPERAND_MASK) else b
       match decode_cfa op with
       | some k => cfi_case t env (select_acc env pi) pi dci k operand s1
       | none => Outcome.cont s1) := by
  obtain ⟨h1, h2⟩ := h
  simp only [cfi_step, rd_then, h1, h2]

/-- An opcode byte that matches no case label is skipped: the iteration ends
with `ret >= 0` and changes nothing but the byte cursor. -/
theorem cfi_step_unrecognized (t : Target) (env : Env) (pi : ProcInfo) (dci : CieInfo)
    (s : Cfi) (b : Nat) (h : opcode_at env pi s b) (hb : b &&& DWARF_CFA_OPCODE_MASK = 0)
    (hd : decode_cfa b = none) :
    cfi_step t env pi dci s =
      Outcome.cont { s with addr := ((select_acc env pi).dwarf_readu8 s.addr).addr } := by
  rw [cfi_step_of_opcode t env pi dci s b h]
  simp [hb, hd]

/-- The effect of one iteration on the state-record stack: unchanged, a push of
`rs_current`, or a pop. -/
theorem cfi_step_stack (t : Target) (env : Env) (pi : ProcInfo) (dci : CieInfo) (s : Cfi) :
    (cfi_step t env pi dci s).st.rs_stack = s.rs_stack ∨
    (cfi_step t env pi dci s).st.rs_stack = s.sr.rs_current :: s.rs_stack ∨
    (cfi_step t env pi dci s).st.rs_stack = s.rs_stack.tail := by
  cases hr : ((select_acc env pi).dwarf_readu8 s.addr).ret with
  | some e => left; simp [cfi_step, rd_then, hr, Outcome.fail]
  | none =>
    rw [cfi_step_of_opcode t env pi dci s _ ⟨hr, rfl⟩]
    simp only []
    split
    · rename_i k hk
      by_cases h1 : k = DW_CFA_remember_state
      · subst h1
        simp only [cfi_case, push_rstate_stack]
        split
        · left; simp [Outcome.fail]
        · rename_i stk hstk
          split at hstk
          · right; left
            simp only [Option.some.injEq] at hstk
            subst hstk
            simp [Outcome.cont]
          · simp at hstk
      · by_cases h2 : k = DW_CFA_restore_state
        · subst h2
          simp only [cfi_case]
          split
          · left; simp [Outcome.fail, *]
          · right; right
            simp [Outcome.cont, pop_rstate_stack, *]
        · left
          rw [cfi_case_stack _ _ _ _ _ _ _ _ h1 h2]
    · left; simp [Outcome.cont]

/-- The iteration that executes DW_CFA_remember_state with a pool that delivers. -/
theorem cfi_step_remember (t : Target) (env : Env) (pi : ProcInfo) (dci : CieInfo) (s : Cfi)
    (h : opcode_at env pi s DW_CFA_remember_state.code)
    (ha : env.alloc_ok s.rs_stack.length = true) :
    cfi_step t env pi dci s =
      Outcome.cont { s with addr := ((select_acc env pi).dwarf_readu8 s.addr).addr,
                            rs_stack := s.sr.rs_current :: s.rs_stack } := by
  rw [cfi_step_of_opcode t env pi dci s _ h]
  have hd : decode_cfa (dwarf_cfa_t.code DW_CFA_remember_state) = some DW_CFA_remember_state := by
    decide
  have hm : dwarf_cfa_t.code DW_CFA_remember_state &&& DWARF_CFA_OPCODE_MASK = 0 := by decide
  simp [hm, hd, cfi_case, push_rstate_stack, ha]

/-- The iteration that executes DW_CFA_restore_state on a non-empty stack. -/
theorem cfi_step_restore_state (t : Target) (env : Env) (pi : ProcInfo) (dci : CieInfo)
    (s : Cfi) (top : RegState) (rest : List RegState)
    (h : opcode_at env pi s DW_CFA_restore_state.code) (hs : s.rs_stack = top :: rest) :
    cfi_step t env pi dci s =
      Outcome.cont { s with addr := ((select_acc env pi).dwarf_readu8 s.addr).addr,
                            sr := { s.sr with rs_current := top },
                            rs_stack := rest } := by
  rw [cfi_step_of_opcode t env pi dci s _ h]
  have hd : decode_cfa (dwarf_cfa_t.code DW_CFA_restore_state) = some DW_CFA_restore_state := by
    decide
  have hm : dwarf_cfa_t.code DW_CFA_restore_state &&& DWARF_CFA_OPCODE_MASK = 0 := by decide
  simp [hm, hd, cfi_case, hs, pop_rstate_stack]

/-- A balanced run keeps the snapshots below it: if the stack ends in `base`
before the run, and every iteration leaves at least `base.length` snapshots, the
stack ends in `base` after the run. -/
theorem run_balanced_suffix (t : Target) (env : Env) (pi : ProcInfo) (dci : CieInfo)
    (end_ip end_addr d : Nat) (base : List RegState) (hd : base.length = d + 1) :
    ∀ (n : Nat) (s s2 : Cfi), (∃ pre, s.rs_stack = pre ++ base) →
      run_balanced t env pi dci end_ip end_addr d n s = some s2 →
      ∃ pre, s2.rs_stack = pre ++ base := by
  intro n
  induction n with
  | zero =>
    intro s s2 hs h
    simp only [run_balanced, Option.some.injEq] at h
    subst h
    exact hs
  | succ n ih =>
    intro s s2 hs h
    simp only [run_balanced] at h
    split at h
    · split at h
      · simp at h
      · split at h
        · rename_i hlen
          refine ih _ _ ?_ h
          obtain ⟨pre, hpre⟩ := hs
          rcases cfi_step_stack t env pi dci s with h1 | h1 | h1
          · exact ⟨pre, by rw [h1, hpre]⟩
          · exact ⟨s.sr.rs_current :: pre, by rw [h1, hpre]; rfl⟩
          · cases pre with
            | nil =>
              rw [h1, hpre] at hlen
              simp at hlen
              omega
            | cons p pre1 => exact ⟨pre1, by rw [h1, hpre]; rfl⟩
        · simp at h
    · simp at h

/-- A balanced run is a stretch of the loop of `run_cfi_program`. -/
theorem run_balanced_loop (t : Target) (env : Env) (pi : ProcInfo) (dci : CieInfo)
    (end_ip end_addr d : Nat) :
    ∀ (n : Nat) (s s2 : Cfi), run_balanced t env pi dci end_ip end_addr d n s = some s2 →
      ∀ fuel, run_cfi_loop t env pi dci end_ip end_addr (fuel + n) s =
        run_cfi_loop t env pi dci end_ip end_addr fuel s2 := by
  intro n
  induction n with
  | zero =>
    intro s s2 h fuel
    simp only [run_balanced, Option.some.injEq] at h
    subst h
    rfl
  | succ n ih =>
    intro s s2 h fuel
    simp only [run_balanced] at h
    split at h
    · rename_i hc
      split at h
      · simp at h
      · rename_i hret
        split at h
        · rw [← Nat.add_assoc]
          simp only [run_cfi_loop, hc, and_self, if_true, hret]
          exact ih _ _ h fuel
        · simp at h
    · simp at h


/-- The function `read_regnum` on a register number that is out of range. -/
theorem read_regnum_bad (t : Target) (a : Accessors) (addr : Nat)
    (h1 : (a.dwarf_read_uleb128 addr).ret = none)
    (h2 : (a.dwarf_read_uleb128 addr).val ≥ t.NUM_PRESERVED_REGS) :
    read_regnum t a addr =
      ⟨some EBADREG, (a.dwarf_read_uleb128 addr).val, (a.dwarf_read_uleb128 addr).addr⟩ := by
  simp [read_regnum, h1, h2]

/-- For the opcodes whose register operand goes through `read_regnum`, a register
number that is out of range ends the iteration with -UNW_EBADREG, and the state
record and the stack are as before. -/
theorem cfi_case_read_regnum_bad (t : Target) (env : Env) (a : Accessors) (pi : ProcInfo)
    (dci : CieInfo) (op : dwarf_cfa_t) (operand : Nat) (s : Cfi)
    (hop : op ∈ regnum_opcodes)
    (h1 : (a.dwarf_read_uleb128 s.addr).ret = none)
    (h2 : (a.dwarf_read_uleb128 s.addr).val ≥ t.NUM_PRESERVED_REGS) :
    cfi_case t env a pi dci op operand s =
      Outcome.fail EBADREG { s with addr := (a.dwarf_read_uleb128 s.addr).addr } := by
  simp only [regnum_opcodes, List.mem_cons, List.mem_singleton, List.not_mem_nil, or_false] at hop
  rcases hop with h | h | h | h | h | h | h | h | h | h | h <;> subst h <;>
    simp [cfi_case, rd_then, read_regnum_bad t a s.addr h1 h2]

/-- For the packed opcode DW_CFA_offset, a register number that is out of range
ends the iteration with -UNW_EBADREG and changes nothing. -/
theorem cfi_case_offset_bad (t : Target) (env : Env) (a : Accessors) (pi : ProcInfo)
    (dci : CieInfo) (operand : Nat) (s : Cfi) (h : operand ≥ t.NUM_PRESERVED_REGS) :
    cfi_case t env a pi dci DW_CFA_offset operand s = Outcome.fail EBADREG s := by
  simp [cfi_case, h]

/-! ## The interpreter: unrecognised opcodes, register numbers, remember/restore -/

/-- C1 (the code departs from the claim): bytes 0x17 (no CFI opcode) and 0x1e
(user-extension range, not a listed extension) match no case label of the switch
in run_cfi_program, which has no default label; on the program 0x17, 0x1e,
DW_CFA_undefined r5 the interpreter skips both bytes, decodes the following
instruction (r5 becomes UNDEF) and returns success at the end of the program,
instead of stopping with -UNW_EINVAL. -/
theorem C1_unrecognized_opcode_is_skipped :
    decode_cfa 0x17 = none ∧ decode_cfa 0x1e = none ∧
    (setup_fde_seed x86_64 (mk_cie (WORD - 8) 0 0 0 4)).rs_current.where_ 5 = Where.SAME ∧
    (run_cfi_program x86_64 (mem_env [0x17, 0x1e, 0x07, 0x05])
        (mk_pi 0 100 (mk_cie (WORD - 8) 0 0 0 4))
        (setup_fde_seed x86_64 (mk_cie (WORD - 8) 0 0 0 4))
        0 100 0 4 [] (mk_cie (WORD - 8) 0 0 0 4) 10).map
      (fun o => (o.ret, o.st.addr, o.st.sr.rs_current.where_ 5)) =
      some (none, 4, Where.UNDEF) := by
  decide

/-- C2 (the code departs from the claim): on x86-64 (17 preserved registers)
DW_CFA_restore r17 (byte 0xd1) and DW_CFA_restore_extended r17 (bytes 0x06, 0x11)
make run_cfi_program fail with -UNW_EINVAL, not -UNW_EBADREG, while the same
register number in DW_CFA_offset (bytes 0x91, 0x01) and in DW_CFA_undefined
(bytes 0x07, 0x11) gives -UNW_EBADREG. -/
theorem C2_restore_bad_regnum_gives_EINVAL :
    (run_cfi_program x86_64 (mem_env [0xd1]) (mk_pi 0 100 (mk_cie (WORD - 8) 0 0 0 1))
        (setup_fde_seed x86_64 (mk_cie (WORD - 8) 0 0 0 1))
        0 100 0 1 [] (mk_cie (WORD - 8) 0 0 0 1) 10).map (fun o => o.ret) = some (some EINVAL) ∧
    (run_cfi_program x86_64 (mem_env [0x06, 0x11]) (mk_pi 0 100 (mk_cie (WORD - 8) 0 0 0 2))
        (setup_fde_seed x86_64 (mk_cie (WORD - 8) 0 0 0 2))
        0 100 0 2 [] (mk_cie (WORD - 8) 0 0 0 2) 10).map (fun o => o.ret) = some (some EINVAL) ∧
    (run_cfi_program x86_64 (mem_env [0x91, 0x01]) (mk_pi 0 100 (mk_cie (WORD - 8) 0 0 0 2))
        (setup_fde_seed x86_64 (mk_cie (WORD - 8) 0 0 0 2))
        0 100 0 2 [] (mk_cie (WORD - 8) 0 0 0 2) 10).map (fun o => o.ret) = some (some EBADREG) ∧
    (run_cfi_program x86_64 (mem_env [0x07, 0x11]) (mk_pi 0 100 (mk_cie (WORD - 8) 0 0 0 2))
        (setup_fde_seed x86_64 (mk_cie (WORD - 8) 0 0 0 2))
        0 100 0 2 [] (mk_cie (WORD - 8) 0 0 0 2) 10).map (fun o => o.ret) = some (some EBADREG) := by
  decide

/-- C3: in one invocation of run_cfi_program, let DW_CFA_remember_state be
executed in state `s0` with a pool that delivers, let `n` further iterations
follow that all succeed and never leave the stack shallower than it was just
after the push, and let DW_CFA_restore_state be reached in the state `s2` where
the stack is exactly one deeper than at `s0`. Then that iteration succeeds,
`rs_current` after it equals `rs_current` of `s0` (the whole record: every slot,
both CFA columns and `ret_addr_column`), the stack is the stack of `s0`, and the
`n + 2` iterations are the ones the loop of run_cfi_program performs from `s0`. -/
theorem C3_remember_restore_roundtrip (t : Target) (env : Env) (pi : ProcInfo) (dci : CieInfo)
    (end_ip end_addr : Nat) (s0 s2 : Cfi) (n : Nat)
    (hc0 : s0.ip ≤ end_ip ∧ s0.addr < end_addr)
    (hrem : opcode_at env pi s0 DW_CFA_remember_state.code)
    (halloc : env.alloc_ok s0.rs_stack.length = true)
    (hmid : run_balanced t env pi dci end_ip end_addr s0.rs_stack.length n
      (cfi_step t env pi dci s0).st = some s2)
    (hdepth : s2.rs_stack.length = s0.rs_stack.length + 1)
    (hc2 : s2.ip ≤ end_ip ∧ s2.addr < end_addr)
    (hres : opcode_at env pi s2 DW_CFA_restore_state.code) :
    (cfi_step t env pi dci s2).ret = none ∧
    (cfi_step t env pi dci s2).st.sr.rs_current = s0.sr.rs_current ∧
    (cfi_step t env pi dci s2).st.rs_stack = s0.rs_stack ∧
    ∀ fuel, run_cfi_loop t env pi dci end_ip end_addr (fuel + n + 2) s0 =
      run_cfi_loop t env pi dci end_ip end_addr fuel (cfi_step t env pi dci s2).st := by
  have h1 := cfi_step_remember t env pi dci s0 hrem halloc
  have hbase : (s0.sr.rs_current :: s0.rs_stack).length = s0.rs_stack.length + 1 := by simp
  have hsuf := run_balanced_suffix t env pi dci end_ip end_addr s0.rs_stack.length
    (s0.sr.rs_current :: s0.rs_stack) hbase n _ s2 ⟨[], by rw [h1]; rfl⟩ hmid
  obtain ⟨pre, hpre⟩ := hsuf
  have hnil : pre = [] := by
    have := congrArg List.length hpre
    rw [List.length_append, hdepth, List.length_cons] at this
    exact List.length_eq_zero.mp (by omega)
  subst hnil
  simp only [List.nil_append] at hpre
  have h2 := cfi_step_restore_state t env pi dci s2 _ _ hres hpre
  refine ⟨by rw [h2]; rfl, by rw [h2]; rfl, by rw [h2]; rfl, ?_⟩
  intro fuel
  have hloop := run_balanced_loop t env pi dci end_ip end_addr _ n _ s2 hmid (fuel + 1)
  have e1 : run_cfi_loop t env pi dci end_ip end_addr (fuel + n + 2) s0 =
      run_cfi_loop t env pi dci end_ip end_addr (fuel + 1 + n) (cfi_step t env pi dci s0).st := by
    have : fuel + n + 2 = (fuel + 1 + n) + 1 := by omega
    rw [this]
    have hr : (cfi_step t env pi dci s0).ret = none := by rw [h1]; rfl
    simp only [run_cfi_loop, hc0, and_self, if_true, hr]
  have e2 : run_cfi_loop t env pi dci end_ip end_addr (fuel + 1) s2 =
      run_cfi_loop t env pi dci end_ip end_addr fuel (cfi_step t env pi dci s2).st := by
    have hr : (cfi_step t env pi dci s2).ret = none := by rw [h2]; rfl
    simp only [run_cfi_loop, hc2, and_self, if_true, hr]
  rw [e1, hloop, e2]

/-- The remember/restore example: with `data_align = -8`, the program `offset r5
factor 1; remember_state; offset r5 factor 2; restore_state` runs to its end,
and the restore_state brings back the record of the moment of the
remember_state, in which r5 is CFA_RELATIVE with offset -8. -/
theorem C3_remember_restore_example :
    (run_cfi_program x86_64 (mem_env rr_prog) rr_pi (setup_fde_seed x86_64 rr_dci)
        0 100 0 6 [] rr_dci 10).map
      (fun o => (o.ret, o.st.sr.rs_current.where_ 5, o.st.sr.rs_current.val 5,
        o.st.rs_stack.length)) = some (none, Where.CFAREL, WORD - 8, 0) ∧
    (rr_state 3).sr.rs_current.val 5 = WORD - 16 ∧
    (rr_state 4).sr.rs_current = (rr_state 1).sr.rs_current ∧
    (rr_state 4).rs_stack = (rr_state 1).rs_stack :=
  have h := C3_remember_restore_roundtrip x86_64 (mem_env rr_prog) rr_pi rr_dci 100 6
    (rr_state 1) (rr_state 3) 1 (by decide) (by decide) (by decide) (by rfl) (by decide)
    (by decide) (by decide)
  ⟨by decide, by decide, h.2.1, h.2.2.1⟩

/-! ## Applying a state record -/

/-- The loop body for register `i` writes no element of `new_loc` but `i`. -/
theorem apply_slot_other {Loc : Type} (t : Target) (se : StepEnv Loc) (a : Accessors)
    (c : Cursor Loc) (rs : RegState) (cfa i : Nat) (nl nl1 : Nat → Loc)
    (h : apply_slot t se a c rs cfa i nl = Except.ok nl1) (j : Nat) (hj : j ≠ i) :
    nl1 j = nl j := by
  unfold apply_slot at h
  split at h
  all_goals (try split at h)
  all_goals first
    | (injection h with h; subst h; simp [Function.update, hj])
    | (exact absurd h (by simp))

/-- The loop body for a register tagged SAME leaves `new_loc` as it is. -/
theorem apply_slot_same {Loc : Type} (t : Target) (se : StepEnv Loc) (a : Accessors)
    (c : Cursor Loc) (rs : RegState) (cfa i : Nat) (nl : Nat → Loc)
    (h : rs.where_ i = Where.SAME) :
    apply_slot t se a c rs cfa i nl = Except.ok nl := by
  simp [apply_slot, h]

/-- The loop over the registers `i, ..., i + n - 1` leaves an element of
`new_loc` as it is when its index is outside that range or its slot is tagged
SAME. -/
theorem apply_loop_frame {Loc : Type} (t : Target) (se : StepEnv Loc) (a : Accessors)
    (c : Cursor Loc) (rs : RegState) (cfa : Nat) :
    ∀ (n i : Nat) (nl nl1 : Nat → Loc), apply_loop t se a c rs cfa i n nl = Except.ok nl1 →
      ∀ j, (j < i ∨ i + n ≤ j ∨ rs.where_ j = Where.SAME) → nl1 j = nl j := by
  intro n
  induction n with
  | zero =>
    intro i nl nl1 h j _
    simp only [apply_loop] at h
    injection h with h
    subst h
    rfl
  | succ n ih =>
    intro i nl nl1 h j hj
    simp only [apply_loop] at h
    split at h
    · exact absurd h (by simp)
    · rename_i nl2 h2
      have e1 : nl1 j = nl2 j := by
        apply ih (i + 1) nl2 nl1 h j
        rcases hj with hj | hj | hj
        · left; omega
        · by_cases hji : j = i
          · right; right
            subst hji
            omega
          · right; left; omega
        · right; right; exact hj
      rw [e1]
      by_cases hji : j = i
      · subst hji
        rcases hj with hj | hj | hj
        · omega
        · omega
        · rw [apply_slot_same t se a c rs cfa j nl hj] at h2
          injection h2 with h2
          rw [h2]
      · exact apply_slot_other t se a c rs cfa i nl nl2 h2 j hji

/-- The guard at the end of `apply_reg_state` changes neither `ip`, `cfa` nor
the locations of the cursor it is given. -/
theorem apply_guard_cursor {Loc : Type} (se : StepEnv Loc) (prev_ip prev_cfa : Nat)
    (c2 : Cursor Loc) (rs : RegState) :
    (apply_guard se prev_ip prev_cfa c2 rs).c.ip = c2.ip ∧
    (apply_guard se prev_ip prev_cfa c2 rs).c.cfa = c2.cfa ∧
    (apply_guard se prev_ip prev_cfa c2 rs).c.loc = c2.loc := by
  unfold apply_guard
  split
  · exact ⟨rfl, rfl, rfl⟩
  · split <;> exact ⟨rfl, rfl, rfl⟩

/-- Reading the return address changes neither `cfa` nor the locations. -/
theorem apply_ip_cursor {Loc : Type} (t : Target) (se : StepEnv Loc) (c1 c2 : Cursor Loc)
    (rs : RegState) (h : apply_ip t se c1 rs = Except.ok c2) :
    c2.cfa = c1.cfa ∧ c2.loc = c1.loc := by
  unfold apply_ip at h
  by_cases h0 : se.L.IS_NULL_LOC (c1.loc rs.ret_addr_column) = true
  · rw [if_pos h0] at h
    injection h with h; subst h; exact ⟨rfl, rfl⟩
  · rw [if_neg h0] at h
    cases hr : (se.dwarf_get c1 (c1.loc rs.ret_addr_column)).ret with
    | some e => simp [hr] at h
    | none =>
      simp only [hr] at h
      by_cases h1 : t.aarch64 = true ∧ rs.val t.RA_SIGN_STATE ≠ 0
      · rw [if_pos h1] at h
        injection h with h; subst h; exact ⟨rfl, rfl⟩
      · rw [if_neg h1] at h
        injection h with h; subst h; exact ⟨rfl, rfl⟩

/-- A successful `apply_reg_state`, taken apart: the stages before the guard
succeeded, and the result is that of the guard. -/
theorem apply_reg_state_ok {Loc : Type} (t : Target) (env : Env) (se : StepEnv Loc)
    (c : Cursor Loc) (rs : RegState) (v : Nat)
    (h : (apply_reg_state t env se c rs).ret = Except.ok v) :
    ∃ cfa nl c2, rs.ret_addr_column < t.NUM_PRESERVED_REGS ∧
      apply_cfa t se env.remote_acc c rs = Except.ok cfa ∧
      apply_loop t se env.remote_acc c rs cfa 0 t.NUM_PRESERVED_REGS c.loc = Except.ok nl ∧
      apply_ip t se (apply_store t c cfa nl) rs = Except.ok c2 ∧
      apply_reg_state t env se c rs = apply_guard se c.ip c.cfa c2 rs := by
  unfold apply_reg_state at h ⊢
  split at h
  · exact absurd h (by simp)
  · rename_i hcol
    split at h
    · exact absurd h (by simp)
    · rename_i cfa hcfa
      split at h
      · exact absurd h (by simp)
      · rename_i nl hnl
        unfold apply_commit at h
        split at h
        · exact absurd h (by simp)
        · rename_i c2 hc2
          refine ⟨cfa, nl, c2, by omega, hcfa, hnl, hc2, ?_⟩
          simp only [hcol, if_false, hcfa, hnl, apply_commit, hc2]

/-- C5 (the code departs from the claim): on x86-64, for the state record of the
CFI `def_cfa r7, 16; offset r3 factor 1; register r5, r3` (r5 is tagged REGISTER
with payload 3, and slot 3 is CFA_RELATIVE -8), apply_reg_state succeeds on a
cursor in which r3 lives in register r3, and leaves r5 at memory[CFA - 8], the
location the same apply has just given r3, not at the location r3 had before the
apply: the loop reads `new_loc[3]` after it has overwritten it. -/
theorem C5_register_reads_updated_location :
    reg_rs.map (fun rs => (rs.where_ 5, rs.val 5, rs.where_ 3, rs.val 3)) =
      some (Where.REG, 3, Where.CFAREL, WORD - 8) ∧
    (x_cursor 0x150 0 reg_pi).loc 3 = XLoc.reg 3 ∧
    reg_apply.map (fun o => (o.ret.toOption, o.c.cfa, o.c.loc 3, o.c.loc 5)) =
      some (some 1, 0x1010, XLoc.mem 0x1008, XLoc.mem 0x1008) := by
  decide

/-- C6: whenever apply_reg_state succeeds, every preserved register whose slot is
tagged SAME has the same location in the cursor after the apply as before it. -/
theorem C6_same_keeps_location {Loc : Type} (t : Target) (env : Env) (se : StepEnv Loc)
    (c : Cursor Loc) (rs : RegState) (v : Nat)
    (h : (apply_reg_state t env se c rs).ret = Except.ok v)
    (i : Nat) (hi : i < t.NUM_PRESERVED_REGS) (hs : rs.where_ i = Where.SAME) :
    (apply_reg_state t env se c rs).c.loc i = c.loc i := by
  obtain ⟨cfa, nl, c2, _, _, hnl, hc2, heq⟩ := apply_reg_state_ok t env se c rs v h
  rw [heq, (apply_guard_cursor se c.ip c.cfa c2 rs).2.2, (apply_ip_cursor t se _ c2 rs hc2).2]
  simp only [apply_store, hi, if_true]
  exact apply_loop_frame t se env.remote_acc c rs cfa _ 0 c.loc nl hnl i (Or.inr (Or.inr hs))

/-- An instance of C6: applying the leaf record (CFA = r7 + 16, r3 SAME) to a
cursor at 0x150 succeeds with result 1 and leaves r3 in register r3. -/
theorem C6_same_keeps_location_example :
    (apply_reg_state x86_64 (mem_env []) leaf_se (leaf_cursor 0x150 0) leaf_rs).ret =
      Except.ok 1 ∧
    leaf_rs.where_ 3 = Where.SAME ∧
    (apply_reg_state x86_64 (mem_env []) leaf_se (leaf_cursor 0x150 0) leaf_rs).c.loc 3 =
      XLoc.reg 3 :=
  ⟨by rfl, by decide,
   C6_same_keeps_location x86_64 (mem_env []) leaf_se (leaf_cursor 0x150 0) leaf_rs 1
     (by rfl) 3 (by decide) (by decide)⟩

/-! ## Lookup in the cache -/

/-- The test of the specification, valid and recorded ip equal to the query, is
`cache_match`. -/
theorem cache_match_eq (cache : RsCache) (ip j : Nat) :
    ((cache.links j).valid && (cache.links j).ip == ip) = cache_match cache j ip := by
  unfold cache_match
  cases (cache.links j).valid <;> simp [eq_comm]

/-- The loop of `rs_lookup` is the search of the chain for the first match. -/
theorem rs_lookup_loop_eq (cache : RsCache) (ip : Nat) :
    ∀ (fuel i : Nat), rs_lookup_loop cache ip fuel i =
      match (chain cache fuel i).find? (fun j => (cache.links j).valid && (cache.links j).ip == ip) with
      | some j => some (some j)
      | none => if chain_ends cache fuel i then some none else none := by
  have hp : (fun j => (cache.links j).valid && (cache.links j).ip == ip) =
      fun j => cache_match cache j ip := funext (cache_match_eq cache ip)
  rw [hp]
  intro fuel
  induction fuel with
  | zero =>
    intro i
    unfold rs_lookup_loop chain chain_ends
    by_cases hi : i < DWARF_UNW_CACHE_SIZE cache.log_size
    · rw [if_pos hi, if_pos hi]
      by_cases hm : cache_match cache i ip = true
      · rw [if_pos hm, List.find?_cons]
        simp only [hm]
      · rw [if_neg hm, List.find?_cons]
        simp only [hm, List.find?_nil]
        simp [hi]
    · rw [if_neg hi, if_neg hi, List.find?_nil]
      simp [hi]
  | succ n ih =>
    intro i
    unfold rs_lookup_loop chain chain_ends
    by_cases hi : i < DWARF_UNW_CACHE_SIZE cache.log_size
    · rw [if_pos hi, if_pos hi, if_pos hi]
      by_cases hm : cache_match cache i ip = true
      · rw [if_pos hm, List.find?_cons]
        simp only [hm]
      · rw [if_neg hm, List.find?_cons]
        simp only [hm]
        exact ih _
    · rw [if_neg hi, if_neg hi, if_neg hi, List.find?_nil]
      simp

/-- Every bucket the loop of `rs_lookup` returns matches the query. -/
theorem rs_lookup_loop_match (cache : RsCache) (ip : Nat) :
    ∀ (fuel i j : Nat), rs_lookup_loop cache ip fuel i = some (some j) →
      cache_match cache j ip = true := by
  intro fuel
  induction fuel with
  | zero =>
    intro i j h
    simp only [rs_lookup_loop] at h
    split at h
    · split at h
      · rename_i hm
        simp only [Option.some.injEq] at h
        subst h
        exact hm
      · simp at h
    · simp at h
  | succ n ih =>
    intro i j h
    simp only [rs_lookup_loop] at h
    split at h
    · split at h
      · rename_i hm
        simp only [Option.some.injEq] at h
        subst h
        exact hm
      · exact ih _ _ h
    · simp at h

/-- The loop of `rs_lookup` finishes when the chain ends within the fuel. -/
theorem rs_lookup_loop_terminates (cache : RsCache) (ip : Nat) :
    ∀ (fuel n i : Nat), chain_ends cache n i = true → n ≤ fuel →
      (rs_lookup_loop cache ip fuel i).isSome = true := by
  intro fuel
  induction fuel with
  | zero =>
    intro n i h hn
    have : n = 0 := by omega
    subst this
    simp only [chain_ends, Bool.not_eq_true', decide_eq_false_iff_not] at h
    simp [rs_lookup_loop, h]
  | succ f ih =>
    intro n i h hn
    simp only [rs_lookup_loop]
    split
    · rename_i hi
      split
      · rfl
      · cases n with
        | zero => simp [chain_ends, hi] at h
        | succ m =>
          simp only [chain_ends, hi, if_true] at h
          exact ih m _ h (by omega)
    · rfl

/-- C7 (the code departs from the claim): in a cache of two buckets, after a
flush and the insertions rs_new for ip 0, ip 1 and ip 2, the third insertion
takes bucket 0 as its victim; that entry is valid (ip 0) but rs_new tests
`links[head].ip` and so does not unlink it. Bucket 0 is then spliced in front of
the chain it already heads: its `coll_chain` is 0, the chain from
`hash[hash (links[0].ip)]` visits index 0 again and again and never ends. -/
theorem C7_zero_ip_entry_is_not_unlinked :
    (rs_new_seq 4 flushed2 [0, 1]).map
      (fun k => (k.rr_head, (k.links 0).valid, (k.links 0).ip, k.hash (hash 0 k.log_size))) =
      some (0, true, 0, 0) ∧
    (rs_new_seq 4 flushed2 [0, 1, 2]).isSome = true ∧
    (zero_ip_cache.links 0).valid = true ∧
    (zero_ip_cache.links 0).ip = 2 ∧
    zero_ip_cache.hash (hash (zero_ip_cache.links 0).ip zero_ip_cache.log_size) = 0 ∧
    (zero_ip_cache.links 0).coll_chain = 0 ∧
    chain zero_ip_cache 3
      (zero_ip_cache.hash (hash (zero_ip_cache.links 0).ip zero_ip_cache.log_size)) =
      [0, 0, 0, 0] ∧
    chain_ends zero_ip_cache 3
      (zero_ip_cache.hash (hash (zero_ip_cache.links 0).ip zero_ip_cache.log_size)) = false := by
  decide

/-- C9: for a cursor whose hint is in the range of its type, rs_lookup returns
what the specification says: bucket `hint - 1` when the hint is positive and
that entry is valid with the queried ip; otherwise the first entry on the chain
from `hash[hash (ip)]` that is valid and has the queried ip; otherwise a miss.
Every bucket it returns is valid and has the queried ip, and it returns whenever
the chain ends within the fuel. -/
theorem C9_rs_lookup_refines_spec (cache : RsCache) (ip hint fuel : Nat)
    (hh : hint ≤ USHORT) :
    rs_lookup cache ip hint fuel = rs_lookup_spec cache ip hint fuel ∧
    (∀ i, rs_lookup cache ip hint fuel = some (some i) →
      (cache.links i).valid = true ∧ (cache.links i).ip = ip) ∧
    (∀ n, chain_ends cache n (cache.hash (hash ip cache.log_size)) = true → n ≤ fuel →
      (rs_lookup cache ip hint fuel).isSome = true) := by
  have hmod : 0 < hint → (hint - 1) % USHORT = hint - 1 := by
    intro h0
    apply Nat.mod_eq_of_lt
    omega
  have hcm : ∀ j, cache_match cache j ip = true ↔
      ((cache.links j).valid = true ∧ (cache.links j).ip = ip) := by
    intro j
    unfold cache_match
    simp only [Bool.and_eq_true, beq_iff_eq]
    constructor <;> rintro ⟨a, b⟩ <;> exact ⟨a, b.symm⟩
  refine ⟨?_, ?_, ?_⟩
  · unfold rs_lookup rs_lookup_spec
    by_cases h0 : 0 < hint
    · rw [hmod h0]
      by_cases hm : cache_match cache (hint - 1) ip = true
      · rw [if_pos ⟨h0, hm⟩, if_pos ⟨h0, (hcm _).1 hm⟩]
      · have hm2 : ¬ (0 < hint ∧ (cache.links (hint - 1)).valid = true ∧
            (cache.links (hint - 1)).ip = ip) := fun h => hm ((hcm _).2 h.2)
        rw [if_neg (fun h => hm h.2), if_neg hm2]
        exact rs_lookup_loop_eq cache ip fuel _
    · have hm2 : ¬ (0 < hint ∧ (cache.links (hint - 1)).valid = true ∧
          (cache.links (hint - 1)).ip = ip) := fun h => h0 h.1
      rw [if_neg (fun h => h0 h.1), if_neg hm2]
      exact rs_lookup_loop_eq cache ip fuel _
  · intro i h
    unfold rs_lookup at h
    split at h
    · rename_i hc
      simp only [Option.some.injEq] at h
      subst h
      exact (hcm _).1 hc.2
    · exact (hcm _).1 (rs_lookup_loop_match cache ip fuel _ i h)
  · intro n hn hle
    unfold rs_lookup
    split
    · rfl
    · exact rs_lookup_loop_terminates cache ip fuel n _ hn hle

/-- An instance of C9: in the cache of two buckets holding ip 1 in bucket 0 and
ip 2 in bucket 1, the lookup of ip 2 without a hint returns bucket 1, as the
specification says. -/
theorem C9_rs_lookup_example :
    rs_lookup_spec two_entry_cache 2 0 4 = some (some 1) ∧
    rs_lookup two_entry_cache 2 0 4 = rs_lookup_spec two_entry_cache 2 0 4 ∧
    (rs_lookup two_entry_cache 2 0 4).isSome = true :=
  ⟨by decide, (C9_rs_lookup_refines_spec two_entry_cache 2 0 4 (by decide)).1,
   (C9_rs_lookup_refines_spec two_entry_cache 2 0 4 (by decide)).2.2 2 (by decide) (by decide)⟩

/-! ## Insertion into the cache -/

/-- A cache differs from itself in nothing. -/
theorem same_entries_refl (k : RsCache) : same_entries k k :=
  ⟨rfl, rfl, rfl, rfl, rfl, rfl, rfl, rfl, fun _ => ⟨rfl, rfl, rfl, rfl⟩⟩

/-- An assignment through `pindex` changes a hash head or a `coll_chain` only. -/
theorem assign_same_entries (k : RsCache) (p : PIndex) (v : Nat) :
    same_entries k (k.assign p v) := by
  cases p with
  | head i => exact ⟨rfl, rfl, rfl, rfl, rfl, rfl, rfl, rfl, fun _ => ⟨rfl, rfl, rfl, rfl⟩⟩
  | chain i =>
    refine ⟨rfl, rfl, rfl, rfl, rfl, rfl, rfl, rfl, fun j => ?_⟩
    simp only [RsCache.assign]
    by_cases hj : j = i
    · subst hj
      simp
    · simp [Function.update, hj]

/-- The unlink loop of `rs_new` changes hash heads and `coll_chain` fields only. -/
theorem rs_new_unlink_same_entries (head : Nat) :
    ∀ (fuel : Nat) (k k1 : RsCache) (p : PIndex), rs_new_unlink head fuel k p = some k1 →
      same_entries k k1 := by
  intro fuel
  induction fuel with
  | zero =>
    intro k k1 p h
    simp only [rs_new_unlink] at h
    split at h
    · split at h
      · simp only [Option.some.injEq] at h
        subst h
        exact assign_same_entries _ _ _
      · simp at h
    · simp only [Option.some.injEq] at h
      subst h
      exact same_entries_refl _
  | succ n ih =>
    intro k k1 p h
    simp only [rs_new_unlink] at h
    split at h
    · split at h
      · simp only [Option.some.injEq] at h
        subst h
        exact assign_same_entries _ _ _
      · exact ih _ _ _ h
    · simp only [Option.some.injEq] at h
      subst h
      exact same_entries_refl _

/-- What `rs_new` establishes: the bucket returned is the round-robin head; the
new entry heads the chain of its ip, is valid and records the ip; the other
entries keep their ip and validity; the buckets, the size, the generation and
the array pointers are untouched. -/
theorem rs_new_spec (k k1 : RsCache) (ip : Nat) (sig : Bool) (fuel head : Nat)
    (h : rs_new k ip sig fuel = some (k1, head)) :
    head = k.rr_head ∧ k1.log_size = k.log_size ∧ k1.generation = k.generation ∧
    k1.hash_ptr = k.hash_ptr ∧ k1.buckets = k.buckets ∧
    k1.hash (hash ip k.log_size) = head ∧
    (k1.links head).valid = true ∧ (k1.links head).ip = ip ∧
    ∀ i, i ≠ head → (k1.links i).ip = (k.links i).ip ∧ (k1.links i).valid = (k.links i).valid := by
  unfold rs_new at h
  simp only [] at h
  split at h
  · simp at h
  · rename_i c3 hc3
    simp only [Option.some.injEq, Prod.mk.injEq] at h
    obtain ⟨hk, hh⟩ := h
    have hse : same_entries { k with rr_head :=
        ((k.rr_head + 1) &&& (DWARF_UNW_CACHE_SIZE k.log_size - 1)) % USHORT } c3 := by
      split at hc3
      · exact rs_new_unlink_same_entries _ _ _ _ _ hc3
      · simp only [Option.some.injEq] at hc3
        subst hc3
        exact same_entries_refl _
    obtain ⟨_, hls, _, hgen, hhp, _, _, hb, hl⟩ := hse
    subst hk
    subst hh
    refine ⟨rfl, hls, hgen, hhp, hb, ?_, ?_, ?_, ?_⟩
    · show Function.update c3.hash (hash ip c3.log_size) k.rr_head (hash ip k.log_size) =
        k.rr_head
      rw [show c3.log_size = k.log_size from hls]
      exact Function.update_same _ _ _
    · simp
    · simp
    · intro i hi
      simp only [Function.update, hi, dite_false]
      exact ⟨(hl i).1, (hl i).2.1⟩

/-! ## The step engine and the cache -/

/-- Reading back the cache that was assigned. -/
theorem World.cache_set_cache (w : World) (sel : CacheSel) (k : RsCache) :
    (w.set_cache sel k).cache sel = k := by
  cases sel <;> rfl

/-- Assigning a cache changes neither the caching policy nor the generation of
the address space. -/
theorem World.set_cache_as (w : World) (sel : CacheSel) (k : RsCache) :
    (w.set_cache sel k).as.caching_policy = w.as.caching_policy ∧
    (w.set_cache sel k).as.cache_generation = w.as.cache_generation := by
  cases sel <;> exact ⟨rfl, rfl⟩

/-- A successful flush leaves the `hash` pointer non-NULL and the round-robin
head at 0. -/
theorem dwarf_flush_rs_cache_ok (t : Target) (mm : MemEnv) (k : RsCache)
    (h : (dwarf_flush_rs_cache t mm k).1 = none) :
    (dwarf_flush_rs_cache t mm k).2.hash_ptr ≠ ArrPtr.null ∧
    (dwarf_flush_rs_cache t mm k).2.rr_head = 0 := by
  unfold dwarf_flush_rs_cache at h ⊢
  cases hc : flush_install t mm k with
  | none => rw [hc] at h; simp at h
  | some c2 =>
    simp only []
    refine ⟨?_, rfl⟩
    show c2.hash_ptr ≠ ArrPtr.null
    unfold flush_install at hc
    split at hc
    · simp only [Option.some.injEq] at hc
      subst hc
      simp
    · split at hc
      · simp only [Option.some.injEq] at hc
        subst hc
        simp
      · simp at hc

/-- The cache `get_rs_cache` returns is the one the caching policy selects, its
generation is that of the address space, and its `hash` pointer is not NULL. -/
theorem get_rs_cache_some (t : Target) (mm : MemEnv) (w : World) (sel : CacheSel)
    (h : (get_rs_cache t mm w).1 = some sel) :
    w.as.caching_policy ≠ CachingPolicy.NONE ∧
    sel = select_cache t w ∧
    (get_rs_cache t mm w).2.as.caching_policy = w.as.caching_policy ∧
    (get_rs_cache t mm w).2.as.cache_generation = w.as.cache_generation ∧
    ((get_rs_cache t mm w).2.cache sel).generation = w.as.cache_generation ∧
    ((get_rs_cache t mm w).2.cache sel).hash_ptr ≠ ArrPtr.null := by
  unfold get_rs_cache at h ⊢
  by_cases hp : w.as.caching_policy = CachingPolicy.NONE
  · rw [if_pos hp] at h
    simp at h
  · rw [if_neg hp] at h ⊢
    by_cases hfl : w.as.cache_generation ≠ (w.cache (select_cache t w)).generation ∨
        (w.cache (select_cache t w)).hash_ptr = ArrPtr.null
    · rw [if_pos hfl] at h ⊢
      unfold get_rs_cache_flush at h ⊢
      simp only [] at h ⊢
      cases hr : (dwarf_flush_rs_cache t mm
          { w.cache (select_cache t w) with log_size := w.as.global_cache.log_size }).1 with
      | some e => rw [hr] at h; simp at h
      | none =>
        rw [hr] at h
        simp only [Option.some.injEq] at h
        simp only [hr]
        rw [← h]
        refine ⟨hp, rfl, (World.set_cache_as _ _ _).1, (World.set_cache_as _ _ _).2, ?_, ?_⟩
        · rw [World.cache_set_cache]
        · rw [World.cache_set_cache]
          exact (dwarf_flush_rs_cache_ok t mm _ hr).1
    · rw [if_neg hfl] at h ⊢
      simp only [Option.some.injEq] at h
      rw [← h]
      simp only [not_or, not_not] at hfl
      exact ⟨hp, rfl, rfl, rfl, hfl.1.symm, hfl.2⟩

/-- On a world whose selected cache carries the generation of the address space
and has its arrays installed, `get_rs_cache` returns that cache and changes
nothing. -/
theorem get_rs_cache_unflushed (t : Target) (mm : MemEnv) (w : World)
    (hp : w.as.caching_policy ≠ CachingPolicy.NONE)
    (hgen : (w.cache (select_cache t w)).generation = w.as.cache_generation)
    (hptr : (w.cache (select_cache t w)).hash_ptr ≠ ArrPtr.null) :
    get_rs_cache t mm w = (some (select_cache t w), w) := by
  unfold get_rs_cache
  rw [if_neg hp]
  have : ¬ (w.as.cache_generation ≠ (w.cache (select_cache t w)).generation ∨
      (w.cache (select_cache t w)).hash_ptr = ArrPtr.null) := by
    simp only [not_or, not_not]
    exact ⟨hgen.symm, hptr⟩
  rw [if_neg this]

/-- The end of `fetch_proc_info` leaves the cursor's ip as it is. -/
theorem fetch_finish_ip {Loc : Type} (se : StepEnv Loc) (ret : Option UnwError)
    (c2 : Cursor Loc) (dynamic : Bool) (ip1 n : Nat) :
    (fetch_finish se ret c2 dynamic ip1 n).c.ip = c2.ip := by
  unfold fetch_finish
  split
  · rfl
  · split <;> rfl

/-- The function `put_unwind_info` leaves the cursor's ip as it is. -/
theorem put_unwind_info_ip {Loc : Type} (c1 : Cursor Loc) : (put_unwind_info c1).ip = c1.ip := by
  unfold put_unwind_info
  split
  · rfl
  · split <;> rfl

/-- The proc-info lookup leaves the cursor's ip as it is. -/
theorem fetch_proc_info_ip {Loc : Type} (t : Target) (se : StepEnv Loc) (c : Cursor Loc)
    (ip : Nat) : (fetch_proc_info t se c ip).c.ip = c.ip := by
  unfold fetch_proc_info
  split
  · simp only []
    split
    · rfl
    · rw [fetch_finish_ip]
  · rw [fetch_finish_ip]

/-- An assignment to the `hint` field of one link changes no other field of any
link. -/
theorem hint_update_fields (L : Nat → Link) (j h i : Nat) :
    ((Function.update L j { L j with hint := h }) i).valid = (L i).valid ∧
    ((Function.update L j { L j with hint := h }) i).ip = (L i).ip := by
  by_cases hij : i = j
  · subst hij
    simp
  · simp [Function.update, hij]

/-- The tail of `find_reg_state` for a bucket `index` of the cache `sel`: the
cache afterwards differs from the one before in `hint` fields only. -/
theorem find_reg_state_hints_cache {Loc : Type} (se : StepEnv Loc) (w : World) (sel : CacheSel)
    (index : Nat) (ret : Option UnwError) (c : Cursor Loc) :
    (find_reg_state_hints se w (some sel) (some index) ret c).2.as.caching_policy =
      w.as.caching_policy ∧
    (find_reg_state_hints se w (some sel) (some index) ret c).2.as.cache_generation =
      w.as.cache_generation ∧
    ((find_reg_state_hints se w (some sel) (some index) ret c).2.cache sel).generation =
      (w.cache sel).generation ∧
    ((find_reg_state_hints se w (some sel) (some index) ret c).2.cache sel).hash_ptr =
      (w.cache sel).hash_ptr ∧
    ((find_reg_state_hints se w (some sel) (some index) ret c).2.cache sel).log_size =
      (w.cache sel).log_size ∧
    ((find_reg_state_hints se w (some sel) (some index) ret c).2.cache sel).hash =
      (w.cache sel).hash ∧
    ((find_reg_state_hints se w (some sel) (some index) ret c).2.cache sel).buckets =
      (w.cache sel).buckets ∧
    ∀ i, (((find_reg_state_hints se w (some sel) (some index) ret c).2.cache sel).links i).valid =
        ((w.cache sel).links i).valid ∧
      (((find_reg_state_hints se w (some sel) (some index) ret c).2.cache sel).links i).ip =
        ((w.cache sel).links i).ip := by
  unfold find_reg_state_hints
  simp only []
  refine ⟨(World.set_cache_as _ _ _).1, (World.set_cache_as _ _ _).2, ?_, ?_, ?_, ?_, ?_, ?_⟩
  all_goals rw [World.cache_set_cache]
  intro i
  exact hint_update_fields _ _ _ i

/-- A lookup in a cache whose only entry matching `ip` is `head`, where `head` is
below the cache size and heads the chain of `ip`, returns `head`. -/
theorem rs_lookup_unique_hit (k : RsCache) (ip hint fuel head : Nat)
    (hh : k.hash (hash ip k.log_size) = head)
    (hlt : head < DWARF_UNW_CACHE_SIZE k.log_size)
    (hm : cache_match k head ip = true)
    (hu : ∀ i, cache_match k i ip = true → i = head) :
    rs_lookup k ip hint fuel = some (some head) := by
  unfold rs_lookup
  split
  · rename_i hc
    rw [hu _ hc.2]
  · rw [hh]
    cases fuel with
    | zero => simp only [rs_lookup_loop, hlt, hm, if_true]
    | succ n => simp only [rs_lookup_loop, hlt, hm, if_true]

/-- The proc-info lookup calls a provider at least once. -/
theorem fetch_proc_info_calls {Loc : Type} (t : Target) (se : StepEnv Loc) (c : Cursor Loc)
    (ip : Nat) : 0 < (fetch_proc_info t se c ip).n_proc_info := by
  have hf : ∀ ret (c2 : Cursor Loc) d ip1 n, (fetch_finish se ret c2 d ip1 n).n_proc_info = n := by
    intro ret c2 d ip1 n
    unfold fetch_finish
    split
    · rfl
    · split <;> rfl
  unfold fetch_proc_info
  split
  · simp only []
    split
    · exact Nat.zero_lt_two
    · rw [hf]; exact Nat.zero_lt_two
  · rw [hf]; exact Nat.zero_lt_one

/-- What the computing branch of `find_reg_state` leaves in the cursor's ip, and
how many provider calls it makes. -/
theorem find_reg_state_compute_spec {Loc : Type} (t : Target) (env : Env) (se : StepEnv Loc)
    (c : Cursor Loc) (sr : StateRecord) (fuel : Nat) (m : Computed Loc)
    (h : find_reg_state_compute t env se c sr fuel = some m) :
    m.c.ip = c.ip ∧ 0 < m.n_proc_info := by
  unfold find_reg_state_compute at h
  simp only [] at h
  split at h
  · simp only [Option.some.injEq] at h
    subst h
    exact ⟨by
      show (put_unwind_info (fetch_proc_info t se c c.ip).c).ip = c.ip
      rw [put_unwind_info_ip, fetch_proc_info_ip], fetch_proc_info_calls t se c c.ip⟩
  · split at h
    · simp at h
    · simp only [Option.some.injEq] at h
      subst h
      exact ⟨by
        show (put_unwind_info (fetch_proc_info t se c c.ip).c).ip = c.ip
        rw [put_unwind_info_ip, fetch_proc_info_ip], fetch_proc_info_calls t se c c.ip⟩

/-- The cache after a successful run of the second branch of `find_reg_state`
with a cache in use: the new entry sits in the bucket at the old round-robin
head, heads the chain of the cursor's ip, holds the computed record, and is the
only entry matching that ip if none matched before. -/
theorem find_reg_state_miss_spec {Loc : Type} (t : Target) (env : Env) (se : StepEnv Loc)
    (w : World) (sel : CacheSel) (c : Cursor Loc) (sr : StateRecord) (fuel : Nat)
    (f1 : FindOut Loc)
    (h : find_reg_state_miss t env se w (some sel) c sr fuel = some f1)
    (hret : f1.ret = none) :
    0 < f1.n_proc_info ∧
    f1.w.as.caching_policy = w.as.caching_policy ∧
    f1.w.as.cache_generation = w.as.cache_generation ∧
    (f1.w.cache sel).generation = (w.cache sel).generation ∧
    (f1.w.cache sel).hash_ptr = (w.cache sel).hash_ptr ∧
    (f1.w.cache sel).log_size = (w.cache sel).log_size ∧
    (f1.w.cache sel).hash (hash c.ip (w.cache sel).log_size) = (w.cache sel).rr_head ∧
    cache_match (f1.w.cache sel) (w.cache sel).rr_head c.ip = true ∧
    (f1.w.cache sel).buckets (w.cache sel).rr_head = f1.sr.rs_current ∧
    (∀ i, cache_match (f1.w.cache sel) i c.ip = true →
      i = (w.cache sel).rr_head ∨ cache_match (w.cache sel) i c.ip = true) := by
  unfold find_reg_state_miss at h
  split at h
  · simp at h
  · rename_i m hm
    obtain ⟨hmip, hmn⟩ := find_reg_state_compute_spec t env se c sr fuel m hm
    split at h
    · rename_i sel1 hsel1 hmret
      simp only [Option.some.injEq] at hsel1
      subst hsel1
      split at h
      · simp at h
      · rename_i r hr
        simp only [Option.some.injEq] at h
        subst h
        unfold find_reg_state_insert at hr
        split at hr
        · simp at hr
        · rename_i r0 hr0
          simp only [Option.some.injEq] at hr
          subst hr
          rw [hmip] at hr0
          obtain ⟨hhead, hls, hgen, hhp, hb, hhash, hval, hipn, hoth⟩ :=
            rs_new_spec (w.cache sel) r0.1 c.ip _ fuel r0.2 hr0
          obtain ⟨g1, g2, g3, g4, g5, g6, g7, g8⟩ :=
            find_reg_state_hints_cache se
              (w.set_cache sel { r0.1 with
                links := Function.update r0.1.links r0.2 { r0.1.links r0.2 with hint := 0 },
                buckets := Function.update r0.1.buckets r0.2 m.sr.rs_current })
              sel r0.2 m.ret m.c
          simp only [World.cache_set_cache] at g3 g4 g5 g6 g7 g8
          have hv : ∀ i, (((find_reg_state_hints se
              (w.set_cache sel { r0.1 with
                links := Function.update r0.1.links r0.2 { r0.1.links r0.2 with hint := 0 },
                buckets := Function.update r0.1.buckets r0.2 m.sr.rs_current })
              (some sel) (some r0.2) m.ret m.c).2.cache sel).links i).valid = (r0.1.links i).valid ∧
              (((find_reg_state_hints se
              (w.set_cache sel { r0.1 with
                links := Function.update r0.1.links r0.2 { r0.1.links r0.2 with hint := 0 },
                buckets := Function.update r0.1.buckets r0.2 m.sr.rs_current })
              (some sel) (some r0.2) m.ret m.c).2.cache sel).links i).ip = (r0.1.links i).ip := by
            intro i
            rw [(g8 i).1, (g8 i).2]
            exact hint_update_fields _ _ _ i
          refine ⟨hmn, ?_, ?_, ?_, ?_, ?_, ?_, ?_, ?_, ?_⟩
          · rw [g1]; exact (World.set_cache_as _ _ _).1
          · rw [g2]; exact (World.set_cache_as _ _ _).2
          · rw [g3]; exact hgen
          · rw [g4]; exact hhp
          · rw [g5]; exact hls
          · rw [g6, ← hhead]; exact hhash
          · rw [← hhead]
            unfold cache_match
            rw [(hv _).1, (hv _).2, hval, hipn]
            simp
          · rw [g7, ← hhead]
            simp
          · intro i hi
            by_cases hih : i = r0.2
            · left; rw [hih, hhead]
            · right
              unfold cache_match at hi ⊢
              rw [(hv i).1, (hv i).2, (hoth i hih).1, (hoth i hih).2] at hi
              exact hi
    · rename_i hne
      simp only [Option.some.injEq] at h
      subst h
      exfalso
      exact hne sel rfl hret

/-- The proc-info lookup and the release of the proc info leave the cursor's cfa
as it is. -/
theorem fetch_proc_info_cfa {Loc : Type} (t : Target) (se : StepEnv Loc) (c : Cursor Loc)
    (ip : Nat) : (put_unwind_info (fetch_proc_info t se c ip).c).cfa = c.cfa := by
  have hput : ∀ c1 : Cursor Loc, (put_unwind_info c1).cfa = c1.cfa := by
    intro c1
    unfold put_unwind_info
    split
    · rfl
    · split <;> rfl
  have hf : ∀ ret (c2 : Cursor Loc) d ip1 n, (fetch_finish se ret c2 d ip1 n).c.cfa = c2.cfa := by
    intro ret c2 d ip1 n
    unfold fetch_finish
    split
    · rfl
    · split <;> rfl
  rw [hput]
  unfold fetch_proc_info
  split
  · simp only []
    split
    · rfl
    · rw [hf]
  · rw [hf]

/-- The tail of `find_reg_state` leaves the cursor's ip and cfa as they are. -/
theorem find_reg_state_hints_cursor {Loc : Type} (se : StepEnv Loc) (w : World)
    (cache : Option CacheSel) (rs : Option Nat) (ret : Option UnwError) (c : Cursor Loc) :
    (find_reg_state_hints se w cache rs ret c).1.ip = c.ip ∧
    (find_reg_state_hints se w cache rs ret c).1.cfa = c.cfa := by
  unfold find_reg_state_hints
  cases cache with
  | none => exact ⟨rfl, rfl⟩
  | some sel =>
    cases rs with
    | none => cases ret <;> exact ⟨rfl, rfl⟩
    | some index => cases ret <;> exact ⟨rfl, rfl⟩

/-- The function `find_reg_state` leaves the cursor's ip and cfa as they are. -/
theorem find_reg_state_cursor {Loc : Type} (t : Target) (env : Env) (mm : MemEnv)
    (se : StepEnv Loc) (w : World) (c : Cursor Loc) (sr : StateRecord) (fuel : Nat)
    (f : FindOut Loc) (h : find_reg_state t env mm se w c sr fuel = some f) :
    f.c.ip = c.ip ∧ f.c.cfa = c.cfa := by
  have hmiss : ∀ (w1 : World) (cache : Option CacheSel),
      find_reg_state_miss t env se w1 cache c sr fuel = some f → f.c.ip = c.ip ∧ f.c.cfa = c.cfa := by
    intro w1 cache hm
    unfold find_reg_state_miss at hm
    split at hm
    · simp at hm
    · rename_i m hcm
      have hmc : m.c.ip = c.ip ∧ m.c.cfa = c.cfa := by
        unfold find_reg_state_compute at hcm
        simp only [] at hcm
        split at hcm
        · rw [← Option.some.inj hcm]
          exact ⟨by
            show (put_unwind_info (fetch_proc_info t se c c.ip).c).ip = c.ip
            rw [put_unwind_info_ip, fetch_proc_info_ip], fetch_proc_info_cfa t se c c.ip⟩
        · split at hcm
          · simp at hcm
          · rw [← Option.some.inj hcm]
            exact ⟨by
              show (put_unwind_info (fetch_proc_info t se c c.ip).c).ip = c.ip
              rw [put_unwind_info_ip, fetch_proc_info_ip], fetch_proc_info_cfa t se c c.ip⟩
      split at hm
      · split at hm
        · simp at hm
        · rw [← Option.some.inj hm]
          exact ⟨(find_reg_state_hints_cursor se _ _ _ _ _).1.trans hmc.1,
            (find_reg_state_hints_cursor se _ _ _ _ _).2.trans hmc.2⟩
      · rw [← Option.some.inj hm]
        exact ⟨(find_reg_state_hints_cursor se _ _ _ _ _).1.trans hmc.1,
          (find_reg_state_hints_cursor se _ _ _ _ _).2.trans hmc.2⟩
  unfold find_reg_state at h
  split at h
  · exact hmiss _ _ h
  · split at h
    · simp at h
    · rw [← Option.some.inj h]
      unfold find_reg_state_hit
      exact find_reg_state_hints_cursor se _ _ _ _ _
    · exact hmiss _ _ h

/-- C8: let find_reg_state run with a cache in which no entry matches the
cursor's ip `p` (so the lookup misses), and let it succeed: it has called the
proc-info provider, computed a record `s` and inserted it. Then find_reg_state
on the world it leaves, for any cursor whose ip is `p` (whatever its hint), any
accessors and any amount of fuel, returns success with `rs_current` equal to `s`,
having made no call to the proc-info provider and no run of the CFI
interpreter. (`hrr` is the cache invariant that the round-robin head is below
the cache size.) -/
theorem C8_hit_after_miss {Loc : Type} (t : Target) (env env2 : Env) (mm : MemEnv)
    (se : StepEnv Loc) (w : World) (c c2 : Cursor Loc) (sr sr2 : StateRecord)
    (fuel fuel2 : Nat) (sel : CacheSel) (f1 : FindOut Loc)
    (hsel : (get_rs_cache t mm w).1 = some sel)
    (hrr : ((get_rs_cache t mm w).2.cache sel).rr_head <
      DWARF_UNW_CACHE_SIZE ((get_rs_cache t mm w).2.cache sel).log_size)
    (hmiss : ∀ i, cache_match ((get_rs_cache t mm w).2.cache sel) i c.ip = false)
    (h1 : find_reg_state t env mm se w c sr fuel = some f1)
    (hret : f1.ret = none)
    (hip : c2.ip = c.ip) :
    0 < f1.n_proc_info ∧
    ∃ f2, find_reg_state t env2 mm se f1.w c2 sr2 fuel2 = some f2 ∧ f2.ret = none ∧
      f2.sr.rs_current = f1.sr.rs_current ∧ f2.n_proc_info = 0 ∧ f2.n_cfi = 0 := by
  obtain ⟨hpol, hselc, hpol0, hgen0, hkgen, hkptr⟩ := get_rs_cache_some t mm w sel hsel
  -- the first call took the second branch
  have hm1 : find_reg_state_miss t env se (get_rs_cache t mm w).2 (some sel) c sr fuel =
      some f1 := by
    unfold find_reg_state at h1
    rw [hsel] at h1
    simp only [] at h1
    split at h1
    · simp at h1
    · rename_i index hl
      have := rs_lookup_loop_match ((get_rs_cache t mm w).2.cache sel) c.ip
      have hcm : cache_match ((get_rs_cache t mm w).2.cache sel) index c.ip = true := by
        unfold rs_lookup at hl
        split at hl
        · rename_i hc
          simp only [Option.some.injEq] at hl
          rw [← hl]
          exact hc.2
        · exact this fuel _ index hl
      rw [hmiss index] at hcm
      simp at hcm
    · exact h1
  obtain ⟨hn, e1, e2, e3, e4, e5, e6, e7, e8, e9⟩ :=
    find_reg_state_miss_spec t env se (get_rs_cache t mm w).2 sel c sr fuel f1 hm1 hret
  refine ⟨hn, ?_⟩
  -- the second call finds the cache as the first left it
  have hsel2 : select_cache t f1.w = sel := by
    rw [hselc]
    unfold select_cache
    rw [e1, hpol0]
  have hg2 : get_rs_cache t mm f1.w = (some sel, f1.w) := by
    have := get_rs_cache_unflushed t mm f1.w (by rw [e1, hpol0]; exact hpol)
      (by rw [hsel2, e3, e2, hgen0]; exact hkgen) (by rw [hsel2, e4]; exact hkptr)
    rw [hsel2] at this
    exact this
  have hu : ∀ i, cache_match (f1.w.cache sel) i c.ip = true →
      i = ((get_rs_cache t mm w).2.cache sel).rr_head := by
    intro i hi
    rcases e9 i hi with h | h
    · exact h
    · rw [hmiss i] at h
      simp at h
  have hl2 : rs_lookup (f1.w.cache sel) c2.ip c2.hint fuel2 =
      some (some ((get_rs_cache t mm w).2.cache sel).rr_head) := by
    rw [hip]
    apply rs_lookup_unique_hit
    · rw [e5]; exact e6
    · rw [e5]; exact hrr
    · exact e7
    · exact hu
  refine ⟨find_reg_state_hit se f1.w sel ((get_rs_cache t mm w).2.cache sel).rr_head c2 sr2,
    ?_, rfl, ?_, rfl, rfl⟩
  · unfold find_reg_state
    rw [hg2]
    simp only [hl2]
  · show (f1.w.cache sel).buckets ((get_rs_cache t mm w).2.cache sel).rr_head = f1.sr.rs_current
    exact e8

/-- The first loop of the flush leaves no valid entry if there was none among
the entries it does not reach. -/
theorem flush_links_loop_valid :
    ∀ (n a : Nat) (L : Nat → Link), (∀ i, (L i).valid = false) →
      ∀ i, (flush_links_loop L a n i).valid = false := by
  intro n
  induction n with
  | zero => intro a L hL i; exact hL i
  | succ n ih =>
    intro a L hL i
    simp only [flush_links_loop]
    apply ih
    intro j
    by_cases hj : j = a
    · subst hj; simp
    · simp [Function.update, hj, hL j]

/-- An instance of C8: on the stale world (the first get_rs_cache flushes the
cache, so nothing matches), find_reg_state for a cursor at 0x150 misses, calls
the provider and inserts; a second find_reg_state for a fresh cursor at 0x150,
with accessors over an empty memory and no fuel, succeeds with the same record
and makes no provider call and no interpreter run. -/
theorem C8_hit_after_miss_example :
    (first_find no_find).ret = none ∧
    0 < (first_find no_find).n_proc_info ∧
    ∃ f2, find_reg_state x86_64 (mem_env []) mem_ok (x_env reg_regs (fun _ => 0) reg_pi)
        (first_find no_find).w (x_cursor 0x150 0 reg_pi) zero_state_record 0 = some f2 ∧
      f2.ret = none ∧ f2.sr.rs_current = (first_find no_find).sr.rs_current ∧
      f2.n_proc_info = 0 ∧ f2.n_cfi = 0 :=
  have hlinks : ((get_rs_cache x86_64 mem_ok stale_world).2.cache CacheSel.global).links =
      flush_links_loop mem_ok.links0 0 2 := by rfl
  have hmiss : ∀ i, cache_match ((get_rs_cache x86_64 mem_ok stale_world).2.cache
      CacheSel.global) i (x_cursor 0x150 0 reg_pi).ip = false := by
    intro i
    unfold cache_match
    rw [hlinks, flush_links_loop_valid 2 0 _ (fun _ => rfl) i]
    rfl
  ⟨by rfl,
   C8_hit_after_miss x86_64 (mem_env reg_prog) (mem_env []) mem_ok
     (x_env reg_regs (fun _ => 0) reg_pi) stale_world (x_cursor 0x150 0 reg_pi)
     (x_cursor 0x150 0 reg_pi) zero_state_record zero_state_record 10 0 CacheSel.global
     (first_find no_find) (by rfl) (by decide) hmiss (by rfl) (by rfl) (by rfl)⟩

/-! ## The iterator and parse_fde -/

/-- The loop of `run_cfi_program` is deterministic in its fuel: two runs that
finish give the same outcome. -/
theorem run_cfi_loop_det (t : Target) (env : Env) (pi : ProcInfo) (dci : CieInfo)
    (E A : Nat) :
    ∀ (f1 f2 : Nat) (s : Cfi) (o1 o2 : Outcome),
      run_cfi_loop t env pi dci E A f1 s = some o1 →
      run_cfi_loop t env pi dci E A f2 s = some o2 → o1 = o2 := by
  intro f1
  induction f1 with
  | zero =>
    intro f2 s o1 o2 h1 h2
    simp only [run_cfi_loop] at h1
    split at h1
    · simp at h1
    · rename_i hc
      cases f2 with
      | zero => simp only [run_cfi_loop, hc, if_false] at h2; rw [← Option.some.inj h1, ← Option.some.inj h2]
      | succ n => simp only [run_cfi_loop, hc, if_false] at h2; rw [← Option.some.inj h1, ← Option.some.inj h2]
  | succ n ih =>
    intro f2 s o1 o2 h1 h2
    simp only [run_cfi_loop] at h1
    split at h1
    · rename_i hc
      cases f2 with
      | zero => simp only [run_cfi_loop, hc, if_true] at h2; simp at h2
      | succ m =>
        simp only [run_cfi_loop, hc, if_true] at h2
        split at h1
        · rename_i e he
          rw [he] at h2
          simp only at h2
          rw [← Option.some.inj h1, ← Option.some.inj h2]
        · rename_i he
          rw [he] at h2
          simp only at h2
          exact ih _ _ _ _ h1 h2
    · rename_i hc
      cases f2 with
      | zero => simp only [run_cfi_loop, hc, if_false] at h2; rw [← Option.some.inj h1, ← Option.some.inj h2]
      | succ m => simp only [run_cfi_loop, hc, if_false] at h2; rw [← Option.some.inj h1, ← Option.some.inj h2]

/-- A run up to `E` is a prefix of a run up to a later `E1` over the same bytes:
if the short run fails, so does the long one, with the same outcome; if it
succeeds, the long run from where it stopped ends as the long run from the
start. -/
theorem run_cfi_loop_prefix (t : Target) (env : Env) (pi : ProcInfo) (dci : CieInfo)
    (E E1 A : Nat) (hE : E ≤ E1) :
    ∀ (f f1 : Nat) (s : Cfi) (o o1 : Outcome),
      run_cfi_loop t env pi dci E A f s = some o →
      run_cfi_loop t env pi dci E1 A f1 s = some o1 →
      (o.ret ≠ none → o1 = o) ∧
      (o.ret = none → ∃ f2, run_cfi_loop t env pi dci E1 A f2 o.st = some o1) := by
  intro f
  induction f with
  | zero =>
    intro f1 s o o1 h h1
    simp only [run_cfi_loop] at h
    split at h
    · simp at h
    · have ho := Option.some.inj h
      subst ho
      exact ⟨fun hne => absurd rfl hne, fun _ => ⟨f1, h1⟩⟩
  | succ n ih =>
    intro f1 s o o1 h h1
    simp only [run_cfi_loop] at h
    split at h
    · rename_i hc
      have hc1 : s.ip ≤ E1 ∧ s.addr < A := ⟨by omega, hc.2⟩
      cases f1 with
      | zero => simp only [run_cfi_loop, hc1, and_self, if_true] at h1; simp at h1
      | succ m =>
        simp only [run_cfi_loop, hc1, and_self, if_true] at h1
        split at h
        · rename_i e he
          rw [he] at h1
          simp only at h1
          have ho := Option.some.inj h
          have ho1 := Option.some.inj h1
          subst ho
          exact ⟨fun _ => ho1.symm, fun hn => by rw [he] at hn; simp at hn⟩
        · rename_i he
          rw [he] at h1
          simp only at h1
          exact ih _ _ _ _ h h1
    · have ho := Option.some.inj h
      subst ho
      exact ⟨fun hne => absurd rfl hne, fun _ => ⟨f1, h1⟩⟩

/-- A run that starts where the loop condition fails stops at once. -/
theorem run_cfi_loop_stop (t : Target) (env : Env) (pi : ProcInfo) (dci : CieInfo)
    (E A f : Nat) (s : Cfi) (o : Outcome) (hc : ¬ (s.ip ≤ E ∧ s.addr < A))
    (h : run_cfi_loop t env pi dci E A f s = some o) : o = Outcome.cont s := by
  cases f with
  | zero => simp only [run_cfi_loop, hc, if_false] at h; exact (Option.some.inj h).symm
  | succ n => simp only [run_cfi_loop, hc, if_false] at h; exact (Option.some.inj h).symm

/-- A run that finishes with success stops where the loop condition fails. -/
theorem run_cfi_loop_exit (t : Target) (env : Env) (pi : ProcInfo) (dci : CieInfo)
    (E A : Nat) :
    ∀ (f : Nat) (s : Cfi) (o : Outcome), run_cfi_loop t env pi dci E A f s = some o →
      o.ret = none → ¬ (o.st.ip ≤ E ∧ o.st.addr < A) := by
  intro f
  induction f with
  | zero =>
    intro s o h hr
    simp only [run_cfi_loop] at h
    split at h
    · simp at h
    · rename_i hc
      rw [← Option.some.inj h]
      exact hc
  | succ n ih =>
    intro s o h hr
    simp only [run_cfi_loop] at h
    split at h
    · split at h
      · rename_i e he
        rw [← Option.some.inj h, he] at hr
        simp at hr
      · exact ih _ _ h hr
    · rename_i hc
      rw [← Option.some.inj h]
      exact hc

/-- The loop of the iterator only appends to the list of callback calls. -/
theorem table_iterate_loop_out (t : Target) (env : Env) (pi : ProcInfo)
    (cb : List Slice → Slice → Option UnwError) (fuel : Nat) :
    ∀ (n : Nat) (x xf : IterSt), table_iterate_loop t env pi cb fuel n x = some xf →
      ∃ more, xf.out = x.out ++ more := by
  intro n
  induction n with
  | zero =>
    intro x xf h
    simp only [table_iterate_loop] at h
    split at h
    · simp at h
    · rw [← Option.some.inj h]
      exact ⟨[], by simp⟩
  | succ n ih =>
    intro x xf h
    simp only [table_iterate_loop] at h
    split at h
    · split at h
      · simp at h
      · rename_i o ho
        split at h
        · obtain ⟨more, hm⟩ := ih _ _ h
          refine ⟨[⟨o.st.sr.rs_current, x.st.ip, o.st.ip⟩] ++ more, ?_⟩
          rw [hm]
          exact List.append_assoc _ _ _
        · exact ih ⟨o.ret, o.st, x.out⟩ xf h
    · rw [← Option.some.inj h]
      exact ⟨[], by simp⟩

/-- The loop of the iterator, followed up to the slice that contains the target
`ip1` of a successful run of the FDE program up to `ip1` with outcome `op`:
either a call of the callback for an interval containing `ip1` has been made, the
first such call carrying the record of `op`; or no such call has been made, the
loop has ended at or before `ip1`, and the record is that of `op`. -/
theorem table_iterate_loop_target (t : Target) (env : Env) (pi : ProcInfo)
    (cb : List Slice → Slice → Option UnwError) (fuel : Nat) (ip1 : Nat) (op : Outcome)
    (hcb : ∀ h s, cb h s = none) (hop : op.ret = none) (hhi : ip1 < pi.end_ip) :
    ∀ (n : Nat) (x xf : IterSt),
      x.ret = none → x.st.ip ≤ ip1 → (∀ sl ∈ x.out, sl.contains ip1 = false) →
      (∃ f, run_cfi_loop t env pi pi.unwind_info ip1 pi.unwind_info.fde_instr_end f x.st =
        some op) →
      table_iterate_loop t env pi cb fuel n x = some xf →
      (∃ sl, xf.out.find? (Slice.contains ip1) = some sl ∧ sl.rs = op.st.sr.rs_current) ∨
      (xf.ret = none ∧ xf.st.ip ≤ ip1 ∧ (∀ sl ∈ xf.out, sl.contains ip1 = false) ∧
        xf.st.sr.rs_current = op.st.sr.rs_current) := by
  have hexit : ∀ x : IterSt, x.ret = none → x.st.ip ≤ ip1 →
      (∀ sl ∈ x.out, sl.contains ip1 = false) →
      (∃ f, run_cfi_loop t env pi pi.unwind_info ip1 pi.unwind_info.fde_instr_end f x.st =
        some op) →
      ¬ (x.ret = none ∧ x.st.ip < pi.end_ip ∧ x.st.addr < pi.unwind_info.fde_instr_end) →
      (x.ret = none ∧ x.st.ip ≤ ip1 ∧ (∀ sl ∈ x.out, sl.contains ip1 = false) ∧
        x.st.sr.rs_current = op.st.sr.rs_current) := by
    intro x hr hip hout hrun hc
    obtain ⟨f, hf⟩ := hrun
    have hstop : ¬ (x.st.ip ≤ ip1 ∧ x.st.addr < pi.unwind_info.fde_instr_end) := by
      intro h
      exact hc ⟨hr, by omega, h.2⟩
    have := run_cfi_loop_stop t env pi pi.unwind_info ip1 _ f x.st op hstop hf
    exact ⟨hr, hip, hout, by rw [this]; rfl⟩
  intro n
  induction n with
  | zero =>
    intro x xf hr hip hout hrun h
    simp only [table_iterate_loop] at h
    split at h
    · simp at h
    · rename_i hc
      rw [← Option.some.inj h]
      exact Or.inr (hexit x hr hip hout hrun hc)
  | succ n ih =>
    intro x xf hr hip hout hrun h
    simp only [table_iterate_loop] at h
    split at h
    · split at h
      · simp at h
      · rename_i o ho
        obtain ⟨f, hf⟩ := hrun
        have hpre := run_cfi_loop_prefix t env pi pi.unwind_info x.st.ip ip1
          pi.unwind_info.fde_instr_end hip fuel f x.st o op ho hf
        have hor : o.ret = none := by
          by_contra hne
          have := hpre.1 hne
          rw [this] at hop
          exact hne hop
        obtain ⟨f2, hf2⟩ := hpre.2 hor
        split at h
        · rename_i hadv
          by_cases hle : o.st.ip ≤ ip1
          · refine ih _ xf (hcb _ _) hle ?_ ⟨f2, hf2⟩ h
            intro sl hsl
            rw [List.mem_append, List.mem_singleton] at hsl
            rcases hsl with hsl | hsl
            · exact hout sl hsl
            · subst hsl
              simp only [Slice.contains, decide_eq_false_iff_not, not_and, not_lt]
              intro _
              exact hle
          · left
            have hstop : ¬ (o.st.ip ≤ ip1 ∧ o.st.addr < pi.unwind_info.fde_instr_end) :=
              fun hh => hle hh.1
            have hop2 := run_cfi_loop_stop t env pi pi.unwind_info ip1 _ f2 o.st op hstop hf2
            obtain ⟨more, hmore⟩ := table_iterate_loop_out t env pi cb fuel n _ xf h
            refine ⟨⟨o.st.sr.rs_current, x.st.ip, o.st.ip⟩, ?_, by rw [hop2]; rfl⟩
            rw [hmore]
            simp only []
            rw [List.append_assoc, List.find?_append]
            have hnone : List.find? (Slice.contains ip1) x.out = none := by
              rw [List.find?_eq_none]
              intro sl hsl
              rw [hout sl hsl]
              simp
            rw [hnone]
            simp only [Option.none_or, List.singleton_append, List.find?_cons]
            have hc : Slice.contains ip1 ⟨o.st.sr.rs_current, x.st.ip, o.st.ip⟩ = true := by
              simp only [Slice.contains, decide_eq_true_eq]
              omega
            rw [hc]
        · rename_i hadv
          have hle : o.st.ip ≤ x.st.ip := by
            by_contra hgt
            exact hadv ⟨hor, by omega⟩
          exact ih ⟨o.ret, o.st, x.out⟩ xf hor (by show o.st.ip ≤ ip1; omega) hout ⟨f2, hf2⟩ h
    · rename_i hc
      rw [← Option.some.inj h]
      exact Or.inr (hexit x hr hip hout hrun hc)

/-- The function `setup_fde` is deterministic in its fuel. -/
theorem setup_fde_det (t : Target) (env : Env) (pi : ProcInfo) (f1 f2 : Nat)
    (a b : DriverOut) (h1 : setup_fde t env pi f1 = some a) (h2 : setup_fde t env pi f2 = some b) :
    a = b := by
  unfold setup_fde run_cfi_program at h1 h2
  simp only [] at h1 h2
  split at h1
  · simp at h1
  · rename_i o1 ho1
    split at h2
    · simp at h2
    · rename_i o2 ho2
      have := run_cfi_loop_det t env pi _ _ _ f1 f2 _ o1 o2 ho1 ho2
      subst this
      rw [h1] at h2
      exact Option.some.inj h2

/-- C4 (counterexample): for the FDE `def_cfa_offset 16; advance_loc 4;
def_cfa_offset 32` of a procedure at `[0x100, 0x200)` and a cursor of a normal
call frame (`use_prev_instr = 1`), parse_fde for ip = 0x104 runs the program up
to 0x103 and yields CFA offset 16, while the slice of the iterator that contains
0x104 is `[0x104, 0x200)` and carries CFA offset 32. And for the FDE `advance_loc
16; def_cfa_offset 16; set_loc 0x102`, whose location counter goes back, the
iterator reports the overlapping slices `[0x100, 0x110)` and `[0x102, 0x200)`;
for ip = 0x105 and `use_prev_instr = 0` parse_fde agrees with the first (CFA
offset 0) and not with the second (CFA offset 16). -/
theorem C4_counterexample :
    (two_slice_setup.ret = none ∧
     (two_slice_parse 1).ret = none ∧
     (two_slice_parse 1).sr.rs_current.val 18 = 16 ∧
     two_slice_iter.map (fun sl => (sl.prev_ip, sl.curr_ip, sl.rs.val 18)) =
       [(0x100, 0x104, 16), (0x104, 0x200, 32)] ∧
     ∃ sl ∈ two_slice_iter, sl.contains 0x104 = true ∧
       sl.rs.val 18 ≠ (two_slice_parse 1).sr.rs_current.val 18) ∧
    (back_parse.ret = none ∧
     back_parse.sr.rs_current.val 18 = 0 ∧
     back_iter.map (fun sl => (sl.prev_ip, sl.curr_ip, sl.rs.val 18)) =
       [(0x100, 0x110, 0), (0x102, 0x200, 16)] ∧
     ∃ sl ∈ back_iter, sl.contains 0x105 = true ∧
       sl.rs.val 18 ≠ back_parse.sr.rs_current.val 18) := by
  decide

/-- C4 (amended): let setup_fde and then parse_fde succeed for a target `ip` and
a cursor with the given `use_prev_instr`, let `ip - use_prev_instr` lie in
`[start_ip, end_ip)` (and below `last_ip` where the target reports up to it), and
let dwarf_reg_states_table_iterate finish with a callback that never returns a
negative value. Then the iterator has called the callback for an interval that
contains `ip - use_prev_instr`, and the first such call was handed a state record
equal to the `rs_current` of parse_fde. -/
theorem C4_parse_matches_first_slice (t : Target) (env : Env) (pi : ProcInfo)
    (cb : List Slice → Slice → Option UnwError) (fuel fuel2 : Nat) (ip use_prev_instr : Nat)
    (o0 op : DriverOut) (r : Option UnwError) (slices : List Slice) (stk : List RegState)
    (hcb : ∀ h s, cb h s = none)
    (hset : setup_fde t env pi fuel = some o0) (hset0 : o0.ret = none)
    (hparse : parse_fde t env pi use_prev_instr ip o0.sr fuel = some op)
    (hpret : op.ret = none)
    (hit : dwarf_reg_states_table_iterate t env pi cb fuel2 = some (r, slices, stk))
    (hlo : pi.start_ip ≤ wsub ip use_prev_instr)
    (hhi : wsub ip use_prev_instr < pi.end_ip)
    (hlast : t.need_last_ip = true → wsub ip use_prev_instr < pi.last_ip) :
    ∃ sl, slices.find? (Slice.contains (wsub ip use_prev_instr)) = some sl ∧
      sl.rs = op.sr.rs_current := by
  -- the run of parse_fde
  unfold parse_fde run_cfi_program at hparse
  simp only [] at hparse
  split at hparse
  · simp at hparse
  · rename_i o ho
    have hop := Option.some.inj hparse
    subst hop
    -- the iterator
    unfold dwarf_reg_states_table_iterate at hit
    split at hit
    · simp at hit
    · rename_i o1 ho1
      have h01 := setup_fde_det t env pi fuel fuel2 o0 o1 hset ho1
      subst h01
      split at hit
      · simp at hit
      · rename_i xf hxf
        have htar := table_iterate_loop_target t env pi cb fuel2 (wsub ip use_prev_instr) o hcb
          hpret hhi fuel2 _ xf hset0 hlo (by intro sl hsl; simp at hsl) ⟨fuel, ho⟩ hxf
        simp only [] at hit
        have hlim : wsub ip use_prev_instr <
            (if t.need_last_ip = true then pi.last_ip else pi.end_ip) := by
          split
          · rename_i hn; exact hlast hn
          · exact hhi
        generalize (if t.need_last_ip = true then pi.last_ip else pi.end_ip) = limit at hit hlim
        rcases htar with ⟨sl, hfind, hrs⟩ | ⟨hr, hip, hout, hrs⟩
        · refine ⟨sl, ?_, hrs⟩
          by_cases hcond : xf.ret = none ∧ xf.st.ip < limit
          · rw [if_pos hcond] at hit
            have := Option.some.inj hit
            simp only [Prod.mk.injEq] at this
            rw [← this.2.1, List.find?_append, hfind]
            rfl
          · rw [if_neg hcond] at hit
            have := Option.some.inj hit
            simp only [Prod.mk.injEq] at this
            rw [← this.2.1]
            exact hfind
        · have hcond : xf.ret = none ∧ xf.st.ip < limit := ⟨hr, by omega⟩
          rw [if_pos hcond] at hit
          have := Option.some.inj hit
          simp only [Prod.mk.injEq] at this
          refine ⟨⟨xf.st.sr.rs_current, xf.st.ip, limit⟩, ?_, hrs⟩
          rw [← this.2.1, List.find?_append]
          have hnone : List.find? (Slice.contains (wsub ip use_prev_instr)) xf.out = none := by
            rw [List.find?_eq_none]
            intro sl hsl
            rw [hout sl hsl]
            simp
          rw [hnone]
          simp only [Option.none_or, List.find?_cons]
          have hc : Slice.contains (wsub ip use_prev_instr)
              ⟨xf.st.sr.rs_current, xf.st.ip, limit⟩ = true := by
            simp only [Slice.contains, decide_eq_true_eq]
            exact ⟨hip, hlim⟩
          rw [hc]

/-- An instance of the amended C4: in the two-slice example, parse_fde for
ip = 0x104 and `use_prev_instr = 1` targets 0x103; the first slice of the
iterator containing 0x103 is `[0x100, 0x104)`, and its record equals that of
parse_fde. -/
theorem C4_parse_matches_first_slice_example :
    (two_slice_iter.find? (Slice.contains 0x103)).map (fun sl => (sl.prev_ip, sl.curr_ip)) =
      some (0x100, 0x104) ∧
    ∃ sl, two_slice_iter.find? (Slice.contains (wsub 0x104 1)) = some sl ∧
      sl.rs = (two_slice_parse 1).sr.rs_current :=
  ⟨by decide,
   C4_parse_matches_first_slice x86_64 (mem_env two_slice_prog) two_slice_pi
    (fun _ _ => none) 10 10 0x104 1 two_slice_setup (two_slice_parse 1) none two_slice_iter []
    (fun _ _ => rfl) (by rfl) (by rfl) (by rfl) (by rfl) (by rfl) (by decide) (by decide)
    (by decide)⟩

/-! ## The stagnation guard -/

/-- The loop over the registers `i, ..., i + n - 1` leaves the null location in
every element of `new_loc` of that range whose slot is tagged UNDEF. -/
theorem apply_loop_undef {Loc : Type} (t : Target) (se : StepEnv Loc) (a : Accessors)
    (c : Cursor Loc) (rs : RegState) (cfa : Nat) :
    ∀ (n i : Nat) (nl nl1 : Nat → Loc), apply_loop t se a c rs cfa i n nl = Except.ok nl1 →
      ∀ j, i ≤ j → j < i + n → rs.where_ j = Where.UNDEF → nl1 j = se.L.NULL_LOC := by
  intro n
  induction n with
  | zero =>
    intro i nl nl1 _ j h1 h2 _
    omega
  | succ n ih =>
    intro i nl nl1 h j h1 h2 hu
    simp only [apply_loop] at h
    split at h
    · exact absurd h (by simp)
    · rename_i nl2 h2s
      by_cases hji : j = i
      · subst hji
        rw [apply_loop_frame t se a c rs cfa n (j + 1) nl2 nl1 h j (Or.inl (by omega))]
        simp only [apply_slot, hu] at h2s
        injection h2s with h2s
        subst h2s
        simp [Function.update]
      · exact ih (i + 1) nl2 nl1 h j (by omega) (by omega) hu

/-- Once the CFA and the locations are computed, `apply_reg_state` is the commit
stage. -/
theorem apply_reg_state_commit {Loc : Type} (t : Target) (env : Env) (se : StepEnv Loc)
    (c : Cursor Loc) (rs : RegState) (cfa : Nat) (nl : Nat → Loc)
    (hcol : rs.ret_addr_column < t.NUM_PRESERVED_REGS)
    (hcfa : apply_cfa t se env.remote_acc c rs = Except.ok cfa)
    (hnl : apply_loop t se env.remote_acc c rs cfa 0 t.NUM_PRESERVED_REGS c.loc = Except.ok nl) :
    apply_reg_state t env se c rs = apply_commit t se c rs cfa nl := by
  unfold apply_reg_state
  rw [if_neg (by omega)]
  simp only [hcfa, hnl]

/-- C12: when the record's return-address column is not below
DWARF_NUM_PRESERVED_REGS, apply_reg_state returns -UNW_EBADFRAME and the cursor
after the call is the cursor before it: ip, cfa and every saved-register
location are unchanged. -/
theorem C12_bad_ret_addr_column {Loc : Type} (t : Target) (env : Env) (se : StepEnv Loc)
    (c : Cursor Loc) (rs : RegState) (h : rs.ret_addr_column ≥ t.NUM_PRESERVED_REGS) :
    apply_reg_state t env se c rs = ⟨Except.error UnwError.EBADFRAME, c⟩ := by
  unfold apply_reg_state
  rw [if_pos h]

/-- C12 at a concrete input: the leaf record with return-address column 17 on
x86-64 (17 preserved registers). -/
theorem C12_bad_ret_addr_column_example :
    bad_col_rs.ret_addr_column ≥ x86_64.NUM_PRESERVED_REGS ∧
    apply_reg_state x86_64 (mem_env []) leaf_se (leaf_cursor 0x150 0) bad_col_rs =
      ⟨Except.error UnwError.EBADFRAME, leaf_cursor 0x150 0⟩ :=
  ⟨by decide,
   C12_bad_ret_addr_column x86_64 (mem_env []) leaf_se (leaf_cursor 0x150 0) bad_col_rs
     (by decide)⟩

/-- C11 (the claim fails as stated): on x86-64, for a cursor that is already at
ip 0 with cfa 0x1010 and the record "CFA = r7 + 16, return-address column 16
UNDEF" (r7 holds 0x1000), the return-address location after the apply is null
and the ip stays 0, but apply_reg_state returns -UNW_EBADFRAME, not 0. -/
theorem C11_counterexample :
    xloc_ops.IS_NULL_LOC
      ((apply_reg_state x86_64 (mem_env []) leaf_se (leaf_cursor 0 0x1010) end_rs).c.loc 16)
      = true ∧
    (apply_reg_state x86_64 (mem_env []) leaf_se (leaf_cursor 0 0x1010) end_rs).c.ip = 0 ∧
    (apply_reg_state x86_64 (mem_env []) leaf_se (leaf_cursor 0 0x1010) end_rs).ret =
      Except.error UnwError.EBADFRAME := by
  refine ⟨by rfl, by rfl, by rfl⟩

/-- C11 (amended): when the return-address column is a preserved register, the
CFA and the locations are computed without error, and the return-address
register's location after the apply is null, apply_reg_state sets the cursor's
ip to 0; it returns 0 unless the cursor already had ip 0 and the new cfa equals
the old one, in which case the stagnation guard returns -UNW_EBADFRAME. A
return-address slot tagged UNDEF gives the null location whenever IS_NULL_LOC
holds of NULL_LOC. -/
theorem C11_null_return_address {Loc : Type} (t : Target) (env : Env) (se : StepEnv Loc)
    (c : Cursor Loc) (rs : RegState) (cfa : Nat) (nl : Nat → Loc)
    (hcol : rs.ret_addr_column < t.NUM_PRESERVED_REGS)
    (hcfa : apply_cfa t se env.remote_acc c rs = Except.ok cfa)
    (hnl : apply_loop t se env.remote_acc c rs cfa 0 t.NUM_PRESERVED_REGS c.loc = Except.ok nl) :
    (se.L.IS_NULL_LOC ((apply_store t c cfa nl).loc rs.ret_addr_column) = true →
      (apply_reg_state t env se c rs).c.ip = 0 ∧
      (apply_reg_state t env se c rs).c.loc = (apply_store t c cfa nl).loc ∧
      (¬ (c.ip = 0 ∧ cfa = c.cfa) → (apply_reg_state t env se c rs).ret = Except.ok 0) ∧
      (c.ip = 0 ∧ cfa = c.cfa →
        (apply_reg_state t env se c rs).ret = Except.error UnwError.EBADFRAME)) ∧
    (rs.where_ rs.ret_addr_column = Where.UNDEF → se.L.IS_NULL_LOC se.L.NULL_LOC = true →
      se.L.IS_NULL_LOC ((apply_store t c cfa nl).loc rs.ret_addr_column) = true) := by
  constructor
  · intro hnull
    rw [apply_reg_state_commit t env se c rs cfa nl hcol hcfa hnl]
    have hip : apply_ip t se (apply_store t c cfa nl) rs =
        Except.ok { apply_store t c cfa nl with ip := 0 } := by
      unfold apply_ip
      rw [if_pos hnull]
    simp only [apply_commit, hip]
    have hc := apply_guard_cursor se c.ip c.cfa { apply_store t c cfa nl with ip := 0 } rs
    refine ⟨hc.1, hc.2.2, ?_, ?_⟩
    · intro hg
      have hg2 : ¬ ((0 : Nat) = c.ip ∧ (apply_store t c cfa nl).cfa = c.cfa) :=
        fun h => hg ⟨h.1.symm, h.2⟩
      unfold apply_guard
      rw [if_neg hg2]
      simp
    · intro hg
      have hg2 : (0 : Nat) = c.ip ∧ (apply_store t c cfa nl).cfa = c.cfa :=
        ⟨hg.1.symm, hg.2⟩
      unfold apply_guard
      rw [if_pos hg2]
  · intro hu hn
    have e : (apply_store t c cfa nl).loc rs.ret_addr_column = nl rs.ret_addr_column := by
      simp [apply_store, hcol]
    rw [e, apply_loop_undef t se env.remote_acc c rs cfa _ 0 c.loc nl hnl _ (Nat.zero_le _)
      (by omega) hu]
    exact hn

/-- C11 (amended) at a concrete input: the record "CFA = r7 + 16, column 16
UNDEF" applied on x86-64 to a cursor at ip 0x150 with cfa 0 sets ip to 0 and
returns 0. -/
theorem C11_null_return_address_example :
    (apply_reg_state x86_64 (mem_env []) leaf_se (leaf_cursor 0x150 0) end_rs).c.ip = 0 ∧
    (apply_reg_state x86_64 (mem_env []) leaf_se (leaf_cursor 0x150 0) end_rs).ret =
      Except.ok 0 :=
  have h := C11_null_return_address x86_64 (mem_env []) leaf_se (leaf_cursor 0x150 0) end_rs
    0x1010
    (Except.get_or (leaf_cursor 0x150 0).loc
      (apply_loop x86_64 leaf_se (mem_env []).remote_acc (leaf_cursor 0x150 0) end_rs 0x1010 0 17
        (leaf_cursor 0x150 0).loc))
    (by decide) (by rfl) (by rfl)
  ⟨(h.1 (by rfl)).1, (h.1 (by rfl)).2.2.1 (by decide)⟩

/-- Writing back the cache a selector designates changes nothing. -/
theorem World.set_cache_cache (w : World) (sel : CacheSel) :
    w.set_cache sel (w.cache sel) = w := by
  cases sel <;> rfl

/-- The tail of `find_reg_state` with `rs == NULL` leaves the world as it is. -/
theorem find_reg_state_hints_none {Loc : Type} (se : StepEnv Loc) (w : World)
    (cache : Option CacheSel) (ret : Option UnwError) (c : Cursor Loc) :
    (find_reg_state_hints se w cache none ret c).2 = w := by
  unfold find_reg_state_hints
  cases cache with
  | none => rfl
  | some sel => exact World.set_cache_cache w sel

/-- A failing second branch of `find_reg_state` inserts nothing: the world after
it is the world it was given, and no bucket is returned. -/
theorem find_reg_state_miss_fail {Loc : Type} (t : Target) (env : Env) (se : StepEnv Loc)
    (w : World) (cache : Option CacheSel) (c : Cursor Loc) (sr : StateRecord) (fuel : Nat)
    (f : FindOut Loc) (e : UnwError)
    (h : find_reg_state_miss t env se w cache c sr fuel = some f) (he : f.ret = some e) :
    f.w = w ∧ f.rs = none := by
  unfold find_reg_state_miss at h
  split at h
  · simp at h
  · rename_i m hcm
    split at h
    · rename_i sel hret
      split at h
      · simp at h
      · rw [← Option.some.inj h] at he
        simp only [hret] at he
        exact absurd he (by simp)
    · rw [← Option.some.inj h]
      exact ⟨find_reg_state_hints_none se w _ _ _, rfl⟩

/-- C14: whenever find_reg_state returns an error (this happens on the miss
path only: the proc-info lookup or the CFI evaluation failed), the world after
the call is the world just after the cache was acquired by get_rs_cache, so the
cache's hash heads, links and rr_head are as they were then, and no bucket was
handed out. A lookup that hits never returns an error. -/
theorem C14_failure_inserts_nothing {Loc : Type} (t : Target) (env : Env) (mm : MemEnv)
    (se : StepEnv Loc) (w : World) (c : Cursor Loc) (sr : StateRecord) (fuel : Nat)
    (f : FindOut Loc) (e : UnwError)
    (h : find_reg_state t env mm se w c sr fuel = some f) (he : f.ret = some e) :
    f.w = (get_rs_cache t mm w).2 ∧ f.rs = none ∧
    (∀ sel, (get_rs_cache t mm w).1 = some sel →
      rs_lookup ((get_rs_cache t mm w).2.cache sel) c.ip c.hint fuel = some none ∧
      (f.w.cache sel).hash = ((get_rs_cache t mm w).2.cache sel).hash ∧
      (f.w.cache sel).links = ((get_rs_cache t mm w).2.cache sel).links ∧
      (f.w.cache sel).rr_head = ((get_rs_cache t mm w).2.cache sel).rr_head) := by
  unfold find_reg_state at h
  split at h
  · rename_i hnone
    have hm := find_reg_state_miss_fail t env se _ none c sr fuel f e h he
    refine ⟨hm.1, hm.2, ?_⟩
    intro sel hsel
    rw [hnone] at hsel
    exact absurd hsel (by simp)
  · rename_i sel0 hsome
    split at h
    · simp at h
    · rw [← Option.some.inj h] at he
      unfold find_reg_state_hit at he
      exact absurd he (by simp)
    · rename_i hl
      have hm := find_reg_state_miss_fail t env se _ (some sel0) c sr fuel f e h he
      refine ⟨hm.1, hm.2, ?_⟩
      intro sel hsel
      rw [hsome] at hsel
      have hs : sel0 = sel := Option.some.inj hsel
      subst hs
      rw [hm.1]
      exact ⟨hl, rfl, rfl, rfl⟩

/-- C14 at a concrete input: on a stale world, find_reg_state for a procedure
whose FDE program is the opcode DW_CFA_lo_user fails with -UNW_EINVAL and leaves
the freshly flushed cache. -/
theorem C14_failure_inserts_nothing_example :
    (bad_find no_find).ret = some UnwError.EINVAL ∧
    (bad_find no_find).w = (get_rs_cache x86_64 mem_ok stale_world).2 ∧
    (bad_find no_find).rs = none :=
  have h := C14_failure_inserts_nothing x86_64 (mem_env bad_prog) mem_ok
    (x_env reg_regs (fun _ => 0) bad_pi) stale_world (x_cursor 0x150 0 bad_pi)
    zero_state_record 10 (bad_find no_find) UnwError.EINVAL (by rfl) (by rfl)
  ⟨by rfl, h.1, h.2.1⟩

/-- The proc-info lookup and the release of the proc info leave the cursor's
locations as they are. -/
theorem fetch_proc_info_loc {Loc : Type} (t : Target) (se : StepEnv Loc) (c : Cursor Loc)
    (ip : Nat) : (put_unwind_info (fetch_proc_info t se c ip).c).loc = c.loc := by
  have hput : ∀ c1 : Cursor Loc, (put_unwind_info c1).loc = c1.loc := by
    intro c1
    unfold put_unwind_info
    split
    · rfl
    · split <;> rfl
  have hf : ∀ ret (c2 : Cursor Loc) d ip1 n, (fetch_finish se ret c2 d ip1 n).c.loc = c2.loc := by
    intro ret c2 d ip1 n
    unfold fetch_finish
    split
    · rfl
    · split <;> rfl
  rw [hput]
  unfold fetch_proc_info
  split
  · simp only []
    split
    · rfl
    · rw [hf]
  · rw [hf]

/-- The tail of `find_reg_state` leaves the cursor's locations as they are. -/
theorem find_reg_state_hints_loc {Loc : Type} (se : StepEnv Loc) (w : World)
    (cache : Option CacheSel) (rs : Option Nat) (ret : Option UnwError) (c : Cursor Loc) :
    (find_reg_state_hints se w cache rs ret c).1.loc = c.loc := by
  unfold find_reg_state_hints
  cases cache with
  | none => rfl
  | some sel =>
    cases rs with
    | none => cases ret <;> rfl
    | some index => cases ret <;> rfl

/-- The function `find_reg_state` leaves the cursor's locations as they are. -/
theorem find_reg_state_loc {Loc : Type} (t : Target) (env : Env) (mm : MemEnv)
    (se : StepEnv Loc) (w : World) (c : Cursor Loc) (sr : StateRecord) (fuel : Nat)
    (f : FindOut Loc) (h : find_reg_state t env mm se w c sr fuel = some f) :
    f.c.loc = c.loc := by
  have hmiss : ∀ (w1 : World) (cache : Option CacheSel),
      find_reg_state_miss t env se w1 cache c sr fuel = some f → f.c.loc = c.loc := by
    intro w1 cache hm
    unfold find_reg_state_miss at hm
    split at hm
    · simp at hm
    · rename_i m hcm
      have hmc : m.c.loc = c.loc := by
        unfold find_reg_state_compute at hcm
        simp only [] at hcm
        split at hcm
        · rw [← Option.some.inj hcm]
          exact fetch_proc_info_loc t se c c.ip
        · split at hcm
          · simp at hcm
          · rw [← Option.some.inj hcm]
            exact fetch_proc_info_loc t se c c.ip
      split at hm
      · split at hm
        · simp at hm
        · rw [← Option.some.inj hm]
          exact (find_reg_state_hints_loc se _ _ _ _ _).trans hmc
      · rw [← Option.some.inj hm]
        exact (find_reg_state_hints_loc se _ _ _ _ _).trans hmc
  unfold find_reg_state at h
  split at h
  · exact hmiss _ _ h
  · split at h
    · simp at h
    · rw [← Option.some.inj h]
      unfold find_reg_state_hit
      exact find_reg_state_hints_loc se _ _ _ _ _
    · exact hmiss _ _ h

/-- A failing `apply_reg_state`, taken apart: either nothing was written to the
cursor, or the CFA and the locations had been committed when the read of the
return address failed or the stagnation guard fired. -/
theorem apply_reg_state_err {Loc : Type} (t : Target) (env : Env) (se : StepEnv Loc)
    (c : Cursor Loc) (rs : RegState) (e : UnwError)
    (h : (apply_reg_state t env se c rs).ret = Except.error e) :
    (apply_reg_state t env se c rs).c.ip = c.ip ∧
    ((apply_reg_state t env se c rs).c = c ∨
     ∃ cfa nl, apply_cfa t se env.remote_acc c rs = Except.ok cfa ∧
       apply_loop t se env.remote_acc c rs cfa 0 t.NUM_PRESERVED_REGS c.loc = Except.ok nl ∧
       (apply_reg_state t env se c rs).c.cfa = cfa ∧
       (apply_reg_state t env se c rs).c.loc = (apply_store t c cfa nl).loc ∧
       (apply_ip t se (apply_store t c cfa nl) rs = Except.error e ∨
        (cfa = c.cfa ∧ e = UnwError.EBADFRAME))) := by
  by_cases hcol : rs.ret_addr_column ≥ t.NUM_PRESERVED_REGS
  · rw [show apply_reg_state t env se c rs = ⟨Except.error UnwError.EBADFRAME, c⟩ from by
      unfold apply_reg_state; rw [if_pos hcol]]
    exact ⟨rfl, Or.inl rfl⟩
  · cases hcfa : apply_cfa t se env.remote_acc c rs with
    | error e1 =>
      have e0 : apply_reg_state t env se c rs = ⟨Except.error e1, c⟩ := by
        unfold apply_reg_state
        rw [if_neg hcol]
        simp only [hcfa]
      rw [e0]
      exact ⟨rfl, Or.inl rfl⟩
    | ok cfa =>
      cases hnl : apply_loop t se env.remote_acc c rs cfa 0 t.NUM_PRESERVED_REGS c.loc with
      | error e1 =>
        have e0 : apply_reg_state t env se c rs = ⟨Except.error e1, c⟩ := by
          unfold apply_reg_state
          rw [if_neg hcol]
          simp only [hcfa, hnl]
        rw [e0]
        exact ⟨rfl, Or.inl rfl⟩
      | ok nl =>
        rw [apply_reg_state_commit t env se c rs cfa nl (by omega) hcfa hnl] at h ⊢
        unfold apply_commit at h ⊢
        cases hip : apply_ip t se (apply_store t c cfa nl) rs with
        | error e1 =>
          simp only [hip] at h ⊢
          exact ⟨rfl, Or.inr ⟨cfa, nl, rfl, hnl, rfl, rfl, Or.inl (hip.trans (congrArg Except.error (Except.error.inj h)))⟩⟩
        | ok c2 =>
          simp only [hip] at h ⊢
          have hc := apply_guard_cursor se c.ip c.cfa c2 rs
          have h2 := apply_ip_cursor t se _ c2 rs hip
          unfold apply_guard at h
          by_cases hg : c2.ip = c.ip ∧ c2.cfa = c.cfa
          · rw [if_pos hg] at h
            refine ⟨hc.1.trans hg.1, Or.inr ⟨cfa, nl, rfl, hnl, hc.2.1.trans h2.1,
              hc.2.2.trans h2.2, Or.inr ⟨?_, (Except.error.inj h).symm⟩⟩⟩
            exact h2.1.symm.trans hg.2
          · rw [if_neg hg] at h
            exact absurd h (by simp)

/-- C13 (the claim fails as stated): on x86-64 without a cache, (1) for the CFI
`def_cfa r7, 16; offset r16 factor 1; offset r3 factor 2` and a cursor at 0x150
with cfa 0 whose return address cannot be read, dwarf_step returns -UNW_EINVAL
with cfa 0x1010 and the locations of r16 and r3 moved to memory; (2) for the CFI
`def_cfa r7, 16; offset r3 factor 1` and a cursor at 0x150 with cfa 0x1010 whose
return-address register holds 0x150, the stagnation guard makes dwarf_step
return -UNW_EBADFRAME with the location of r3 moved to memory; (3) in both cases
the cursor's proc info has lost its `has_unwind_info` flag, a field other than
use_prev_instr. -/
theorem C13_counterexample :
    ((step_nocache ra_prog ra_se (x_cursor 0x150 0 ra_pi)).ret = Except.error UnwError.EINVAL ∧
     (x_cursor 0x150 0 ra_pi).cfa = 0 ∧
     (step_nocache ra_prog ra_se (x_cursor 0x150 0 ra_pi)).c.cfa = 0x1010 ∧
     (x_cursor 0x150 0 ra_pi).loc 16 = XLoc.reg 16 ∧
     (step_nocache ra_prog ra_se (x_cursor 0x150 0 ra_pi)).c.loc 16 = XLoc.mem 0x1008 ∧
     (step_nocache ra_prog ra_se (x_cursor 0x150 0 ra_pi)).c.loc 3 = XLoc.mem 0x1000) ∧
    ((step_nocache stag_prog (x_env stag_regs (fun _ => 0) stag_pi)
        (x_cursor 0x150 0x1010 stag_pi)).ret = Except.error UnwError.EBADFRAME ∧
     (x_cursor 0x150 0x1010 stag_pi).loc 3 = XLoc.reg 3 ∧
     (step_nocache stag_prog (x_env stag_regs (fun _ => 0) stag_pi)
        (x_cursor 0x150 0x1010 stag_pi)).c.loc 3 = XLoc.mem 0x1008) ∧
    ((x_cursor 0x150 0 ra_pi).pi.has_unwind_info = true ∧
     (step_nocache ra_prog ra_se (x_cursor 0x150 0 ra_pi)).c.pi.has_unwind_info = false ∧
     (step_nocache stag_prog (x_env stag_regs (fun _ => 0) stag_pi)
        (x_cursor 0x150 0x1010 stag_pi)).c.pi.has_unwind_info = false) := by
  refine ⟨⟨by rfl, by rfl, by rfl, by rfl, by rfl, by rfl⟩, ⟨by rfl, by rfl, by rfl⟩,
    ⟨by rfl, by rfl, by rfl⟩⟩

/-- C13 (amended): whenever dwarf_step returns a negative value, the cursor's ip
equals its value before the call. Its cfa and saved-register locations equal
their values before the call when the error comes from find_reg_state or from
apply_reg_state before it commits; otherwise apply_reg_state had committed the
newly computed cfa and locations, and the error is that of the failed read of
the return address, or it is -UNW_EBADFRAME from the stagnation guard (and then
the new cfa equals the old one). Nothing is said of the other cursor fields. -/
theorem C13_failed_step_cursor {Loc : Type} (t : Target) (env : Env) (mm : MemEnv)
    (se : StepEnv Loc) (w : World) (c : Cursor Loc) (sr : StateRecord) (fuel : Nat)
    (r : StepOut Loc × World) (e : UnwError)
    (h : dwarf_step t env mm se w c sr fuel = some r) (he : r.1.ret = Except.error e) :
    r.1.c.ip = c.ip ∧
    ((r.1.c.cfa = c.cfa ∧ r.1.c.loc = c.loc) ∨
     ∃ f cfa nl, find_reg_state t env mm se w c sr fuel = some f ∧ f.ret = none ∧
       apply_cfa t se env.remote_acc f.c f.sr.rs_current = Except.ok cfa ∧
       apply_loop t se env.remote_acc f.c f.sr.rs_current cfa 0 t.NUM_PRESERVED_REGS f.c.loc
         = Except.ok nl ∧
       r.1.c.cfa = cfa ∧ r.1.c.loc = (apply_store t f.c cfa nl).loc ∧
       (apply_ip t se (apply_store t f.c cfa nl) f.sr.rs_current = Except.error e ∨
        (cfa = c.cfa ∧ e = UnwError.EBADFRAME))) := by
  unfold dwarf_step at h
  cases hf : find_reg_state t env mm se w c sr fuel with
  | none => simp [hf] at h
  | some f =>
    have hc := find_reg_state_cursor t env mm se w c sr fuel f hf
    have hl := find_reg_state_loc t env mm se w c sr fuel f hf
    simp only [hf] at h
    cases hr : f.ret with
    | some e1 =>
      simp only [hr] at h
      rw [← Option.some.inj h]
      exact ⟨hc.1, Or.inl ⟨hc.2, hl⟩⟩
    | none =>
      simp only [hr] at h
      rw [← Option.some.inj h] at he ⊢
      have ha := apply_reg_state_err t env se f.c f.sr.rs_current e he
      refine ⟨ha.1.trans hc.1, ?_⟩
      rcases ha.2 with h0 | ⟨cfa, nl, h1, h2, h3, h4, h5⟩
      · left
        show (apply_reg_state t env se f.c f.sr.rs_current).c.cfa = c.cfa ∧
          (apply_reg_state t env se f.c f.sr.rs_current).c.loc = c.loc
        rw [h0]
        exact ⟨hc.2, hl⟩
      · right
        refine ⟨f, cfa, nl, rfl, hr, h1, h2, h3, h4, ?_⟩
        rcases h5 with h5 | h5
        · exact Or.inl h5
        · exact Or.inr ⟨h5.1.trans hc.2, h5.2⟩

/-- C13 (amended) at a concrete input: the failed read of the return address of
the counterexample leaves the cursor's ip at 0x150. -/
theorem C13_failed_step_cursor_example :
    (step_nocache ra_prog ra_se (x_cursor 0x150 0 ra_pi)).ret = Except.error UnwError.EINVAL ∧
    (step_nocache ra_prog ra_se (x_cursor 0x150 0 ra_pi)).c.ip = 0x150 :=
  ⟨by rfl,
   (C13_failed_step_cursor x86_64 (mem_env ra_prog) mem_ok ra_se nocache_world
     (x_cursor 0x150 0 ra_pi) zero_state_record 10
     ((dwarf_step x86_64 (mem_env ra_prog) mem_ok ra_se nocache_world
       (x_cursor 0x150 0 ra_pi) zero_state_record 10).getD
       (⟨Except.error UnwError.EUNSPEC, x_cursor 0x150 0 ra_pi⟩, nocache_world))
     UnwError.EINVAL (by rfl) (by rfl)).1⟩

/-! ## The loop of the interpreter -/

/-- C16: run_cfi_program executes an instruction exactly when `ip <= end_ip` and
`addr < end_addr` hold and no error has occurred. (1) In a state where both
hold (`ip == end_ip` included), the next instruction is executed: an error of
it is the result, otherwise the run continues from the state it leaves. (2) In
a state where one of them fails (for instance after an advance above `end_ip`)
the run returns success with that very state, whatever the fuel: no further
instruction is executed. (3) A run that returns success ends in a state with
`addr >= end_addr` or `ip > end_ip`. -/
theorem C16_loop_condition (t : Target) (env : Env) (pi : ProcInfo) (dci : CieInfo)
    (end_ip end_addr : Nat) :
    (∀ (fuel : Nat) (s : Cfi), s.ip ≤ end_ip ∧ s.addr < end_addr →
      run_cfi_loop t env pi dci end_ip end_addr (fuel + 1) s =
        match (cfi_step t env pi dci s).ret with
        | some _ => some (cfi_step t env pi dci s)
        | none => run_cfi_loop t env pi dci end_ip end_addr fuel (cfi_step t env pi dci s).st) ∧
    (∀ (fuel : Nat) (s : Cfi), ¬ (s.ip ≤ end_ip ∧ s.addr < end_addr) →
      run_cfi_loop t env pi dci end_ip end_addr fuel s = some (Outcome.cont s)) ∧
    (∀ (fuel : Nat) (s : Cfi) (o : Outcome),
      run_cfi_loop t env pi dci end_ip end_addr fuel s = some o → o.ret = none →
      end_addr ≤ o.st.addr ∨ end_ip < o.st.ip) := by
  refine ⟨?_, ?_, ?_⟩
  · intro fuel s hc
    simp only [run_cfi_loop]
    rw [if_pos hc]
  · intro fuel s hc
    cases fuel with
    | zero => simp only [run_cfi_loop]; rw [if_neg hc]
    | succ n => simp only [run_cfi_loop]; rw [if_neg hc]
  · intro fuel s o h hr
    have hx := run_cfi_loop_exit t env pi dci end_ip end_addr fuel s o h hr
    by_cases h1 : o.st.ip ≤ end_ip
    · left
      by_cases h2 : o.st.addr < end_addr
      · exact absurd ⟨h1, h2⟩ hx
      · omega
    · right
      omega

/-- C16 at a concrete input: in the program `def_cfa_offset 16; advance_loc 4;
def_cfa_offset 32` run from ip 0x100, the instruction reached at ip 0x104
takes effect when `end_ip` is 0x104 (the CFA offset is 32 and the bytes are used
up) and is not executed when `end_ip` is 0x103 (the CFA offset stays 16 and the
run stops at byte 3 with ip 0x104). -/
theorem C16_loop_condition_example :
    ((two_slice_run 0x104).ret = none ∧ (two_slice_run 0x104).st.sr.rs_current.val 18 = 32 ∧
      (two_slice_run 0x104).st.addr = 5) ∧
    ((two_slice_run 0x103).ret = none ∧ (two_slice_run 0x103).st.sr.rs_current.val 18 = 16 ∧
      (two_slice_run 0x103).st.addr = 3 ∧ (two_slice_run 0x103).st.ip = 0x104) ∧
    (5 ≤ (two_slice_run 0x103).st.addr ∨ 0x103 < (two_slice_run 0x103).st.ip) :=
  ⟨by decide, by decide,
   (C16_loop_condition x86_64 (mem_env two_slice_prog) two_slice_pi two_slice_pi.unwind_info
     0x103 5).2.2 10 ⟨0x100, 0, two_slice_setup.sr, []⟩ (two_slice_run 0x103)
     (by rfl) (by decide)⟩

/-! ## Reads and the end of the CFI bytes -/

/-- A reader call whose successful reads stay at or below `E`, followed by a
continuation that fails or stays at or below `E`, fails or stays at or below
`E`. -/
theorem rd_then_bound (r : Rd) (s : Cfi) (k : Nat → Cfi → Outcome) (E : Nat)
    (hr : r.ret = none → r.addr ≤ E)
    (hk : ∀ v s1, s1.addr ≤ E → (k v s1).ret ≠ none ∨ (k v s1).st.addr ≤ E) :
    (rd_then r s k).ret ≠ none ∨ (rd_then r s k).st.addr ≤ E := by
  unfold rd_then
  split
  · left; simp [Outcome.fail]
  · rename_i h
    exact hk _ _ (hr h)

/-- The register-number reader over bounded accessors is bounded. -/
theorem read_regnum_bound (t : Target) (a : Accessors) (E : Nat) (hb : a.bounded E) (x : Nat) :
    (read_regnum t a x).ret = none → (read_regnum t a x).addr ≤ E := by
  intro h
  unfold read_regnum at h ⊢
  cases hr : (a.dwarf_read_uleb128 x).ret with
  | some e => simp [hr] at h
  | none =>
    simp only [hr] at h ⊢
    split
    · rename_i hge; simp [hge] at h
    · exact hb.2.2.2.2.1 x hr

/-- Over bounded accessors, every case of the switch other than the three with
an expression block fails or leaves the byte cursor at or below `E`. -/
theorem cfi_case_bound (t : Target) (env : Env) (a : Accessors) (pi : ProcInfo)
    (dci : CieInfo) (op : dwarf_cfa_t) (operand : Nat) (s : Cfi) (E : Nat)
    (hb : a.bounded E) (hs : s.addr ≤ E) (hx : is_expr_opcode op = false) :
    (cfi_case t env a pi dci op operand s).ret ≠ none ∨
    (cfi_case t env a pi dci op operand s).st.addr ≤ E := by
  have hreg := read_regnum_bound t a E hb
  obtain ⟨h8, h16, h32, h64, hu, hsl, hp⟩ := hb
  cases op <;> simp only [cfi_case, Outcome.cont, Outcome.fail] <;>
    first
    | (exfalso; simp [is_expr_opcode] at hx; done)
    | skip
  all_goals
    repeat' (first
      | (apply rd_then_bound _ _ _ E (by first
          | exact h8 _ | exact h16 _ | exact h32 _ | exact h64 _ | exact hu _ | exact hsl _
          | exact hreg _); intro _ _ hh)
      | split)
  all_goals first
    | (right; assumption)
    | (left; simp; done)
    | (right; exact hp _ _ _ (by assumption))

/-- A successful byte read of a memory of `m.length` bytes ends within it. -/
theorem mem_readu8_bound (m : List Nat) (x : Nat) :
    (mem_readu8 m x).ret = none → (mem_readu8 m x).addr ≤ m.length := by
  unfold mem_readu8
  cases h : m.get? x with
  | none => simp
  | some b =>
    intro _
    have hx : x < m.length := by
      by_contra hc
      rw [List.get?_eq_none.mpr (by omega)] at h
      exact absurd h (by simp)
    exact le_trans (Nat.mod_le _ _) hx

/-- A successful little-endian read of at least one byte ends within the
memory. -/
theorem mem_readle_bound (m : List Nat) :
    ∀ (n x : Nat), (mem_readle m (n + 1) x).ret = none →
      (mem_readle m (n + 1) x).addr ≤ m.length := by
  intro n
  induction n with
  | zero =>
    intro x h
    simp only [mem_readle] at h ⊢
    cases hb : (mem_readu8 m x).ret with
    | some e => simp [hb] at h
    | none =>
      simp only [hb]
      exact mem_readu8_bound m x hb
  | succ n ih =>
    intro x h
    rw [mem_readle] at h ⊢
    cases hb : (mem_readu8 m x).ret with
    | some e => simp [hb] at h
    | none =>
      simp only [hb] at h ⊢
      exact ih _ h

/-- A successful ULEB128 read ends within the memory. -/
theorem mem_read_uleb128_bound (m : List Nat) :
    ∀ (n x v sh : Nat), (mem_read_uleb128 m n x v sh).ret = none →
      (mem_read_uleb128 m n x v sh).addr ≤ m.length := by
  intro n
  induction n with
  | zero =>
    intro x v sh h
    simp [mem_read_uleb128] at h
  | succ n ih =>
    intro x v sh h
    rw [mem_read_uleb128] at h ⊢
    cases hb : (mem_readu8 m x).ret with
    | some e => simp [hb] at h
    | none =>
      simp only [hb] at h ⊢
      split
      · rename_i hc
        rw [if_pos hc] at h
        exact ih _ _ _ h
      · exact mem_readu8_bound m x hb

/-- A successful SLEB128 read ends within the memory. -/
theorem mem_read_sleb128_bound (m : List Nat) :
    ∀ (n x v sh : Nat), (mem_read_sleb128 m n x v sh).ret = none →
      (mem_read_sleb128 m n x v sh).addr ≤ m.length := by
  intro n
  induction n with
  | zero =>
    intro x v sh h
    simp [mem_read_sleb128] at h
  | succ n ih =>
    intro x v sh h
    rw [mem_read_sleb128] at h ⊢
    cases hb : (mem_readu8 m x).ret with
    | some e => simp [hb] at h
    | none =>
      simp only [hb] at h ⊢
      split
      · rename_i hc
        rw [if_pos hc] at h
        exact ih _ _ _ h
      · split <;> exact mem_readu8_bound m x hb

/-- The accessors of a memory of `m.length` bytes serve no byte at or beyond
`m.length`. -/
theorem mem_acc_bounded (m : List Nat) : (mem_acc m).bounded m.length :=
  ⟨mem_readu8_bound m, mem_readle_bound m 1, mem_readle_bound m 3, mem_readle_bound m 7,
   fun x => mem_read_uleb128_bound m 10 x 0 0, fun x => mem_read_sleb128_bound m 10 x 0 0,
   fun _ _ x => mem_readle_bound m 7 x⟩

/-- C15 (the claim fails as stated): on x86-64, (1) over the bytes `0e 10` with
`end_addr = 1`, the operand of DW_CFA_def_cfa_offset lies at `end_addr`, yet
run_cfi_program returns success, having consumed it (byte cursor 2, CFA offset
16); (2) over the bytes `0f 05` with `end_addr = 2`, the expression block of
DW_CFA_def_cfa_expression has a length prefix that runs past `end_addr`, yet
run_cfi_program returns success with the byte cursor at 7. -/
theorem C15_counterexample :
    ((bytes_run [0x0e, 0x10] 1).ret = none ∧ (bytes_run [0x0e, 0x10] 1).st.addr = 2 ∧
      (bytes_run [0x0e, 0x10] 1).st.sr.rs_current.val 18 = 16) ∧
    ((bytes_run [0x0f, 0x05] 2).ret = none ∧ (bytes_run [0x0f, 0x05] 2).st.addr = 7) := by
  decide

/-- Over bounded accessors, a case of the switch with an expression block that
succeeds has read its register number (if it has one) and the length prefix of
the block at or below `E`, and leaves the byte cursor at the end of the length
prefix plus the length read, modulo 2^64: the bytes of the block are not
read. -/
theorem cfi_case_expr_bound (t : Target) (env : Env) (a : Accessors) (pi : ProcInfo)
    (dci : CieInfo) (op : dwarf_cfa_t) (operand : Nat) (s : Cfi) (E : Nat)
    (hb : a.bounded E) (hx : is_expr_opcode op = true)
    (hret : (cfi_case t env a pi dci op operand s).ret = none) :
    (op ≠ DW_CFA_def_cfa_expression →
      (read_regnum t a s.addr).ret = none ∧ (read_regnum t a s.addr).addr ≤ E) ∧
    (expr_block_len t a op s.addr).ret = none ∧
    (expr_block_len t a op s.addr).addr ≤ E ∧
    (cfi_case t env a pi dci op operand s).st.addr =
      wadd (expr_block_len t a op s.addr).addr (expr_block_len t a op s.addr).val := by
  have hreg := read_regnum_bound t a E hb
  have hu := hb.2.2.2.2.1
  cases op <;> first
    | (exfalso; simp [is_expr_opcode] at hx; done)
    | skip
  · simp only [cfi_case, rd_then, expr_block_len] at hret ⊢
    cases hr : (a.dwarf_read_uleb128 s.addr).ret with
    | some e => simp [hr, Outcome.fail] at hret
    | none =>
      simp only [hr, Outcome.cont]
      exact ⟨fun h => absurd rfl h, trivial, hu _ hr, trivial⟩
  · simp only [cfi_case, rd_then, expr_block_len] at hret ⊢
    cases hr : (read_regnum t a s.addr).ret with
    | some e => simp [hr, Outcome.fail] at hret
    | none =>
      simp only [hr] at hret ⊢
      cases hr2 : (a.dwarf_read_uleb128 (read_regnum t a s.addr).addr).ret with
      | some e => simp [hr2, Outcome.fail] at hret
      | none =>
        simp only [hr2, Outcome.cont]
        exact ⟨fun _ => ⟨trivial, hreg _ hr⟩, trivial, hu _ hr2, trivial⟩
  · simp only [cfi_case, rd_then, expr_block_len] at hret ⊢
    cases hr : (read_regnum t a s.addr).ret with
    | some e => simp [hr, Outcome.fail] at hret
    | none =>
      simp only [hr] at hret ⊢
      cases hr2 : (a.dwarf_read_uleb128 (read_regnum t a s.addr).addr).ret with
      | some e => simp [hr2, Outcome.fail] at hret
      | none =>
        simp only [hr2, Outcome.cont]
        exact ⟨fun _ => ⟨trivial, hreg _ hr⟩, trivial, hu _ hr2, trivial⟩

/-- Over bounded accessors, a successful iteration of the loop on an opcode with
an expression block has read its operands at or below `E` and leaves the byte
cursor at the end of the length prefix plus the length read, modulo 2^64. -/
theorem cfi_step_expr_bound (t : Target) (env : Env) (pi : ProcInfo) (dci : CieInfo)
    (s : Cfi) (E b : Nat) (k : dwarf_cfa_t) (hb : (select_acc env pi).bounded E)
    (ho : opcode_at env pi s b) (hk : switch_opcode b = some k)
    (hx : is_expr_opcode k = true) (hret : (cfi_step t env pi dci s).ret = none) :
    (k ≠ DW_CFA_def_cfa_expression →
      (read_regnum t (select_acc env pi) ((select_acc env pi).dwarf_readu8 s.addr).addr).ret
        = none ∧
      (read_regnum t (select_acc env pi) ((select_acc env pi).dwarf_readu8 s.addr).addr).addr
        ≤ E) ∧
    (expr_block_len t (select_acc env pi) k
      ((select_acc env pi).dwarf_readu8 s.addr).addr).ret = none ∧
    (expr_block_len t (select_acc env pi) k
      ((select_acc env pi).dwarf_readu8 s.addr).addr).addr ≤ E ∧
    (cfi_step t env pi dci s).st.addr =
      wadd (expr_block_len t (select_acc env pi) k
          ((select_acc env pi).dwarf_readu8 s.addr).addr).addr
        (expr_block_len t (select_acc env pi) k
          ((select_acc env pi).dwarf_readu8 s.addr).addr).val := by
  rw [cfi_step_of_opcode t env pi dci s b ho] at hret ⊢
  simp only [] at hret ⊢
  unfold switch_opcode at hk
  simp only [hk] at hret ⊢
  exact cfi_case_expr_bound t env (select_acc env pi) pi dci k _
    { s with addr := ((select_acc env pi).dwarf_readu8 s.addr).addr } E hb hx hret

/-- C15 (amended): run_cfi_program itself never compares a read with
`end_addr`. When the accessors serve no byte at or beyond `end_addr`, an
iteration of the loop either (1) fails, and its typed error is the result of
run_cfi_program: this is what happens to an operand that is cut off at
`end_addr`; or (2) succeeds with the byte cursor at or below `end_addr`; or (3)
executes def_cfa_expression, expression or val_expression: it succeeds, its
register number (if it has one) and the length prefix of its block have been
read at or below `end_addr`, the bytes of the block are not read, and the length
is added to the byte cursor unchecked (modulo 2^64); when the sum is at or
beyond `end_addr`, run_cfi_program returns success with the byte cursor
there. -/
theorem C15_read_past_end (t : Target) (env : Env) (pi : ProcInfo) (dci : CieInfo)
    (end_ip end_addr : Nat) (hb : (select_acc env pi).bounded end_addr) (fuel : Nat) (s : Cfi)
    (hc : s.ip ≤ end_ip ∧ s.addr < end_addr) :
    (∃ e, (cfi_step t env pi dci s).ret = some e ∧
      run_cfi_loop t env pi dci end_ip end_addr (fuel + 1) s = some (cfi_step t env pi dci s)) ∨
    ((cfi_step t env pi dci s).ret = none ∧ (cfi_step t env pi dci s).st.addr ≤ end_addr) ∨
    (∃ b k, opcode_at env pi s b ∧ switch_opcode b = some k ∧ is_expr_opcode k = true ∧
      (cfi_step t env pi dci s).ret = none ∧
      (k ≠ DW_CFA_def_cfa_expression →
        (read_regnum t (select_acc env pi) ((select_acc env pi).dwarf_readu8 s.addr).addr).ret
          = none ∧
        (read_regnum t (select_acc env pi) ((select_acc env pi).dwarf_readu8 s.addr).addr).addr
          ≤ end_addr) ∧
      (expr_block_len t (select_acc env pi) k
        ((select_acc env pi).dwarf_readu8 s.addr).addr).ret = none ∧
      (expr_block_len t (select_acc env pi) k
        ((select_acc env pi).dwarf_readu8 s.addr).addr).addr ≤ end_addr ∧
      (cfi_step t env pi dci s).st.addr =
        wadd (expr_block_len t (select_acc env pi) k
            ((select_acc env pi).dwarf_readu8 s.addr).addr).addr
          (expr_block_len t (select_acc env pi) k
            ((select_acc env pi).dwarf_readu8 s.addr).addr).val ∧
      (end_addr ≤ wadd (expr_block_len t (select_acc env pi) k
            ((select_acc env pi).dwarf_readu8 s.addr).addr).addr
          (expr_block_len t (select_acc env pi) k
            ((select_acc env pi).dwarf_readu8 s.addr).addr).val →
        run_cfi_loop t env pi dci end_ip end_addr (fuel + 1) s =
          some (Outcome.cont (cfi_step t env pi dci s).st))) := by
  cases hret : (cfi_step t env pi dci s).ret with
  | some e =>
    left
    refine ⟨e, rfl, ?_⟩
    simp only [run_cfi_loop]
    rw [if_pos hc]
    simp only [hret]
  | none =>
    right
    cases hr : ((select_acc env pi).dwarf_readu8 s.addr).ret with
    | some e =>
      have : (cfi_step t env pi dci s).ret = some e := by
        simp [cfi_step, rd_then, hr, Outcome.fail]
      rw [this] at hret
      exact absurd hret (by simp)
    | none =>
      have ho : opcode_at env pi s (((select_acc env pi).dwarf_readu8 s.addr).val % 2 ^ 8) :=
        ⟨hr, rfl⟩
      have hs1 := hb.1 s.addr hr
      cases hd : switch_opcode (((select_acc env pi).dwarf_readu8 s.addr).val % 2 ^ 8) with
      | none =>
        left
        refine ⟨rfl, ?_⟩
        rw [cfi_step_of_opcode t env pi dci s _ ho]
        unfold switch_opcode at hd
        simp only [hd]
        exact hs1
      | some k =>
        by_cases hx : is_expr_opcode k = true
        · right
          have he := cfi_step_expr_bound t env pi dci s end_addr _ k hb ho hd hx hret
          refine ⟨_, k, ho, hd, hx, rfl, he.1, he.2.1, he.2.2.1, he.2.2.2, ?_⟩
          intro hge
          have hstop : ¬ ((cfi_step t env pi dci s).st.ip ≤ end_ip ∧
              (cfi_step t env pi dci s).st.addr < end_addr) := by
            intro hcon
            have := hcon.2
            rw [he.2.2.2] at this
            omega
          simp only [run_cfi_loop]
          rw [if_pos hc]
          simp only [hret]
          cases fuel with
          | zero => simp only [run_cfi_loop]; rw [if_neg hstop]
          | succ n => simp only [run_cfi_loop]; rw [if_neg hstop]
        · left
          refine ⟨rfl, ?_⟩
          rw [cfi_step_of_opcode t env pi dci s _ ho] at hret ⊢
          simp only [] at hret ⊢
          unfold switch_opcode at hd
          simp only [hd] at hret ⊢
          rcases cfi_case_bound t env (select_acc env pi) pi dci k _
            { s with addr := ((select_acc env pi).dwarf_readu8 s.addr).addr } end_addr hb hs1
            (by simpa using hx) with h1 | h1
          · exact absurd hret h1
          · exact h1

/-- C15 (amended) at a concrete input: over the two bytes `0f 05` with `end_addr
= 2` (def_cfa_expression with a block of 5 bytes, none of which is there) the
iteration at byte 0 falls under case (3): the length prefix is read at byte 1,
the byte cursor becomes 2 + 5 = 7 and run_cfi_program returns success. -/
theorem C15_read_past_end_example :
    (bytes_run [0x0f, 0x05] 2).ret = none ∧ (bytes_run [0x0f, 0x05] 2).st.addr = 7 ∧
    (expr_block_len x86_64 (mem_acc [0x0f, 0x05]) DW_CFA_def_cfa_expression 1).addr = 2 ∧
    (expr_block_len x86_64 (mem_acc [0x0f, 0x05]) DW_CFA_def_cfa_expression 1).val = 5 ∧
    run_cfi_loop x86_64 (mem_env [0x0f, 0x05]) one_byte_pi one_byte_pi.unwind_info 0x200 2
      (9 + 1) ⟨0x100, 0, zero_state_record, []⟩ =
      some (Outcome.cont (cfi_step x86_64 (mem_env [0x0f, 0x05]) one_byte_pi
        one_byte_pi.unwind_info ⟨0x100, 0, zero_state_record, []⟩).st) := by
  have hnone : (cfi_step x86_64 (mem_env [0x0f, 0x05]) one_byte_pi one_byte_pi.unwind_info
      ⟨0x100, 0, zero_state_record, []⟩).ret = none := by decide
  have haddr : (cfi_step x86_64 (mem_env [0x0f, 0x05]) one_byte_pi one_byte_pi.unwind_info
      ⟨0x100, 0, zero_state_record, []⟩).st.addr = 7 := by decide
  refine ⟨by decide, by decide, by decide, by decide, ?_⟩
  rcases C15_read_past_end x86_64 (mem_env [0x0f, 0x05]) one_byte_pi one_byte_pi.unwind_info
      0x200 2 (mem_acc_bounded [0x0f, 0x05]) 9 ⟨0x100, 0, zero_state_record, []⟩ (by decide)
    with ⟨e, he, _⟩ | ⟨_, h2⟩ | ⟨b, k, _, _, _, _, _, _, _, hadd, hrun⟩
  · rw [hnone] at he
    exact absurd he (by simp)
  · rw [haddr] at h2
    exact absurd h2 (by decide)
  · apply hrun
    rw [← hadd, haddr]
    decide

/-! ## The state record set up from the CIE -/

/-- The seeding loop of `setup_fde` tags the slots `i, ..., i + n - 1` SAME with
value 0 and leaves the others. -/
theorem setup_fde_loop_spec :
    ∀ (n : Nat) (sr : StateRecord) (i j : Nat),
      (setup_fde_loop sr i n).rs_current.where_ j =
        (if i ≤ j ∧ j < i + n then Where.SAME else sr.rs_current.where_ j) ∧
      (setup_fde_loop sr i n).rs_current.val j =
        (if i ≤ j ∧ j < i + n then 0 else sr.rs_current.val j) := by
  intro n
  induction n with
  | zero =>
    intro sr i j
    simp only [setup_fde_loop]
    rw [if_neg (by omega), if_neg (by omega)]
    exact ⟨rfl, rfl⟩
  | succ n ih =>
    intro sr i j
    simp only [setup_fde_loop]
    rw [(ih _ (i + 1) j).1, (ih _ (i + 1) j).2]
    by_cases hji : j = i
    · subst hji
      simp [set_reg, RegState.set]
    · have e1 : (set_reg sr i Where.SAME 0).rs_current.where_ j = sr.rs_current.where_ j := by
        simp [set_reg, RegState.set, Function.update, hji]
      have e2 : (set_reg sr i Where.SAME 0).rs_current.val j = sr.rs_current.val j := by
        simp [set_reg, RegState.set, Function.update, hji]
      rw [e1, e2]
      by_cases hc : i + 1 ≤ j ∧ j < i + 1 + n
      · rw [if_pos hc, if_pos hc, if_pos (by omega), if_pos (by omega)]
        exact ⟨rfl, rfl⟩
      · rw [if_neg hc, if_neg hc, if_neg (by omega), if_neg (by omega)]
        exact ⟨rfl, rfl⟩

/-- The seeded record of `setup_fde`: the return-address column is that of the
CIE, and each of the slots `0, ..., N + 1` has value 0 and is tagged SAME, or CFA
for the stack pointer on a target where it defaults to the CFA. -/
theorem setup_fde_seed_spec (t : Target) (dci : CieInfo) :
    (setup_fde_seed t dci).rs_current.ret_addr_column = dci.ret_addr_column ∧
    ∀ i, i < t.NUM_PRESERVED_REGS + 2 →
      (setup_fde_seed t dci).rs_current.val i = 0 ∧
      (setup_fde_seed t dci).rs_current.where_ i =
        (if t.sp_defaults_to_cfa = true ∧ i = t.TDEP_DWARF_SP then Where.CFA else Where.SAME) := by
  refine ⟨rfl, ?_⟩
  intro i hi
  have hl := setup_fde_loop_spec (t.NUM_PRESERVED_REGS + 2) zero_state_record 0 i
  rw [if_pos ⟨Nat.zero_le _, by omega⟩, if_pos ⟨Nat.zero_le _, by omega⟩] at hl
  unfold setup_fde_seed
  by_cases hp : t.sp_defaults_to_cfa = true
  · simp only [hp, if_true, true_and]
    by_cases hsp : i = t.TDEP_DWARF_SP
    · subst hsp
      simp [set_reg, RegState.set]
    · simp [set_reg, RegState.set, Function.update, hsp, hl.1, hl.2]
  · simp [hp, hl.1, hl.2]

/-- A sum of words is a word. -/
theorem wadd_lt (a b : Nat) : wadd a b < WORD :=
  Nat.mod_lt _ (by unfold WORD; exact Nat.pow_pos (by decide))

/-- A reader call followed by a continuation that keeps the location counter a
word keeps it a word. -/
theorem rd_then_ip (r : Rd) (s : Cfi) (k : Nat → Cfi → Outcome)
    (hs : s.ip < WORD) (hk : ∀ v s1, s1.ip < WORD → (k v s1).st.ip < WORD) :
    (rd_then r s k).st.ip < WORD := by
  unfold rd_then
  split
  · simpa [Outcome.fail] using hs
  · exact hk _ _ (by simpa using hs)

/-- When the encoded-pointer reader returns words, every case of the switch
keeps the location counter a word. -/
theorem cfi_case_ip (t : Target) (env : Env) (a : Accessors) (pi : ProcInfo)
    (dci : CieInfo) (op : dwarf_cfa_t) (operand : Nat) (s : Cfi)
    (hp : ∀ enc p x, (a.dwarf_read_encoded_pointer enc p x).val < WORD) (hs : s.ip < WORD) :
    (cfi_case t env a pi dci op operand s).st.ip < WORD := by
  cases op <;> simp only [cfi_case, Outcome.cont, Outcome.fail]
  all_goals
    repeat' (first
      | (apply rd_then_ip _ _ _ (by simp [*]); intro _ _ hh)
      | split)
  all_goals first
    | assumption
    | exact wadd_lt _ _
    | exact hp _ _ _

/-- When the encoded-pointer reader returns words, an iteration of the loop
keeps the location counter a word. -/
theorem cfi_step_ip (t : Target) (env : Env) (pi : ProcInfo) (dci : CieInfo) (s : Cfi)
    (hp : ∀ enc p x, ((select_acc env pi).dwarf_read_encoded_pointer enc p x).val < WORD)
    (hs : s.ip < WORD) : (cfi_step t env pi dci s).st.ip < WORD := by
  unfold cfi_step
  apply rd_then_ip _ _ _ hs
  intro v s1 h1
  simp only []
  split
  · exact cfi_case_ip t env _ pi dci _ _ s1 hp h1
  · exact h1

/-- With `end_ip = ~0` the test on the location counter never fails: the loop of
`run_cfi_program` is the loop without that test. -/
theorem run_cfi_loop_unbounded (t : Target) (env : Env) (pi : ProcInfo) (dci : CieInfo)
    (end_addr : Nat)
    (hp : ∀ enc p x, ((select_acc env pi).dwarf_read_encoded_pointer enc p x).val < WORD) :
    ∀ (fuel : Nat) (s : Cfi), s.ip < WORD →
      run_cfi_loop t env pi dci (WORD - 1) end_addr fuel s =
        run_cfi_unbounded t env pi dci end_addr fuel s := by
  intro fuel
  induction fuel with
  | zero =>
    intro s hs
    have e : (s.ip ≤ WORD - 1 ∧ s.addr < end_addr) ↔ s.addr < end_addr :=
      ⟨fun h => h.2, fun h => ⟨by omega, h⟩⟩
    simp only [run_cfi_loop, run_cfi_unbounded, e]
  | succ n ih =>
    intro s hs
    have e : (s.ip ≤ WORD - 1 ∧ s.addr < end_addr) ↔ s.addr < end_addr :=
      ⟨fun h => h.2, fun h => ⟨by omega, h⟩⟩
    simp only [run_cfi_loop, run_cfi_unbounded, e]
    rw [ih _ (cfi_step_ip t env pi dci s hp hs)]

/-- C18: let setup_fde succeed. Then (1) rs_initial equals rs_current; (2) they
are the rs_current left by a successful run of the interpreter over the CIE's
initial instructions, started with ip 0 on the seeded record, and that run is
also the run of the loop that has no test on ip (given that encoded pointers are
words); (3) the seeded record has the CIE's ret_addr_column and, in each of the
slots `0, ..., N + 1`, value 0 and the tag SAME, or CFA for the stack pointer on
a target where it defaults to the CFA; (4) with an empty CIE instruction range,
rs_current is exactly that of the seeded record, whatever the fuel. -/
theorem C18_setup_fde_result (t : Target) (env : Env) (pi : ProcInfo) (fuel : Nat)
    (d : DriverOut) (h : setup_fde t env pi fuel = some d) (hr : d.ret = none) :
    d.sr.rs_initial = d.sr.rs_current ∧
    (∃ o, run_cfi_program t env pi (setup_fde_seed t pi.unwind_info) 0 (WORD - 1)
        pi.unwind_info.cie_instr_start pi.unwind_info.cie_instr_end [] pi.unwind_info fuel
        = some o ∧ o.ret = none ∧ d.sr.rs_current = o.st.sr.rs_current ∧
      ((∀ enc p x, ((select_acc env pi).dwarf_read_encoded_pointer enc p x).val < WORD) →
        run_cfi_unbounded t env pi pi.unwind_info pi.unwind_info.cie_instr_end fuel
          ⟨0, pi.unwind_info.cie_instr_start, setup_fde_seed t pi.unwind_info, []⟩ = some o)) ∧
    ((setup_fde_seed t pi.unwind_info).rs_current.ret_addr_column
        = pi.unwind_info.ret_addr_column ∧
      ∀ i, i < t.NUM_PRESERVED_REGS + 2 →
        (setup_fde_seed t pi.unwind_info).rs_current.val i = 0 ∧
        (setup_fde_seed t pi.unwind_info).rs_current.where_ i =
          (if t.sp_defaults_to_cfa = true ∧ i = t.TDEP_DWARF_SP then Where.CFA
           else Where.SAME)) ∧
    (pi.unwind_info.cie_instr_end ≤ pi.unwind_info.cie_instr_start →
      d.sr.rs_current = (setup_fde_seed t pi.unwind_info).rs_current ∧
      ∀ fuel2, setup_fde t env pi fuel2 = some d) := by
  have h0 := h
  unfold setup_fde at h
  simp only [] at h
  cases ho : run_cfi_program t env pi (setup_fde_seed t pi.unwind_info) 0 (WORD - 1)
      pi.unwind_info.cie_instr_start pi.unwind_info.cie_instr_end [] pi.unwind_info fuel with
  | none => simp [ho] at h
  | some o =>
    simp only [ho] at h
    cases hor : o.ret with
    | some e =>
      simp only [hor] at h
      rw [← Option.some.inj h] at hr
      exact absurd hr (by simp)
    | none =>
      simp only [hor] at h
      have hd := Option.some.inj h
      refine ⟨by rw [← hd], ⟨o, rfl, hor, by rw [← hd], ?_⟩, setup_fde_seed_spec t pi.unwind_info,
        ?_⟩
      · intro hp
        rw [← run_cfi_loop_unbounded t env pi pi.unwind_info _ hp fuel _
          (by unfold WORD; exact Nat.pow_pos (by decide))]
        exact ho
      · intro hempty
        have hstop : ∀ f, run_cfi_program t env pi (setup_fde_seed t pi.unwind_info) 0 (WORD - 1)
            pi.unwind_info.cie_instr_start pi.unwind_info.cie_instr_end [] pi.unwind_info f
            = some (Outcome.cont
                ⟨0, pi.unwind_info.cie_instr_start, setup_fde_seed t pi.unwind_info, []⟩) := by
          intro f
          unfold run_cfi_program
          have hc : ¬ ((0 : Nat) ≤ WORD - 1 ∧
              pi.unwind_info.cie_instr_start < pi.unwind_info.cie_instr_end) := by omega
          cases f with
          | zero => simp only [run_cfi_loop]; rw [if_neg hc]
          | succ n => simp only [run_cfi_loop]; rw [if_neg hc]
        have ho2 := (hstop fuel).symm.trans ho
        constructor
        · rw [← hd, ← Option.some.inj ho2]
          rfl
        · intro fuel2
          rw [← h0]
          unfold setup_fde
          simp only [hstop]

/-- C18 at a concrete input: for the CIE program `def_cfa r7, 16` on x86-64,
setup_fde succeeds and leaves in rs_initial and in rs_current the CFA rule
"r7 + 16", SAME in slot 3, CFA in the stack-pointer slot 7 and return-address
column 16. -/
theorem C18_setup_fde_result_example :
    ra_setup.ret = none ∧
    (ra_setup.sr.rs_current.where_ 17 = Where.REG ∧ ra_setup.sr.rs_current.val 17 = 7 ∧
      ra_setup.sr.rs_current.val 18 = 16 ∧ ra_setup.sr.rs_current.where_ 3 = Where.SAME ∧
      ra_setup.sr.rs_current.where_ 7 = Where.CFA ∧
      ra_setup.sr.rs_current.ret_addr_column = 16) ∧
    ra_setup.sr.rs_initial = ra_setup.sr.rs_current :=
  ⟨by decide, by decide,
   (C18_setup_fde_result x86_64 (mem_env ra_prog) ra_pi 10 ra_setup (by rfl) (by decide)).1⟩

/-! ## A CFA rule and a saved register, end to end -/

/-- A run whose first iteration succeeds and leaves a state in which the loop
condition fails consists of that iteration. -/
theorem run_cfi_loop_one (t : Target) (env : Env) (pi : ProcInfo) (dci : CieInfo)
    (E A fuel : Nat) (s s1 : Cfi) (hc : s.ip ≤ E ∧ s.addr < A)
    (hs : cfi_step t env pi dci s = Outcome.cont s1) (hstop : ¬ (s1.ip ≤ E ∧ s1.addr < A)) :
    run_cfi_loop t env pi dci E A (fuel + 1) s = some (Outcome.cont s1) := by
  simp only [run_cfi_loop]
  rw [if_pos hc, hs]
  simp only [Outcome.cont]
  cases fuel with
  | zero => simp only [run_cfi_loop]; rw [if_neg hstop]; rfl
  | succ n => simp only [run_cfi_loop]; rw [if_neg hstop]; rfl

/-- A case of the switch other than DW_CFA_restore_state and
DW_CFA_GNU_window_save leaves every slot that it does not assign through
`set_reg` as it was. -/
theorem cfi_case_same_slot (t : Target) (env : Env) (a : Accessors) (pi : ProcInfo)
    (dci : CieInfo) (op : dwarf_cfa_t) (operand : Nat) (s : Cfi) (j : Nat)
    (h1 : op ≠ DW_CFA_restore_state) (h2 : op ≠ DW_CFA_GNU_window_save)
    (hj : j ∉ set_reg_slots t a op operand s.addr) :
    same_slot j s (cfi_case t env a pi dci op operand s).st := by
  unfold same_slot
  cases op <;> simp only [cfi_case, rd_then, set_reg_slots, Outcome.cont, Outcome.fail,
    List.mem_cons, List.mem_singleton, List.not_mem_nil, not_or, or_false, not_false_eq_true,
    ne_eq, not_true_eq_false] at h1 h2 hj ⊢
  all_goals (repeat' split)
  all_goals first
    | exact ⟨rfl, rfl⟩
    | simp [set_reg, RegState.set, Function.update, hj]

/-- An iteration of the loop whose opcode is neither DW_CFA_restore_state nor
DW_CFA_GNU_window_save leaves every slot that its case does not assign through
`set_reg` as it was: an instruction that does not name the slot keeps it. -/
theorem cfi_step_same_slot (t : Target) (env : Env) (pi : ProcInfo) (dci : CieInfo)
    (s : Cfi) (b : Nat) (k : dwarf_cfa_t) (j : Nat) (ho : opcode_at env pi s b)
    (hk : switch_opcode b = some k) (h1 : k ≠ DW_CFA_restore_state)
    (h2 : k ≠ DW_CFA_GNU_window_save)
    (hj : j ∉ set_reg_slots t (select_acc env pi) k
      (if b &&& DWARF_CFA_OPCODE_MASK ≠ 0 then b &&& DWARF_CFA_OPERAND_MASK else 0)
      ((select_acc env pi).dwarf_readu8 s.addr).addr) :
    same_slot j s (cfi_step t env pi dci s).st := by
  rw [cfi_step_of_opcode t env pi dci s b ho]
  simp only []
  unfold switch_opcode at hk
  simp only [hk]
  exact cfi_case_same_slot t env (select_acc env pi) pi dci k _
    { s with addr := ((select_acc env pi).dwarf_readu8 s.addr).addr } j h1 h2 hj

/-- The first loop of the flush resets the entries `a, ..., a + n - 1` and
leaves the others. -/
theorem flush_links_loop_spec :
    ∀ (n a : Nat) (L : Nat → Link) (i : Nat),
      flush_links_loop L a n i =
        (if a ≤ i ∧ i < a + n then { L i with coll_chain := SENTINEL, ip := 0, valid := false }
         else L i) := by
  intro n
  induction n with
  | zero =>
    intro a L i
    simp only [flush_links_loop]
    rw [if_neg (by omega)]
  | succ n ih =>
    intro a L i
    simp only [flush_links_loop]
    rw [ih]
    by_cases hia : i = a
    · subst hia
      rw [if_neg (by omega), if_pos (by omega)]
      simp
    · have e : Function.update L a { L a with coll_chain := SENTINEL, ip := 0, valid := false } i
          = L i := by simp [Function.update, hia]
      rw [e]
      by_cases hc : a + 1 ≤ i ∧ i < a + 1 + n
      · rw [if_pos hc, if_pos (by omega)]
      · rw [if_neg hc, if_neg (by omega)]

/-- The second loop of the flush stores the sentinel in the heads `a, ..., a + n
- 1` and leaves the others. -/
theorem flush_hash_loop_spec :
    ∀ (n a : Nat) (H : Nat → Nat) (i : Nat),
      flush_hash_loop H a n i = (if a ≤ i ∧ i < a + n then SENTINEL else H i) := by
  intro n
  induction n with
  | zero =>
    intro a H i
    simp only [flush_hash_loop]
    rw [if_neg (by omega)]
  | succ n ih =>
    intro a H i
    simp only [flush_hash_loop]
    rw [ih]
    by_cases hia : i = a
    · subst hia
      rw [if_neg (by omega), if_pos (by omega)]
      simp
    · have e : Function.update H a SENTINEL i = H i := by simp [Function.update, hia]
      rw [e]
      by_cases hc : a + 1 ≤ i ∧ i < a + 1 + n
      · rw [if_pos hc, if_pos (by omega)]
      · rw [if_neg hc, if_neg (by omega)]

/-- The hash of an ip is the index of a hash head. -/
theorem hash_lt (ip l : Nat) (hl : l + 1 ≤ 64) : hash ip l < DWARF_UNW_HASH_SIZE l := by
  unfold hash DWARF_UNW_HASH_SIZE
  rw [Nat.one_shiftLeft, Nat.shiftRight_eq_div_pow]
  apply lt_of_le_of_lt (Nat.mod_le _ _)
  have hw : wmul ip magic < 2 ^ 64 := Nat.mod_lt _ (by decide)
  rw [Nat.div_lt_iff_lt_mul (Nat.pow_pos (by decide))]
  rw [← Nat.pow_add]
  have : l + 1 + (64 - (l + 1)) = 64 := by omega
  rw [this]
  exact hw

/-- A cache whose size does not exceed the sentinel has `log_size <= 15`. -/
theorem log_size_le_of_size (l : Nat) (h : DWARF_UNW_CACHE_SIZE l ≤ SENTINEL) : l ≤ 15 := by
  unfold DWARF_UNW_CACHE_SIZE at h
  rw [Nat.one_shiftLeft] at h
  by_contra hc
  have h16 : 2 ^ 16 ≤ 2 ^ l := Nat.pow_le_pow_right (by decide) (by omega)
  have hs : SENTINEL = 2 ^ 16 - 1 := rfl
  rw [hs] at h
  have : (2 : Nat) ^ 16 = 65536 := by decide
  omega

/-- A successful flush leaves a flushed cache. -/
theorem dwarf_flush_rs_cache_flushed (t : Target) (mm : MemEnv) (cache : RsCache)
    (h : (dwarf_flush_rs_cache t mm cache).1 = none) :
    (dwarf_flush_rs_cache t mm cache).2.flushed := by
  unfold dwarf_flush_rs_cache at h ⊢
  cases hc : flush_install t mm cache with
  | none => rw [hc] at h; simp at h
  | some c2 =>
    simp only []
    unfold RsCache.flushed flush_reset
    refine ⟨?_, ?_, rfl⟩
    · intro i hi
      simp only [] at hi ⊢
      rw [flush_links_loop_spec, if_pos ⟨Nat.zero_le _, by omega⟩]
      exact ⟨rfl, rfl, rfl⟩
    · intro i hi
      simp only [] at hi ⊢
      rw [flush_hash_loop_spec, if_pos ⟨Nat.zero_le _, by omega⟩]

/-- In a flushed cache whose size does not exceed the sentinel, every lookup
misses. -/
theorem rs_lookup_flushed (k : RsCache) (hf : k.flushed)
    (hs : DWARF_UNW_CACHE_SIZE k.log_size ≤ SENTINEL) (ip hint fuel : Nat)
    (hh : hint ≤ DWARF_UNW_CACHE_SIZE k.log_size) : rs_lookup k ip hint fuel = some none := by
  obtain ⟨hl, hh2, _⟩ := hf
  have hl15 := log_size_le_of_size k.log_size hs
  have hsu : SENTINEL < USHORT := by decide
  unfold rs_lookup
  have hno : ¬ (0 < hint ∧ cache_match k ((hint - 1) % USHORT) ip = true) := by
    rintro ⟨h0, hm⟩
    rw [Nat.mod_eq_of_lt (by omega)] at hm
    unfold cache_match at hm
    rw [(hl (hint - 1) (by omega)).1] at hm
    simp at hm
  rw [if_neg hno, hh2 _ (hash_lt ip k.log_size (by omega))]
  cases fuel with
  | zero => simp only [rs_lookup_loop]; rw [if_neg (by omega)]
  | succ n => simp only [rs_lookup_loop]; rw [if_neg (by omega)]

/-- C19: after a successful dwarf_flush_rs_cache, every one of the S entries is
invalid, every hash head and every coll_chain holds the sentinel 0xffff, and
rr_head is 0; consequently, for a cache whose size S does not exceed the sentinel
(log_size <= 15, so that the sentinel is not the index of an entry), rs_lookup
returns NULL for every ip, every cursor hint in [0, S] and every amount of
fuel. -/
theorem C19_flush_empties_cache (t : Target) (mm : MemEnv) (cache : RsCache)
    (h : (dwarf_flush_rs_cache t mm cache).1 = none) :
    (∀ i, i < DWARF_UNW_CACHE_SIZE (dwarf_flush_rs_cache t mm cache).2.log_size →
      ((dwarf_flush_rs_cache t mm cache).2.links i).valid = false ∧
      ((dwarf_flush_rs_cache t mm cache).2.links i).coll_chain = SENTINEL) ∧
    (∀ i, i < DWARF_UNW_HASH_SIZE (dwarf_flush_rs_cache t mm cache).2.log_size →
      (dwarf_flush_rs_cache t mm cache).2.hash i = SENTINEL) ∧
    SENTINEL = 0xffff ∧
    (dwarf_flush_rs_cache t mm cache).2.rr_head = 0 ∧
    (DWARF_UNW_CACHE_SIZE (dwarf_flush_rs_cache t mm cache).2.log_size ≤ SENTINEL →
      ∀ ip hint fuel, hint ≤ DWARF_UNW_CACHE_SIZE (dwarf_flush_rs_cache t mm cache).2.log_size →
        rs_lookup (dwarf_flush_rs_cache t mm cache).2 ip hint fuel = some none) := by
  have hf := dwarf_flush_rs_cache_flushed t mm cache h
  refine ⟨fun i hi => ⟨(hf.1 i hi).1, (hf.1 i hi).2.1⟩, hf.2.1, by decide, hf.2.2, ?_⟩
  intro hs ip hint fuel hh
  exact rs_lookup_flushed _ hf hs ip hint fuel hh

/-- C19 at a concrete input: the flush of a blank cache of 2 buckets succeeds,
and a lookup of ip 0x150 with hint 2 misses without fuel. -/
theorem C19_flush_empties_cache_example :
    (dwarf_flush_rs_cache x86_64 mem_ok (blank_cache 1)).1 = none ∧
    (dwarf_flush_rs_cache x86_64 mem_ok (blank_cache 1)).2.rr_head = 0 ∧
    rs_lookup (dwarf_flush_rs_cache x86_64 mem_ok (blank_cache 1)).2 0x150 2 0 = some none :=
  have h := C19_flush_empties_cache x86_64 mem_ok (blank_cache 1) (by decide)
  ⟨by decide, h.2.2.2.1, h.2.2.2.2 (by decide) 0x150 2 0 (by decide)⟩

/-! ## Round-robin insertion -/

/-- The round-robin head after `rs_new`. -/
theorem rs_new_rr_head (k k1 : RsCache) (ip : Nat) (sig : Bool) (fuel head : Nat)
    (h : rs_new k ip sig fuel = some (k1, head)) :
    k1.rr_head = ((k.rr_head + 1) &&& (DWARF_UNW_CACHE_SIZE k.log_size - 1)) % USHORT := by
  unfold rs_new at h
  simp only [] at h
  split at h
  · simp at h
  · rename_i c3 hc3
    simp only [Option.some.injEq, Prod.mk.injEq] at h
    obtain ⟨hk, _⟩ := h
    have hse : same_entries { k with rr_head :=
        ((k.rr_head + 1) &&& (DWARF_UNW_CACHE_SIZE k.log_size - 1)) % USHORT } c3 := by
      split at hc3
      · exact rs_new_unlink_same_entries _ _ _ _ _ hc3
      · simp only [Option.some.injEq] at hc3
        subst hc3
        exact same_entries_refl _
    subst hk
    exact hse.1

/-- The round-robin head advances modulo the cache size. -/
theorem rr_head_step (l m : Nat) (hs : DWARF_UNW_CACHE_SIZE l ≤ USHORT) :
    ((m % DWARF_UNW_CACHE_SIZE l + 1) &&& (DWARF_UNW_CACHE_SIZE l - 1)) % USHORT =
      (m + 1) % DWARF_UNW_CACHE_SIZE l := by
  unfold DWARF_UNW_CACHE_SIZE at hs ⊢
  rw [Nat.one_shiftLeft] at hs ⊢
  rw [Nat.and_pow_two_sub_one_eq_mod, Nat.mod_add_mod]
  exact Nat.mod_eq_of_lt (lt_of_lt_of_le (Nat.mod_lt _ (Nat.pow_pos (by decide))) hs)

/-- Two insertions less than a full round apart use different buckets. -/
theorem slot_ne (m d S : Nat) (h1 : 0 < d) (h2 : d < S) : (m + d) % S ≠ m % S := by
  intro h
  have h' : m + d ≡ m + 0 [MOD S] := by simpa [Nat.ModEq] using h
  have hd := (Nat.modEq_zero_iff_dvd).1 (Nat.ModEq.add_left_cancel' m h')
  have := Nat.le_of_dvd h1 hd
  omega

/-- What a sequence of lookups and insertions does to a cache whose round-robin
head is `m` modulo its size S (`m` insertions have been made so far): the head
advances by the number of insertions; the `i`-th insertion of the sequence uses
bucket `(m + i) mod S`; each of the last S insertions is still in its bucket;
and the buckets no insertion used keep their ip and validity. -/
theorem run_ops_spec (fuel : Nat) :
    ∀ (ops : List CacheOp) (k : RsCache) (m : Nat) (q : RsCache × List (Nat × Nat)),
      DWARF_UNW_CACHE_SIZE k.log_size ≤ USHORT →
      k.rr_head = m % DWARF_UNW_CACHE_SIZE k.log_size →
      run_ops fuel k ops = some q →
      q.1.log_size = k.log_size ∧
      q.1.rr_head = (m + q.2.length) % DWARF_UNW_CACHE_SIZE k.log_size ∧
      (∀ i slot ip, q.2.get? i = some (slot, ip) →
        slot = (m + i) % DWARF_UNW_CACHE_SIZE k.log_size) ∧
      (∀ i slot ip, q.2.get? i = some (slot, ip) →
        q.2.length ≤ i + DWARF_UNW_CACHE_SIZE k.log_size →
        (q.1.links ((m + i) % DWARF_UNW_CACHE_SIZE k.log_size)).ip = ip ∧
        (q.1.links ((m + i) % DWARF_UNW_CACHE_SIZE k.log_size)).valid = true) ∧
      (∀ j, (∀ i, i < q.2.length → (m + i) % DWARF_UNW_CACHE_SIZE k.log_size ≠ j) →
        (q.1.links j).ip = (k.links j).ip ∧ (q.1.links j).valid = (k.links j).valid) := by
  intro ops
  induction ops with
  | nil =>
    intro k m q hs hrr h
    simp only [run_ops, Option.some.injEq] at h
    subst h
    refine ⟨rfl, by simpa using hrr, ?_, ?_, ?_⟩
    · intro i slot ip hi; simp at hi
    · intro i slot ip hi; simp at hi
    · intro j _; exact ⟨rfl, rfl⟩
  | cons op rest ih =>
    intro k m q hs hrr h
    cases op with
    | lookup ip hint =>
      simp only [run_ops] at h
      split at h
      · simp at h
      · exact ih k m q hs hrr h
    | insert ip sig =>
      simp only [run_ops] at h
      split at h
      · simp at h
      · rename_i r hr
        split at h
        · simp at h
        · rename_i q1 hq1
          simp only [Option.some.injEq] at h
          subst h
          have hr2 : rs_new k ip sig fuel = some (r.1, r.2) := hr
          obtain ⟨hhead, hls, _, _, _, _, hval, hipq, hoth⟩ :=
            rs_new_spec k r.1 ip sig fuel r.2 hr2
          have hrr1 : r.1.rr_head = (m + 1) % DWARF_UNW_CACHE_SIZE r.1.log_size := by
            rw [rs_new_rr_head k r.1 ip sig fuel r.2 hr2, hrr, hls, rr_head_step _ _ hs]
          have hs1 : DWARF_UNW_CACHE_SIZE r.1.log_size ≤ USHORT := by rw [hls]; exact hs
          obtain ⟨i1, i2, i3, i4, i5⟩ := ih r.1 (m + 1) q1 hs1 hrr1 hq1
          rw [hls] at i2 i3 i4 i5
          have hS : 0 < DWARF_UNW_CACHE_SIZE k.log_size := by
            unfold DWARF_UNW_CACHE_SIZE
            rw [Nat.one_shiftLeft]
            exact Nat.pow_pos (by decide)
          refine ⟨i1.trans hls, ?_, ?_, ?_, ?_⟩
          · show q1.1.rr_head = (m + (q1.2.length + 1)) % _
            rw [i2, Nat.add_assoc, Nat.add_comm 1]
          · intro i slot ip1 hi
            cases i with
            | zero =>
              simp only [List.get?_cons_zero, Option.some.injEq, Prod.mk.injEq] at hi
              rw [← hi.1, hhead, hrr]
              rfl
            | succ n =>
              simp only [List.get?_cons_succ] at hi
              rw [i3 n slot ip1 hi, Nat.add_assoc, Nat.add_comm 1]
          · intro i slot ip1 hi hlen
            cases i with
            | zero =>
              simp only [List.get?_cons_zero, Option.some.injEq, Prod.mk.injEq] at hi
              simp only [List.length_cons] at hlen
              have hfr := i5 (m % DWARF_UNW_CACHE_SIZE k.log_size) (by
                intro i hi2
                rw [Nat.add_assoc]
                exact slot_ne m (1 + i) _ (by omega) (by omega))
              rw [Nat.add_zero, hfr.1, hfr.2, ← hrr, ← hhead, ← hi.2]
              exact ⟨hipq, hval⟩
            | succ n =>
              simp only [List.get?_cons_succ] at hi
              simp only [List.length_cons] at hlen
              have := i4 n slot ip1 hi (by omega)
              rw [Nat.add_assoc, Nat.add_comm 1] at this
              exact this
          · intro j hj
            have hj0 : j ≠ r.2 := by
              have := hj 0 (by simp)
              rw [Nat.add_zero, ← hrr, ← hhead] at this
              exact fun e => this e.symm
            have hfr := i5 j (by
              intro i hi2
              have := hj (i + 1) (by simp only [List.length_cons]; omega)
              rw [Nat.add_assoc, Nat.add_comm 1]
              exact this)
            exact ⟨hfr.1.trans (hoth j hj0).1, hfr.2.trans (hoth j hj0).2⟩

/-- C20: start from a flushed cache with S = 2^log_size buckets (S not above
the range of the 16-bit index type) and run any sequence of lookups and
insertions that returns. Then rr_head is in [0, S), namely the number of
insertions modulo S; the k-th insertion (k counted from 0) stores its entry in
slot k mod S; each of the S most recent insertions is still held, valid, in its
slot; and a slot no insertion has reached holds no valid entry. -/
theorem C20_round_robin (k : RsCache) (hf : k.flushed)
    (hs : DWARF_UNW_CACHE_SIZE k.log_size ≤ USHORT) (fuel : Nat) (ops : List CacheOp)
    (q : RsCache × List (Nat × Nat)) (h : run_ops fuel k ops = some q) :
    DWARF_UNW_CACHE_SIZE q.1.log_size = 2 ^ k.log_size ∧
    q.1.rr_head < DWARF_UNW_CACHE_SIZE q.1.log_size ∧
    q.1.rr_head = q.2.length % DWARF_UNW_CACHE_SIZE q.1.log_size ∧
    (∀ i slot ip, q.2.get? i = some (slot, ip) →
      slot = i % DWARF_UNW_CACHE_SIZE q.1.log_size) ∧
    (∀ i slot ip, q.2.get? i = some (slot, ip) →
      q.2.length ≤ i + DWARF_UNW_CACHE_SIZE q.1.log_size →
      (q.1.links (i % DWARF_UNW_CACHE_SIZE q.1.log_size)).ip = ip ∧
      (q.1.links (i % DWARF_UNW_CACHE_SIZE q.1.log_size)).valid = true) ∧
    (∀ j, j < DWARF_UNW_CACHE_SIZE q.1.log_size → q.2.length ≤ j →
      (q.1.links j).valid = false) := by
  have hS : 0 < DWARF_UNW_CACHE_SIZE k.log_size := by
    unfold DWARF_UNW_CACHE_SIZE
    rw [Nat.one_shiftLeft]
    exact Nat.pow_pos (by decide)
  obtain ⟨i1, i2, i3, i4, i5⟩ := run_ops_spec fuel ops k 0 q hs
    (by rw [hf.2.2, Nat.zero_mod]) h
  rw [i1]
  simp only [Nat.zero_add] at i2 i3 i4 i5
  refine ⟨by unfold DWARF_UNW_CACHE_SIZE; rw [Nat.one_shiftLeft], ?_, i2, i3, i4, ?_⟩
  · rw [i2]
    exact Nat.mod_lt _ hS
  · intro j hj hlen
    have hfr := i5 j (by
      intro i hi
      rw [Nat.mod_eq_of_lt (by omega)]
      omega)
    rw [hfr.2]
    exact (hf.1 j hj).1

/-- C20 at a concrete input: on the flushed cache with two buckets, the
insertions of the ips 1, 2, 3 (with a lookup in between) use the slots 0, 1, 0;
afterwards rr_head is 1, slot 0 holds ip 3 and slot 1 holds ip 2. -/
theorem C20_round_robin_example :
    three_inserts.2 = [(0, 1), (1, 2), (0, 3)] ∧
    three_inserts.1.rr_head = 1 ∧
    ((three_inserts.1.links 0).ip = 3 ∧ (three_inserts.1.links 0).valid = true) ∧
    ((three_inserts.1.links 1).ip = 2 ∧ (three_inserts.1.links 1).valid = true) ∧
    three_inserts.1.rr_head < DWARF_UNW_CACHE_SIZE three_inserts.1.log_size :=
  ⟨by decide, by decide, by decide, by decide,
   (C20_round_robin flushed2
     (dwarf_flush_rs_cache_flushed x86_64 mem_ok (blank_cache 1) (by decide)) (by decide) 4
     [CacheOp.insert 1 false, CacheOp.lookup 1 0, CacheOp.insert 2 false, CacheOp.insert 3 false]
     three_inserts (by rfl)).2.1⟩

/-! ## restore_state and the state-record stack -/

/-- C28: an iteration of the loop of run_cfi_program that decodes
DW_CFA_restore_state. With an empty state-record stack it fails with
-UNW_EINVAL, which is then the result of run_cfi_program, and leaves rs_current
(indeed the whole record) and the stack unchanged. With a non-empty stack it
succeeds, sets rs_current to the top snapshot and leaves the stack without its
top: shorter by exactly one. -/
theorem C28_restore_state (t : Target) (env : Env) (pi : ProcInfo) (dci : CieInfo)
    (end_ip end_addr fuel : Nat) (s : Cfi) (hc : s.ip ≤ end_ip ∧ s.addr < end_addr)
    (h : opcode_at env pi s DW_CFA_restore_state.code) :
    (s.rs_stack = [] →
      (cfi_step t env pi dci s).ret = some UnwError.EINVAL ∧
      run_cfi_loop t env pi dci end_ip end_addr (fuel + 1) s = some (cfi_step t env pi dci s) ∧
      (cfi_step t env pi dci s).st.sr = s.sr ∧
      (cfi_step t env pi dci s).st.rs_stack = []) ∧
    (∀ top rest, s.rs_stack = top :: rest →
      (cfi_step t env pi dci s).ret = none ∧
      (cfi_step t env pi dci s).st.sr.rs_current = top ∧
      (cfi_step t env pi dci s).st.rs_stack = rest ∧
      (cfi_step t env pi dci s).st.rs_stack.length + 1 = s.rs_stack.length) := by
  constructor
  · intro he
    have hstep : cfi_step t env pi dci s = Outcome.fail UnwError.EINVAL
        { s with addr := ((select_acc env pi).dwarf_readu8 s.addr).addr } := by
      rw [cfi_step_of_opcode t env pi dci s _ h]
      have hd : decode_cfa (dwarf_cfa_t.code DW_CFA_restore_state) = some DW_CFA_restore_state := by
        decide
      have hm : dwarf_cfa_t.code DW_CFA_restore_state &&& DWARF_CFA_OPCODE_MASK = 0 := by decide
      simp [hm, hd, cfi_case, he]
    refine ⟨by rw [hstep]; rfl, ?_, by rw [hstep]; rfl, by rw [hstep]; exact he⟩
    simp only [run_cfi_loop]
    rw [if_pos hc]
    simp only [hstep, Outcome.fail]
  · intro top rest hs
    rw [cfi_step_restore_state t env pi dci s top rest h hs]
    refine ⟨rfl, rfl, rfl, ?_⟩
    simp [Outcome.cont, hs]

/-- C28 at concrete inputs: over the byte `0b` (DW_CFA_restore_state) with an
empty stack run_cfi_program returns -UNW_EINVAL; over `0a 0e 10 0b`
(remember_state; def_cfa_offset 16; restore_state) the last instruction brings
back the CFA offset 0 and leaves the stack empty. -/
theorem C28_restore_state_example :
    (bytes_run [0x0b] 1).ret = some UnwError.EINVAL ∧
    (bytes_run [0x0b] 1).st.rs_stack = [] ∧
    ((bytes_run [0x0a, 0x0e, 0x10, 0x0b] 3).st.sr.rs_current.val 18 = 16 ∧
      (bytes_run [0x0a, 0x0e, 0x10, 0x0b] 3).st.rs_stack.length = 1 ∧
      (bytes_run [0x0a, 0x0e, 0x10, 0x0b] 4).ret = none ∧
      (bytes_run [0x0a, 0x0e, 0x10, 0x0b] 4).st.sr.rs_current.val 18 = 0 ∧
      (bytes_run [0x0a, 0x0e, 0x10, 0x0b] 4).st.rs_stack.length = 0) ∧
    ((cfi_step x86_64 (mem_env [0x0b]) one_byte_pi one_byte_pi.unwind_info
        ⟨0x100, 0, zero_state_record, []⟩).ret = some UnwError.EINVAL ∧
      run_cfi_loop x86_64 (mem_env [0x0b]) one_byte_pi one_byte_pi.unwind_info 0x200 1 (9 + 1)
        ⟨0x100, 0, zero_state_record, []⟩ =
        some (cfi_step x86_64 (mem_env [0x0b]) one_byte_pi one_byte_pi.unwind_info
          ⟨0x100, 0, zero_state_record, []⟩) ∧
      (cfi_step x86_64 (mem_env [0x0b]) one_byte_pi one_byte_pi.unwind_info
        ⟨0x100, 0, zero_state_record, []⟩).st.sr = zero_state_record ∧
      (cfi_step x86_64 (mem_env [0x0b]) one_byte_pi one_byte_pi.unwind_info
        ⟨0x100, 0, zero_state_record, []⟩).st.rs_stack = []) :=
  ⟨by decide, by rfl, by decide,
   (C28_restore_state x86_64 (mem_env [0x0b]) one_byte_pi one_byte_pi.unwind_info 0x200 1 9
     ⟨0x100, 0, zero_state_record, []⟩ (by decide) (by decide)).1 rfl⟩

/-! ## The CFA of a REGISTER rule -/

/-- C25: let the CFA slot of the record be REGISTER with payload `r` and stored
offset `k`, on a target whose stack-pointer column is a slot of the record. If
`r` is the stack-pointer column and the cursor's stack-pointer location is null,
the CFA computed by apply_reg_state is the cursor's existing cfa plus `k`;
otherwise it is the value unw_get_reg reads for register `r` plus `k` (and the
error of that read, if it fails); the sums are taken modulo 2^64. When
apply_reg_state succeeds, the CFA computed is the cursor's cfa. -/
theorem C25_cfa_register_rule {Loc : Type} (t : Target) (env : Env) (se : StepEnv Loc)
    (c : Cursor Loc) (rs : RegState) (r k : Nat)
    (hsp : t.TDEP_DWARF_SP < t.NUM_PRESERVED_REGS + 2)
    (h1 : rs.where_ t.CFA_REG_COLUMN = Where.REG) (h2 : rs.val t.CFA_REG_COLUMN = r)
    (h3 : rs.val t.CFA_OFF_COLUMN = k) :
    (r = t.TDEP_DWARF_SP ∧ se.L.IS_NULL_LOC (c.loc t.TDEP_DWARF_SP) = true →
      apply_cfa t se env.remote_acc c rs = Except.ok ((c.cfa + k) % 2 ^ 64)) ∧
    (¬ (r = t.TDEP_DWARF_SP ∧ se.L.IS_NULL_LOC (c.loc t.TDEP_DWARF_SP) = true) →
      apply_cfa t se env.remote_acc c rs =
        match (se.unw_get_reg c (se.dwarf_to_unw_regnum r)).ret with
        | some e => Except.error e
        | none => Except.ok (((se.unw_get_reg c (se.dwarf_to_unw_regnum r)).val + k) % 2 ^ 64)) ∧
    (∀ w, (apply_reg_state t env se c rs).ret = Except.ok w →
      apply_cfa t se env.remote_acc c rs = Except.ok (apply_reg_state t env se c rs).c.cfa) := by
  refine ⟨?_, ?_, ?_⟩
  · intro hn
    unfold apply_cfa
    rw [if_pos h1, h2, h3, if_pos ⟨hn.1, hsp, hn.2⟩]
    rfl
  · intro hn
    unfold apply_cfa
    rw [if_pos h1, h2, h3, if_neg (fun hx => hn ⟨hx.1, hx.2.2⟩)]
    rfl
  · intro w hw
    obtain ⟨cfa, nl, c2, _, hcfa, _, hip, heq⟩ := apply_reg_state_ok t env se c rs w hw
    have hg := apply_guard_cursor se c.ip c.cfa c2 rs
    have hi := apply_ip_cursor t se _ c2 rs hip
    rw [heq, hg.2.1, hi.1, hcfa]
    rfl

/-- C25 at concrete inputs: for the x86-64 record "CFA = r7 + 16", a cursor with
cfa 0x2000 whose stack pointer r7 has the null location gets cfa 0x2010, and a
cursor whose r7 lives in the register (value 0x1000) gets cfa 0x1010. -/
theorem C25_cfa_register_rule_example :
    apply_cfa x86_64 leaf_se (mem_env []).remote_acc nullsp_cursor leaf_rs = Except.ok 0x2010 ∧
    (apply_reg_state x86_64 (mem_env []) leaf_se nullsp_cursor leaf_rs).c.cfa = 0x2010 ∧
    (apply_reg_state x86_64 (mem_env []) leaf_se (leaf_cursor 0x150 0) leaf_rs).c.cfa = 0x1010 :=
  ⟨(C25_cfa_register_rule x86_64 (mem_env []) leaf_se nullsp_cursor leaf_rs 7 16 (by decide)
     (by decide) (by decide) (by decide)).1 ⟨by decide, by decide⟩,
   by rfl, by rfl⟩

/-! ## The tag of the CFA slot -/

/-- C26 (the code departs from the claim): for an empty CIE program and the FDE
program `def_cfa_offset 16; advance_loc 4; def_cfa_offset 32` (no instruction
names a CFA register), setup_fde and parse_fde both succeed on x86-64, and the
CFA-register slot of the record they produce still carries the tag SAME that
setup_fde seeds it with: it is neither REGISTER nor EXPRESSION, so the assertion
in the non-REGISTER branch of apply_reg_state does not hold for it. -/
theorem C26_cfa_slot_stays_same :
    (setup_fde x86_64 (mem_env two_slice_prog) two_slice_pi 10).map
      (fun d => (d.ret, d.sr.rs_current.where_ x86_64.CFA_REG_COLUMN)) =
      some (none, Where.SAME) ∧
    (parse_fde x86_64 (mem_env two_slice_prog) two_slice_pi 0 0x150 two_slice_setup.sr 10).map
      (fun d => (d.ret, d.sr.rs_current.where_ x86_64.CFA_REG_COLUMN,
        d.sr.rs_current.val x86_64.CFA_OFF_COLUMN)) = some (none, Where.SAME, 32) ∧
    Where.SAME ≠ Where.REG ∧ Where.SAME ≠ Where.EXPR := by
  decide

/-! ## Eviction and the collision chains -/

/-- C22 (the code departs from the claim): in a cache of two buckets, after a
flush and the insertions for ip 0 and ip 1, rs_new for ip 3 takes bucket 0 as its
victim. The victim is valid, with ip 0, and heads the chain of hash head 0; ip 3
belongs to hash head 3. rs_new tests `links[head].ip`, finds 0 and skips the
unlinking: after the call index 0 is still in hash head 0, the head of its old
ip, and also in hash head 3, the head of the new key. When the first insertion
is for ip 2 instead (same hash head 0, ip not 0), the victim is unlinked and hash
head 0 holds the sentinel. -/
theorem C22_valid_victim_not_unlinked :
    (rs_new_seq 4 flushed2 [0, 1]).map
      (fun k => (k.rr_head, (k.links 0).valid, (k.links 0).ip, k.hash (hash 0 k.log_size))) =
      some (0, true, 0, 0) ∧
    (hash 0 1 = 0 ∧ hash 2 1 = 0 ∧ hash 3 1 = 3) ∧
    (rs_new_seq 4 flushed2 [0, 1, 3]).map
      (fun k => ((k.links 0).valid, (k.links 0).ip, k.hash 3, k.hash 0)) =
      some (true, 3, 0, 0) ∧
    (rs_new_seq 4 flushed2 [2, 1, 3]).map
      (fun k => ((k.links 0).valid, (k.links 0).ip, k.hash 3, k.hash 0)) =
      some (true, 3, 0, SENTINEL) := by
  decide

/-- In the cache left by the insertions for ip 0, ip 1 and ip 2, the walk of
`rs_lookup` from index 0 never ends for an ip other than 2. -/
theorem zero_ip_cache_loop (ip : Nat) (hip : ip ≠ 2) :
    ∀ fuel, rs_lookup_loop zero_ip_cache ip fuel 0 = none := by
  have hs : (0 : Nat) < DWARF_UNW_CACHE_SIZE zero_ip_cache.log_size := by decide
  have hi : (zero_ip_cache.links 0).ip = 2 := by decide
  have hm : ¬ (cache_match zero_ip_cache 0 ip = true) := by
    unfold cache_match
    rw [hi]
    simp [hip]
  have hc : (zero_ip_cache.links 0).coll_chain = 0 := by decide
  intro fuel
  induction fuel with
  | zero =>
    simp only [rs_lookup_loop]
    rw [if_pos hs, if_neg hm]
  | succ n ih =>
    simp only [rs_lookup_loop]
    rw [if_pos hs, if_neg hm, hc]
    exact ih

/-- C30 (the code departs from the claim): the cache of two buckets that the
insertions for ip 0, ip 1 and ip 2 produce from a flushed cache has a cyclic
collision chain: hash head 0 holds index 0, and `links[0].coll_chain` is 0
again (bucket 0 held ip 0 when it was evicted, so it was not unlinked before it
was put in front of the chain it already headed). For the query ips 0 and 5,
which belong to hash head 0 and match no entry, the chain walk of rs_lookup does
not terminate: it returns with no amount of fuel. -/
theorem C30_cyclic_chain :
    (rs_new_seq 4 flushed2 [0, 1, 2]).isSome = true ∧
    zero_ip_cache.hash (hash 0 zero_ip_cache.log_size) = 0 ∧
    ((zero_ip_cache.links 0).coll_chain = 0 ∧ (zero_ip_cache.links 0).ip = 2) ∧
    (∀ n, chain_ends zero_ip_cache n 0 = false) ∧
    (∀ fuel, rs_lookup zero_ip_cache 0 0 fuel = none) ∧
    (hash 5 zero_ip_cache.log_size = 0 ∧ ∀ fuel, rs_lookup zero_ip_cache 5 0 fuel = none) := by
  refine ⟨by decide, by decide, by decide, ?_, ?_, by decide, ?_⟩
  · have hs : (0 : Nat) < DWARF_UNW_CACHE_SIZE zero_ip_cache.log_size := by decide
    have hc : (zero_ip_cache.links 0).coll_chain = 0 := by decide
    intro n
    induction n with
    | zero => simp [chain_ends, hs]
    | succ n ih =>
      simp only [chain_ends]
      rw [if_pos hs, hc]
      exact ih
  · intro fuel
    unfold rs_lookup
    rw [if_neg (by decide), show zero_ip_cache.hash (hash 0 zero_ip_cache.log_size) = 0 from by decide]
    exact zero_ip_cache_loop 0 (by decide) fuel
  · intro fuel
    unfold rs_lookup
    rw [if_neg (by decide), show zero_ip_cache.hash (hash 5 zero_ip_cache.log_size) = 0 from by decide]
    exact zero_ip_cache_loop 5 (by decide) fuel

/-! ## The arrays a flush installs -/

/-- C23 (the code departs from the claim): on x86-64 (default log_size 7),
(1) for a cache with no arrays yet and the non-default log_size 8, a flush
succeeds, installs the inline default arrays, resets log_size to 7 and leaves
prev_log_size as it was, where the claim has heap arrays of 512 hash heads and
256 buckets, log_size 8 and prev_log_size 8; get_rs_cache on an address space
whose global cache is in that state hands back that cache with log_size 7, so
the size requested is lost; (2) for a cache with log_size 7 on which heap arrays
are installed, a flush switches to the inline arrays, where the claim has fresh
heap arrays; (3) for a cache with log_size 8 on which the inline arrays are
installed, a flush does what the claim says. -/
theorem C23_flush_ignores_requested_size :
    ((dwarf_flush_rs_cache x86_64 mem_ok (fresh_cache 8)).1 = none ∧
      (fresh_cache 8).log_size = 8 ∧ (fresh_cache 8).hash_ptr = ArrPtr.null ∧
      (dwarf_flush_rs_cache x86_64 mem_ok (fresh_cache 8)).2.log_size = 7 ∧
      (dwarf_flush_rs_cache x86_64 mem_ok (fresh_cache 8)).2.prev_log_size = 0 ∧
      (dwarf_flush_rs_cache x86_64 mem_ok (fresh_cache 8)).2.hash_ptr = ArrPtr.inline ∧
      (dwarf_flush_rs_cache x86_64 mem_ok (fresh_cache 8)).2.buckets_ptr = ArrPtr.inline ∧
      (dwarf_flush_rs_cache x86_64 mem_ok (fresh_cache 8)).2.links_ptr = ArrPtr.inline) ∧
    ((get_rs_cache x86_64 mem_ok fresh_world).1 = some CacheSel.global ∧
      fresh_world.as.global_cache.log_size = 8 ∧
      (get_rs_cache x86_64 mem_ok fresh_world).2.as.global_cache.log_size = 7) ∧
    ((dwarf_flush_rs_cache x86_64 mem_ok shrunk_cache).1 = none ∧
      shrunk_cache.hash_ptr = ArrPtr.heap 512 ∧
      (dwarf_flush_rs_cache x86_64 mem_ok shrunk_cache).2.hash_ptr = ArrPtr.inline ∧
      (dwarf_flush_rs_cache x86_64 mem_ok shrunk_cache).2.prev_log_size = 8) ∧
    ((dwarf_flush_rs_cache x86_64 mem_ok (blank_cache 8)).1 = none ∧
      (dwarf_flush_rs_cache x86_64 mem_ok (blank_cache 8)).2.log_size = 8 ∧
      (dwarf_flush_rs_cache x86_64 mem_ok (blank_cache 8)).2.prev_log_size = 8 ∧
      (dwarf_flush_rs_cache x86_64 mem_ok (blank_cache 8)).2.hash_ptr = ArrPtr.heap 512 ∧
      (dwarf_flush_rs_cache x86_64 mem_ok (blank_cache 8)).2.buckets_ptr = ArrPtr.heap 256 ∧
      (dwarf_flush_rs_cache x86_64 mem_ok (blank_cache 8)).2.links_ptr = ArrPtr.heap 256) := by
  decide

/-! ## The state-record stack of the drivers -/

/-- The function `empty_rstate_stack` leaves the empty stack. -/
theorem empty_rstate_stack_nil (stk : List RegState) : empty_rstate_stack stk = [] := by
  induction stk with
  | nil => rfl
  | cons a rest ih => simpa [empty_rstate_stack] using ih

/-- C21 (the claim fails as stated): for the FDE program `remember_state;
advance_loc 4; restore_state` on x86-64, dwarf_reg_states_table_iterate calls
run_cfi_program twice, and the second call is entered with one snapshot on the
state-record stack (the first call has returned with it: the stack is shared by
the calls of the loop). Likewise the call that parse_fde makes for ip 0x102
returns success with one snapshot on the stack; parse_fde empties the stack
afterwards. -/
theorem C21_counterexample :
    table_iterate_entries x86_64 (mem_env rem_prog) rem_pi (fun _ _ => none) 10 10 rem_start =
      some [0, 1] ∧
    (dwarf_reg_states_table_iterate x86_64 (mem_env rem_prog) rem_pi (fun _ _ => none) 10).map
      (fun r => (r.1, r.2.1.length, r.2.2.length)) = some (none, 2, 0) ∧
    (rem_parse_run.ret = none ∧ rem_parse_run.st.rs_stack.length = 1) := by
  decide

/-- C21 (amended): the call of run_cfi_program that setup_fde makes and the one
that parse_fde makes are entered with the empty state-record stack, and so is
the first call of the loop of dwarf_reg_states_table_iterate (its later calls
are entered with the stack the call before has left); each of the three drivers
empties the stack after its last call, so the stack is empty when the driver
returns, on every path, error returns included. -/
theorem C21_driver_stack (t : Target) (env : Env) (pi : ProcInfo)
    (cb : List Slice → Slice → Option UnwError) (fuel : Nat) :
    (∀ d, setup_fde t env pi fuel = some d →
      d.rs_stack = [] ∧
      ∃ o, run_cfi_program t env pi (setup_fde_seed t pi.unwind_info) 0 (WORD - 1)
        pi.unwind_info.cie_instr_start pi.unwind_info.cie_instr_end [] pi.unwind_info fuel
        = some o) ∧
    (∀ use_prev_instr ip sr d, parse_fde t env pi use_prev_instr ip sr fuel = some d →
      d.rs_stack = [] ∧
      ∃ o, run_cfi_program t env pi sr pi.start_ip (wsub ip use_prev_instr)
        pi.unwind_info.fde_instr_start pi.unwind_info.fde_instr_end [] pi.unwind_info fuel
        = some o) ∧
    (∀ r, dwarf_reg_states_table_iterate t env pi cb fuel = some r → r.2.2 = []) ∧
    (∀ n ret ip addr sr out l,
      table_iterate_entries t env pi cb fuel n ⟨ret, ⟨ip, addr, sr, []⟩, out⟩ = some l →
      ∀ d, l.head? = some d → d = 0) := by
  refine ⟨?_, ?_, ?_, ?_⟩
  · intro d h
    unfold setup_fde at h
    simp only [] at h
    split at h
    · simp at h
    · rename_i o ho
      refine ⟨?_, o, ho⟩
      split at h
      · rw [← Option.some.inj h]
        exact empty_rstate_stack_nil _
      · rw [← Option.some.inj h]
        exact empty_rstate_stack_nil _
  · intro upi ip sr d h
    unfold parse_fde at h
    simp only [] at h
    split at h
    · simp at h
    · rename_i o ho
      refine ⟨?_, o, ho⟩
      rw [← Option.some.inj h]
      exact empty_rstate_stack_nil _
  · intro r h
    unfold dwarf_reg_states_table_iterate at h
    split at h
    · simp at h
    · split at h
      · simp at h
      · simp only [] at h
        generalize (if t.need_last_ip = true then pi.last_ip else pi.end_ip) = limit at h
        split at h
        · rw [← Option.some.inj h]
          exact empty_rstate_stack_nil _
        · rw [← Option.some.inj h]
          exact empty_rstate_stack_nil _
  · intro n ret ip addr sr out l h d hd
    cases n with
    | zero =>
      simp only [table_iterate_entries] at h
      split at h
      · simp at h
      · rw [← Option.some.inj h] at hd
        simp at hd
    | succ m =>
      simp only [table_iterate_entries] at h
      split at h
      · split at h
        · simp at h
        · simp only [Option.map_eq_some'] at h
          obtain ⟨l1, _, hl⟩ := h
          rw [← hl] at hd
          simp only [List.head?_cons, Option.some.injEq, List.length_nil] at hd
          exact hd.symm
      · rw [← Option.some.inj h] at hd
        simp at hd

/-- C21 (amended) at a concrete input: for the FDE program `remember_state;
advance_loc 4; restore_state` the iterator returns with the empty stack, and
parse_fde for ip 0x102, whose call of the interpreter ends with one snapshot on
the stack, returns with the empty stack too. -/
theorem C21_driver_stack_example :
    ((dwarf_reg_states_table_iterate x86_64 (mem_env rem_prog) rem_pi (fun _ _ => none) 10).getD
      (none, [], [zero_state_record.rs_current])).2.2 = [] ∧
    (parse_fde x86_64 (mem_env rem_prog) rem_pi 0 0x102 rem_start.st.sr 10).map
      (fun d => (d.ret, d.rs_stack.length)) = some (none, 0) :=
  ⟨(C21_driver_stack x86_64 (mem_env rem_prog) rem_pi (fun _ _ => none) 10).2.2.1 _ (by rfl),
   by decide⟩

/-! ## The hint chain -/

/-- The proc-info lookup and the release of the proc info leave the cursor's
`prev_rs` as it is. -/
theorem fetch_proc_info_prev_rs {Loc : Type} (t : Target) (se : StepEnv Loc) (c : Cursor Loc)
    (ip : Nat) : (put_unwind_info (fetch_proc_info t se c ip).c).prev_rs = c.prev_rs := by
  have hput : ∀ c1 : Cursor Loc, (put_unwind_info c1).prev_rs = c1.prev_rs := by
    intro c1
    unfold put_unwind_info
    split
    · rfl
    · split <;> rfl
  have hf : ∀ ret (c2 : Cursor Loc) d ip1 n,
      (fetch_finish se ret c2 d ip1 n).c.prev_rs = c2.prev_rs := by
    intro ret c2 d ip1 n
    unfold fetch_finish
    split
    · rfl
    · split <;> rfl
  rw [hput]
  unfold fetch_proc_info
  split
  · simp only []
    split
    · rfl
    · rw [hf]
  · rw [hf]

/-- The computing branch of `find_reg_state` leaves the cursor's `prev_rs` as it
is. -/
theorem find_reg_state_compute_prev_rs {Loc : Type} (t : Target) (env : Env) (se : StepEnv Loc)
    (c : Cursor Loc) (sr : StateRecord) (fuel : Nat) (m : Computed Loc)
    (h : find_reg_state_compute t env se c sr fuel = some m) : m.c.prev_rs = c.prev_rs := by
  unfold find_reg_state_compute at h
  simp only [] at h
  split at h
  · rw [← Option.some.inj h]
    exact fetch_proc_info_prev_rs t se c c.ip
  · split at h
    · simp at h
    · rw [← Option.some.inj h]
      exact fetch_proc_info_prev_rs t se c c.ip

/-- The tail of `find_reg_state` for a bucket `index` of the cache `sel`: the
cursor's `prev_rs` becomes `index`, and the hint of the entry at the cursor's
former `prev_rs` becomes `index + 1` (as an unsigned short). -/
theorem find_reg_state_hints_spec {Loc : Type} (se : StepEnv Loc) (w : World) (sel : CacheSel)
    (index : Nat) (ret : Option UnwError) (c : Cursor Loc) :
    (find_reg_state_hints se w (some sel) (some index) ret c).1.prev_rs = index ∧
    (((find_reg_state_hints se w (some sel) (some index) ret c).2.cache sel).links
      c.prev_rs).hint = (index + 1) % USHORT := by
  unfold find_reg_state_hints
  simp only [World.cache_set_cache]
  constructor
  · cases ret <;> rfl
  · simp

/-- C24: let find_reg_state succeed with the cache `sel` in use. Then it has
worked at an entry index `i`, which the lookup returned (a hit) or which was the
round-robin head at the time of the insertion (a miss); the cursor records `i`
as its new prev_rs; and the hint of the entry at the cursor's former prev_rs
holds `i + 1` as an unsigned short. When `i + 1` is in the range of that type,
this hint is positive and the probe `hint - 1` of rs_lookup reaches `i`. -/
theorem C24_hint_update {Loc : Type} (t : Target) (env : Env) (mm : MemEnv)
    (se : StepEnv Loc) (w : World) (c : Cursor Loc) (sr : StateRecord) (fuel : Nat)
    (f : FindOut Loc) (sel : CacheSel)
    (h : find_reg_state t env mm se w c sr fuel = some f) (hret : f.ret = none)
    (hsel : (get_rs_cache t mm w).1 = some sel) :
    ∃ i, f.rs = some i ∧
      (rs_lookup ((get_rs_cache t mm w).2.cache sel) c.ip c.hint fuel = some (some i) ∨
       (rs_lookup ((get_rs_cache t mm w).2.cache sel) c.ip c.hint fuel = some none ∧
        i = ((get_rs_cache t mm w).2.cache sel).rr_head)) ∧
      f.c.prev_rs = i ∧
      ((f.w.cache sel).links c.prev_rs).hint = (i + 1) % USHORT ∧
      (i + 1 < USHORT →
        0 < ((f.w.cache sel).links c.prev_rs).hint ∧
        (((f.w.cache sel).links c.prev_rs).hint - 1) % USHORT = i) := by
  have hprobe : ∀ i hint, hint = (i + 1) % USHORT → i + 1 < USHORT →
      0 < hint ∧ (hint - 1) % USHORT = i := by
    intro i hint hh hi
    rw [Nat.mod_eq_of_lt hi] at hh
    subst hh
    exact ⟨Nat.succ_pos _, by rw [Nat.add_sub_cancel, Nat.mod_eq_of_lt (by omega)]⟩
  unfold find_reg_state at h
  rw [hsel] at h
  simp only [] at h
  cases hl : rs_lookup ((get_rs_cache t mm w).2.cache sel) c.ip c.hint fuel with
  | none => simp [hl] at h
  | some res =>
    cases res with
    | some index =>
      simp only [hl] at h
      rw [← Option.some.inj h]
      unfold find_reg_state_hit
      have hs := find_reg_state_hints_spec se (get_rs_cache t mm w).2 sel index none
        { c with use_prev_instr :=
            if (((get_rs_cache t mm w).2.cache sel).links index).signal_frame then 0 else 1 }
      exact ⟨index, rfl, Or.inl rfl, hs.1, hs.2, hprobe _ _ hs.2⟩
    | none =>
      simp only [hl] at h
      unfold find_reg_state_miss at h
      split at h
      · simp at h
      · rename_i m hm
        have hp := find_reg_state_compute_prev_rs t env se c sr fuel m hm
        cases hmr : m.ret with
        | some e =>
          simp only [hmr] at h
          rw [← Option.some.inj h] at hret
          exact absurd hret (by simp)
        | none =>
          simp only [hmr] at h
          split at h
          · simp at h
          · rename_i r hr
            rw [← Option.some.inj h]
            have hs := find_reg_state_hints_spec se
              ((get_rs_cache t mm w).2.set_cache sel r.1) sel r.2 none m.c
            rw [hp] at hs
            have hrr : r.2 = ((get_rs_cache t mm w).2.cache sel).rr_head := by
              unfold find_reg_state_insert at hr
              split at hr
              · simp at hr
              · rename_i r0 hr0
                rw [← Option.some.inj hr]
                exact (rs_new_spec _ r0.1 _ _ _ r0.2 hr0).1
            exact ⟨r.2, rfl, Or.inr ⟨rfl, hrr⟩, hs.1, hs.2, hprobe _ _ hs.2⟩

/-- C24 at a concrete input: on the stale world, find_reg_state for a cursor at
0x150 with prev_rs 0 inserts at index 0; afterwards the cursor's prev_rs is 0
and the hint of entry 0 is 1. -/
theorem C24_hint_update_example :
    ((first_find no_find).ret = none ∧ (first_find no_find).rs = some 0 ∧
      (x_cursor 0x150 0 reg_pi).prev_rs = 0 ∧ (first_find no_find).c.prev_rs = 0 ∧
      (((first_find no_find).w.cache CacheSel.global).links 0).hint = 1) ∧
    ∃ i, (first_find no_find).rs = some i ∧ (first_find no_find).c.prev_rs = i ∧
      (((first_find no_find).w.cache CacheSel.global).links
        (x_cursor 0x150 0 reg_pi).prev_rs).hint = (i + 1) % USHORT :=
  ⟨by decide,
   (C24_hint_update x86_64 (mem_env reg_prog) mem_ok (x_env reg_regs (fun _ => 0) reg_pi)
     stale_world (x_cursor 0x150 0 reg_pi) zero_state_record 10 (first_find no_find)
     CacheSel.global (by rfl) (by decide) (by decide)).elim
     (fun i hi => ⟨i, hi.1, hi.2.2.1, hi.2.2.2.1⟩)⟩

/-! ## Progress of the byte cursor -/

/-- A reader call that moves the byte cursor beyond `A`, followed by a
continuation that fails or stays beyond `A`, fails or stays beyond `A`. -/
theorem rd_then_gt (r : Rd) (s : Cfi) (k : Nat → Cfi → Outcome) (A : Nat)
    (hr : r.ret = none → A < r.addr)
    (hk : ∀ v s1, A < s1.addr → (k v s1).ret ≠ none ∨ A < (k v s1).st.addr) :
    (rd_then r s k).ret ≠ none ∨ A < (rd_then r s k).st.addr := by
  unfold rd_then
  split
  · left; simp [Outcome.fail]
  · rename_i h
    exact hk _ _ (hr h)

/-- The register-number reader over advancing accessors advances. -/
theorem read_regnum_adv (t : Target) (a : Accessors) (ha : a.advancing) (x : Nat) :
    (read_regnum t a x).ret = none → x < (read_regnum t a x).addr := by
  intro h
  unfold read_regnum at h ⊢
  cases hr : (a.dwarf_read_uleb128 x).ret with
  | some e => simp [hr] at h
  | none =>
    simp only [hr] at h ⊢
    split
    · rename_i hge; simp [hge] at h
    · exact ha.2.2.2.2.1 x hr

/-- Over advancing accessors, every case of the switch other than the three with
an expression block fails or leaves the byte cursor beyond `A`, if it was beyond
`A` after the opcode byte. -/
theorem cfi_case_gt (t : Target) (env : Env) (a : Accessors) (pi : ProcInfo)
    (dci : CieInfo) (op : dwarf_cfa_t) (operand : Nat) (s : Cfi) (A : Nat)
    (ha : a.advancing) (hs : A < s.addr) (hx : is_expr_opcode op = false) :
    (cfi_case t env a pi dci op operand s).ret ≠ none ∨
    A < (cfi_case t env a pi dci op operand s).st.addr := by
  have hreg := read_regnum_adv t a ha
  obtain ⟨h8, h16, h32, h64, hu, hsl, hp⟩ := ha
  cases op <;> simp only [cfi_case, Outcome.cont, Outcome.fail] <;>
    first
    | (exfalso; simp [is_expr_opcode] at hx; done)
    | skip
  all_goals
    repeat' (first
      | (apply rd_then_gt _ _ _ A (by
          intro hh0
          first
          | exact lt_trans (by assumption) (h8 _ hh0)
          | exact lt_trans (by assumption) (h16 _ hh0)
          | exact lt_trans (by assumption) (h32 _ hh0)
          | exact lt_trans (by assumption) (h64 _ hh0)
          | exact lt_trans (by assumption) (hu _ hh0)
          | exact lt_trans (by assumption) (hsl _ hh0)
          | exact lt_trans (by assumption) (hreg _ hh0)); intro _ _ hh)
      | split)
  all_goals first
    | (right; assumption)
    | (left; simp; done)
    | (right; exact lt_trans hs (hp _ _ _ (by assumption)))

/-- Over advancing accessors, a case of the switch with an expression block that
succeeds leaves the byte cursor at the end of the length prefix plus the length
read, modulo 2^64; the end of the prefix is beyond `A` if the byte cursor was
beyond `A` after the opcode byte. -/
theorem cfi_case_expr (t : Target) (env : Env) (a : Accessors) (pi : ProcInfo)
    (dci : CieInfo) (op : dwarf_cfa_t) (operand : Nat) (s : Cfi) (A : Nat)
    (ha : a.advancing) (hs : A < s.addr) (hx : is_expr_opcode op = true)
    (hret : (cfi_case t env a pi dci op operand s).ret = none) :
    A < (expr_block_len t a op s.addr).addr ∧
    (cfi_case t env a pi dci op operand s).st.addr =
      wadd (expr_block_len t a op s.addr).addr (expr_block_len t a op s.addr).val := by
  have hreg := read_regnum_adv t a ha
  have hu := ha.2.2.2.2.1
  cases op <;> first
    | (exfalso; simp [is_expr_opcode] at hx; done)
    | skip
  · simp only [cfi_case, rd_then, expr_block_len] at hret ⊢
    cases hr : (a.dwarf_read_uleb128 s.addr).ret with
    | some e => simp [hr, Outcome.fail] at hret
    | none =>
      simp only [hr, Outcome.cont]
      exact ⟨lt_trans hs (hu _ hr), trivial⟩
  · simp only [cfi_case, rd_then, expr_block_len] at hret ⊢
    cases hr : (read_regnum t a s.addr).ret with
    | some e => simp [hr, Outcome.fail] at hret
    | none =>
      simp only [hr] at hret ⊢
      cases hr2 : (a.dwarf_read_uleb128 (read_regnum t a s.addr).addr).ret with
      | some e => simp [hr2, Outcome.fail] at hret
      | none =>
        simp only [hr2, Outcome.cont]
        exact ⟨lt_trans (lt_trans hs (hreg _ hr)) (hu _ hr2), trivial⟩
  · simp only [cfi_case, rd_then, expr_block_len] at hret ⊢
    cases hr : (read_regnum t a s.addr).ret with
    | some e => simp [hr, Outcome.fail] at hret
    | none =>
      simp only [hr] at hret ⊢
      cases hr2 : (a.dwarf_read_uleb128 (read_regnum t a s.addr).addr).ret with
      | some e => simp [hr2, Outcome.fail] at hret
      | none =>
        simp only [hr2, Outcome.cont]
        exact ⟨lt_trans (lt_trans hs (hreg _ hr)) (hu _ hr2), trivial⟩

/-- Over advancing accessors, an iteration of the loop that succeeds moves the
byte cursor forward, or executes an opcode with an expression block and leaves
the byte cursor at the end of the length prefix plus the length read, modulo
2^64. -/
theorem cfi_step_progress (t : Target) (env : Env) (pi : ProcInfo) (dci : CieInfo)
    (ha : (select_acc env pi).advancing) (s : Cfi)
    (hret : (cfi_step t env pi dci s).ret = none) :
    s.addr < (cfi_step t env pi dci s).st.addr ∨
    ∃ b k, opcode_at env pi s b ∧ switch_opcode b = some k ∧ is_expr_opcode k = true ∧
      s.addr < (expr_block_len t (select_acc env pi) k
        ((select_acc env pi).dwarf_readu8 s.addr).addr).addr ∧
      (cfi_step t env pi dci s).st.addr =
        wadd (expr_block_len t (select_acc env pi) k
          ((select_acc env pi).dwarf_readu8 s.addr).addr).addr
          (expr_block_len t (select_acc env pi) k
            ((select_acc env pi).dwarf_readu8 s.addr).addr).val := by
  cases hr : ((select_acc env pi).dwarf_readu8 s.addr).ret with
  | some e =>
    have : (cfi_step t env pi dci s).ret = some e := by
      simp [cfi_step, rd_then, hr, Outcome.fail]
    rw [this] at hret
    exact absurd hret (by simp)
  | none =>
    have ho : opcode_at env pi s (((select_acc env pi).dwarf_readu8 s.addr).val % 2 ^ 8) :=
      ⟨hr, rfl⟩
    have hs1 := ha.1 s.addr hr
    rw [cfi_step_of_opcode t env pi dci s _ ho] at hret ⊢
    simp only [] at hret ⊢
    cases hd : switch_opcode (((select_acc env pi).dwarf_readu8 s.addr).val % 2 ^ 8) with
    | none =>
      left
      unfold switch_opcode at hd
      simp only [hd]
      exact hs1
    | some k =>
      have hd0 := hd
      unfold switch_opcode at hd
      simp only [hd] at hret ⊢
      cases hx : is_expr_opcode k with
      | true =>
        right
        have he := cfi_case_expr t env (select_acc env pi) pi dci k _
          { s with addr := ((select_acc env pi).dwarf_readu8 s.addr).addr } s.addr ha hs1 hx hret
        exact ⟨_, k, ho, hd0, hx, he.1, he.2⟩
      | false =>
        left
        rcases cfi_case_gt t env (select_acc env pi) pi dci k _
          { s with addr := ((select_acc env pi).dwarf_readu8 s.addr).addr } s.addr ha hs1 hx
          with h1 | h1
        · exact absurd hret h1
        · exact h1

/-- If every successful iteration moves the byte cursor forward, the loop of
`run_cfi_program` returns after at most `end_addr - addr` iterations. -/
theorem run_cfi_loop_terminates (t : Target) (env : Env) (pi : ProcInfo) (dci : CieInfo)
    (end_ip end_addr : Nat)
    (hinc : ∀ s : Cfi, s.addr < end_addr → (cfi_step t env pi dci s).ret = none →
      s.addr < (cfi_step t env pi dci s).st.addr) :
    ∀ (fuel : Nat) (s : Cfi), end_addr - s.addr ≤ fuel →
      ∃ o, run_cfi_loop t env pi dci end_ip end_addr fuel s = some o := by
  intro fuel
  induction fuel with
  | zero =>
    intro s hf
    simp only [run_cfi_loop]
    rw [if_neg (by omega)]
    exact ⟨_, rfl⟩
  | succ n ih =>
    intro s hf
    simp only [run_cfi_loop]
    by_cases hc : s.ip ≤ end_ip ∧ s.addr < end_addr
    · rw [if_pos hc]
      cases hr : (cfi_step t env pi dci s).ret with
      | some e => exact ⟨_, rfl⟩
      | none =>
        simp only []
        have := hinc s hc.2 hr
        exact ih _ (by omega)
    · rw [if_neg hc]
      exact ⟨_, rfl⟩

/-- The iteration that decodes `DW_CFA_def_cfa_expression` with a block of `len`
bytes. -/
theorem cfi_step_def_cfa_expression (t : Target) (env : Env) (pi : ProcInfo) (dci : CieInfo)
    (s : Cfi) (len a1 a2 : Nat)
    (h0 : (select_acc env pi).dwarf_readu8 s.addr = ⟨none, 0x0f, a1⟩)
    (h1 : (select_acc env pi).dwarf_read_uleb128 a1 = ⟨none, len, a2⟩) :
    cfi_step t env pi dci s =
      Outcome.cont { s with addr := wadd a2 len,
                            sr := set_reg s.sr t.CFA_REG_COLUMN Where.EXPR a1 } := by
  have hd : decode_cfa 0x0f = some DW_CFA_def_cfa_expression := by decide
  have hm : (0x0f : Nat) &&& DWARF_CFA_OPCODE_MASK = 0 := by decide
  rw [cfi_step_of_opcode t env pi dci s 0x0f ⟨by rw [h0], by rw [h0]; rfl⟩]
  simp only [hm, ne_eq, not_true_eq_false, if_false]
  rw [hd]
  simp only [cfi_case, rd_then, h0, h1]

/-- The return code, the byte cursor and the location counter after the
iteration that decodes `DW_CFA_def_cfa_expression` with a block of `len` bytes. -/
theorem cfi_step_def_cfa_expression_fields (t : Target) (env : Env) (pi : ProcInfo)
    (dci : CieInfo) (s : Cfi) (len a1 a2 : Nat)
    (h0 : (select_acc env pi).dwarf_readu8 s.addr = ⟨none, 0x0f, a1⟩)
    (h1 : (select_acc env pi).dwarf_read_uleb128 a1 = ⟨none, len, a2⟩) :
    (cfi_step t env pi dci s).ret = none ∧
    (cfi_step t env pi dci s).st.addr = wadd a2 len ∧
    (cfi_step t env pi dci s).st.ip = s.ip := by
  rw [cfi_step_def_cfa_expression t env pi dci s len a1 a2 h0 h1]
  exact ⟨rfl, rfl, rfl⟩

/-- On `wrap_prog`, an iteration that starts at byte 0 succeeds and ends at byte
0, with the location counter it started with. -/
theorem wrap_step (s : Cfi) (hs : s.addr = 0) :
    (cfi_step x86_64 (mem_env wrap_prog) wrap_pi wrap_pi.unwind_info s).ret = none ∧
    (cfi_step x86_64 (mem_env wrap_prog) wrap_pi wrap_pi.unwind_info s).st.addr = 0 ∧
    (cfi_step x86_64 (mem_env wrap_prog) wrap_pi wrap_pi.unwind_info s).st.ip = s.ip := by
  have h0 : (select_acc (mem_env wrap_prog) wrap_pi).dwarf_readu8 s.addr = ⟨none, 0x0f, 1⟩ := by
    rw [hs]; rfl
  have h1 : (select_acc (mem_env wrap_prog) wrap_pi).dwarf_read_uleb128 1 =
      ⟨none, 2 ^ 64 - 11, 11⟩ := by rfl
  have h2 : wadd 11 (2 ^ 64 - 11) = 0 := by decide
  have h := cfi_step_def_cfa_expression_fields x86_64 (mem_env wrap_prog) wrap_pi
    wrap_pi.unwind_info s (2 ^ 64 - 11) 1 11 h0 h1
  exact ⟨h.1, h.2.1.trans h2, h.2.2⟩

/-- On `wrap_prog`, the loop of `run_cfi_program` started at byte 0 returns with
no amount of fuel. -/
theorem wrap_loop : ∀ (fuel : Nat) (s : Cfi), s.addr = 0 → s.ip ≤ 0x200 →
    run_cfi_loop x86_64 (mem_env wrap_prog) wrap_pi wrap_pi.unwind_info 0x200 11 fuel s = none := by
  intro fuel
  induction fuel with
  | zero =>
    intro s hs hip
    simp only [run_cfi_loop]
    rw [if_pos ⟨hip, by omega⟩]
  | succ n ih =>
    intro s hs hip
    have hw := wrap_step s hs
    simp only [run_cfi_loop]
    rw [if_pos ⟨hip, by omega⟩]
    simp only [hw.1]
    exact ih _ hw.2.1 (by rw [hw.2.2]; exact hip)

/-- C29 (the code departs from the claim): over the eleven bytes `0f f5 ff ff
ff ff ff ff ff ff 01` (def_cfa_expression with the block length 2^64 - 11) on
x86-64 with `end_addr = 11`, the iteration that starts at byte 0 completes
without error and leaves the byte cursor at (11 + 2^64 - 11) mod 2^64 = 0, not
beyond where it started: `*addr += len` is executed without a check of `len`.
The loop of run_cfi_program executes that instruction again and again and does
not terminate, where the claim allows it at most 11 iterations: the model
returns with no amount of fuel. -/
theorem C29_block_length_wraps_cursor :
    ((cfi_step x86_64 (mem_env wrap_prog) wrap_pi wrap_pi.unwind_info wrap_start).ret = none ∧
      wrap_start.addr = 0 ∧
      (cfi_step x86_64 (mem_env wrap_prog) wrap_pi wrap_pi.unwind_info wrap_start).st.addr = 0) ∧
    (∀ fuel, run_cfi_program x86_64 (mem_env wrap_prog) wrap_pi zero_state_record 0x100 0x200 0 11
      [] wrap_pi.unwind_info fuel = none) := by
  refine ⟨by decide, ?_⟩
  intro fuel
  exact wrap_loop fuel _ rfl (by decide)

/-- A successful byte read of a memory of fewer than 2^64 bytes moves the byte
cursor one byte forward. -/
theorem mem_readu8_adv (m : List Nat) (hm : m.length < WORD) (x : Nat) :
    (mem_readu8 m x).ret = none → x < (mem_readu8 m x).addr := by
  unfold mem_readu8
  cases h : m.get? x with
  | none => simp
  | some b =>
    intro _
    have hx : x < m.length := by
      by_contra hc
      rw [List.get?_eq_none.mpr (by omega)] at h
      exact absurd h (by simp)
    show x < (x + 1) % WORD
    rw [Nat.mod_eq_of_lt (by omega)]
    exact Nat.lt_succ_self x

/-- A successful little-endian read of at least one byte moves the byte cursor
forward. -/
theorem mem_readle_adv (m : List Nat) (hm : m.length < WORD) :
    ∀ (n x : Nat), (mem_readle m (n + 1) x).ret = none → x < (mem_readle m (n + 1) x).addr := by
  intro n
  induction n with
  | zero =>
    intro x h
    simp only [mem_readle] at h ⊢
    cases hb : (mem_readu8 m x).ret with
    | some e => simp [hb] at h
    | none =>
      simp only [hb]
      exact mem_readu8_adv m hm x hb
  | succ n ih =>
    intro x h
    rw [mem_readle] at h ⊢
    cases hb : (mem_readu8 m x).ret with
    | some e => simp [hb] at h
    | none =>
      simp only [hb] at h ⊢
      exact lt_trans (mem_readu8_adv m hm x hb) (ih _ h)

/-- A successful ULEB128 read moves the byte cursor forward. -/
theorem mem_read_uleb128_adv (m : List Nat) (hm : m.length < WORD) :
    ∀ (n x v sh : Nat), (mem_read_uleb128 m n x v sh).ret = none →
      x < (mem_read_uleb128 m n x v sh).addr := by
  intro n
  induction n with
  | zero =>
    intro x v sh h
    simp [mem_read_uleb128] at h
  | succ n ih =>
    intro x v sh h
    rw [mem_read_uleb128] at h ⊢
    cases hb : (mem_readu8 m x).ret with
    | some e => simp [hb] at h
    | none =>
      simp only [hb] at h ⊢
      split
      · rename_i hc
        rw [if_pos hc] at h
        exact lt_trans (mem_readu8_adv m hm x hb) (ih _ _ _ h)
      · exact mem_readu8_adv m hm x hb

/-- A successful SLEB128 read moves the byte cursor forward. -/
theorem mem_read_sleb128_adv (m : List Nat) (hm : m.length < WORD) :
    ∀ (n x v sh : Nat), (mem_read_sleb128 m n x v sh).ret = none →
      x < (mem_read_sleb128 m n x v sh).addr := by
  intro n
  induction n with
  | zero =>
    intro x v sh h
    simp [mem_read_sleb128] at h
  | succ n ih =>
    intro x v sh h
    rw [mem_read_sleb128] at h ⊢
    cases hb : (mem_readu8 m x).ret with
    | some e => simp [hb] at h
    | none =>
      simp only [hb] at h ⊢
      split
      · rename_i hc
        rw [if_pos hc] at h
        exact lt_trans (mem_readu8_adv m hm x hb) (ih _ _ _ h)
      · split <;> exact mem_readu8_adv m hm x hb

/-- The accessors of a memory of fewer than 2^64 bytes advance. -/
theorem mem_acc_advancing (m : List Nat) (hm : m.length < WORD) : (mem_acc m).advancing :=
  ⟨mem_readu8_adv m hm, mem_readle_adv m hm 1, mem_readle_adv m hm 3, mem_readle_adv m hm 7,
   fun x => mem_read_uleb128_adv m hm 10 x 0 0, fun x => mem_read_sleb128_adv m hm 10 x 0 0,
   fun _ _ x => mem_readle_adv m hm 7 x⟩

/-- Where the byte cursor does move forward: over accessors that advance the
byte cursor on every successful read, an iteration of the loop of
run_cfi_program that completes without error leaves the byte cursor strictly
greater than it was, unless it executes def_cfa_expression, expression or
val_expression with a block length that carries the byte cursor to or beyond
2^64 (the cursor is then the sum modulo 2^64); and when no instruction below
`end_addr` has such a block, the loop returns after at most `end_addr - addr`
iterations. -/
theorem byte_cursor_progress (t : Target) (env : Env) (pi : ProcInfo) (dci : CieInfo)
    (ha : (select_acc env pi).advancing) :
    (∀ s : Cfi, (cfi_step t env pi dci s).ret = none →
      s.addr < (cfi_step t env pi dci s).st.addr ∨
      ∃ b k, opcode_at env pi s b ∧ switch_opcode b = some k ∧ is_expr_opcode k = true ∧
        WORD ≤ (expr_block_len t (select_acc env pi) k
            ((select_acc env pi).dwarf_readu8 s.addr).addr).addr +
          (expr_block_len t (select_acc env pi) k
            ((select_acc env pi).dwarf_readu8 s.addr).addr).val ∧
        (cfi_step t env pi dci s).st.addr =
          ((expr_block_len t (select_acc env pi) k
              ((select_acc env pi).dwarf_readu8 s.addr).addr).addr +
            (expr_block_len t (select_acc env pi) k
              ((select_acc env pi).dwarf_readu8 s.addr).addr).val) % 2 ^ 64) ∧
    (∀ end_ip end_addr : Nat,
      (∀ (s : Cfi) b k, s.addr < end_addr → opcode_at env pi s b → switch_opcode b = some k →
        is_expr_opcode k = true →
        (expr_block_len t (select_acc env pi) k
            ((select_acc env pi).dwarf_readu8 s.addr).addr).addr +
          (expr_block_len t (select_acc env pi) k
            ((select_acc env pi).dwarf_readu8 s.addr).addr).val < WORD) →
      ∀ (fuel : Nat) (s : Cfi), end_addr - s.addr ≤ fuel →
        ∃ o, run_cfi_loop t env pi dci end_ip end_addr fuel s = some o) := by
  have h1 : ∀ s : Cfi, (cfi_step t env pi dci s).ret = none →
      s.addr < (cfi_step t env pi dci s).st.addr ∨
      ∃ b k, opcode_at env pi s b ∧ switch_opcode b = some k ∧ is_expr_opcode k = true ∧
        WORD ≤ (expr_block_len t (select_acc env pi) k
            ((select_acc env pi).dwarf_readu8 s.addr).addr).addr +
          (expr_block_len t (select_acc env pi) k
            ((select_acc env pi).dwarf_readu8 s.addr).addr).val ∧
        (cfi_step t env pi dci s).st.addr =
          ((expr_block_len t (select_acc env pi) k
              ((select_acc env pi).dwarf_readu8 s.addr).addr).addr +
            (expr_block_len t (select_acc env pi) k
              ((select_acc env pi).dwarf_readu8 s.addr).addr).val) % 2 ^ 64 := by
    intro s hret
    rcases cfi_step_progress t env pi dci ha s hret with hp | ⟨b, k, ho, hk, hx, hlt, heq⟩
    · exact Or.inl hp
    · by_cases hw : (expr_block_len t (select_acc env pi) k
            ((select_acc env pi).dwarf_readu8 s.addr).addr).addr +
          (expr_block_len t (select_acc env pi) k
            ((select_acc env pi).dwarf_readu8 s.addr).addr).val < WORD
      · left
        rw [heq]
        unfold wadd
        rw [Nat.mod_eq_of_lt hw]
        omega
      · exact Or.inr ⟨b, k, ho, hk, hx, by omega, heq⟩
  refine ⟨h1, ?_⟩
  intro end_ip end_addr hnw
  apply run_cfi_loop_terminates
  intro s hlt hret
  rcases h1 s hret with hp | ⟨b, k, ho, hk, hx, hw, _⟩
  · exact hp
  · have := hnw s b k hlt ho hk hx
    omega

/-- An opcode byte read from the memory `m` is one of its bytes. -/
theorem mem_opcode_mem (m : List Nat) (pi : ProcInfo) (s : Cfi) (b : Nat)
    (h : opcode_at (mem_env m) pi s b) : ∃ x, x ∈ m ∧ b = x % 256 % 2 ^ 8 := by
  obtain ⟨h1, h2⟩ := h
  have hsel : select_acc (mem_env m) pi = mem_acc m := by
    unfold select_acc mem_env
    split <;> rfl
  rw [hsel] at h1 h2
  change (mem_readu8 m s.addr).ret = none at h1
  change (mem_readu8 m s.addr).val % 2 ^ 8 = b at h2
  unfold mem_readu8 at h1 h2
  cases hg : m.get? s.addr with
  | none =>
    rw [hg] at h1
    exact absurd h1 (fun h => by cases h)
  | some x =>
    rw [hg] at h2
    exact ⟨x, List.get?_mem hg, h2.symm⟩

/-- No byte of `plain_prog` is an opcode with an expression block. -/
theorem plain_prog_no_expr (s : Cfi) (b : Nat) (k : dwarf_cfa_t)
    (ho : opcode_at (mem_env plain_prog) plain_pi s b) (hk : switch_opcode b = some k) :
    is_expr_opcode k = false := by
  have hall : ∀ x ∈ plain_prog,
      (switch_opcode (x % 256 % 2 ^ 8)).map is_expr_opcode ≠ some true := by decide
  obtain ⟨x, hx, hb⟩ := mem_opcode_mem plain_prog plain_pi s b ho
  have := hall x hx
  rw [← hb, hk] at this
  cases hx2 : is_expr_opcode k with
  | false => rfl
  | true => simp [hx2] at this

/-- The progress of the byte cursor at a concrete input: over the five bytes of
`def_cfa_offset 32; advance_loc 4; def_cfa_offset 48`, which hold no expression
block, the loop of run_cfi_program started at byte 0 returns with 5 units of
fuel; its first iteration moves the byte cursor from 0 to 2. -/
theorem byte_cursor_progress_example :
    (cfi_step x86_64 (mem_env plain_prog) plain_pi plain_pi.unwind_info
      ⟨0x100, 0, zero_state_record, []⟩).st.addr = 2 ∧
    ∃ o, run_cfi_loop x86_64 (mem_env plain_prog) plain_pi plain_pi.unwind_info 0x200 5 5
      ⟨0x100, 0, zero_state_record, []⟩ = some o :=
  ⟨by decide,
   (byte_cursor_progress x86_64 (mem_env plain_prog) plain_pi plain_pi.unwind_info
     (mem_acc_advancing plain_prog (by decide))).2 0x200 5
     (fun s b k _ ho hk hx =>
       absurd hx (by rw [plain_prog_no_expr s b k ho hk]; exact Bool.false_ne_true))
     5 ⟨0x100, 0, zero_state_record, []⟩ (by decide)⟩

/-! ## The slices of the iterator -/

/-- A tiling is extended by a non-empty slice that begins where it ends. -/
theorem tiles_append (rs : RegState) :
    ∀ (out : List Slice) (a b c : Nat), tiles a out b → b < c →
      tiles a (out ++ [⟨rs, b, c⟩]) c := by
  intro out
  induction out with
  | nil =>
    intro a b c h hbc
    simp only [tiles] at h
    subst h
    exact ⟨rfl, hbc, rfl⟩
  | cons sl rest ih =>
    intro a b c h hbc
    obtain ⟨h1, h2, h3⟩ := h
    exact ⟨h1, h2, ih _ _ _ h3 hbc⟩

/-- What a tiling says of the slices one by one: all are non-empty, the first
begins at `a`, consecutive ones are adjacent, the last ends at `b`, and `a <= b`. -/
theorem tiles_spec :
    ∀ (out : List Slice) (a b : Nat), tiles a out b →
      (∀ sl ∈ out, sl.prev_ip < sl.curr_ip) ∧
      (∀ sl, out.head? = some sl → sl.prev_ip = a) ∧
      (∀ i x y, out.get? i = some x → out.get? (i + 1) = some y → y.prev_ip = x.curr_ip) ∧
      (∀ sl, out.getLast? = some sl → sl.curr_ip = b) ∧
      a ≤ b := by
  intro out
  induction out with
  | nil =>
    intro a b h
    simp only [tiles] at h
    subst h
    refine ⟨?_, ?_, ?_, ?_, Nat.le_refl _⟩
    · intro sl hsl; simp at hsl
    · intro sl hsl; simp at hsl
    · intro i x y hx; simp at hx
    · intro sl hsl; simp at hsl
  | cons sl rest ih =>
    intro a b h
    obtain ⟨h1, h2, h3⟩ := h
    obtain ⟨i1, i2, i3, i4, i5⟩ := ih _ _ h3
    refine ⟨?_, ?_, ?_, ?_, by omega⟩
    · intro x hx
      rcases List.mem_cons.mp hx with hx | hx
      · rw [hx]; exact h2
      · exact i1 x hx
    · intro x hx
      simp only [List.head?_cons, Option.some.injEq] at hx
      rw [← hx]; exact h1
    · intro i x y hx hy
      cases i with
      | zero =>
        simp only [List.get?_cons_zero, Option.some.injEq] at hx
        simp only [List.get?_cons_succ] at hy
        rw [← hx]
        cases rest with
        | nil => simp at hy
        | cons z more =>
          simp only [List.get?_cons_zero, Option.some.injEq] at hy
          rw [← hy]
          exact h3.1
      | succ j =>
        simp only [List.get?_cons_succ] at hx hy
        exact i3 j x y hx hy
    · intro x hx
      cases rest with
      | nil =>
        simp only [List.getLast?_singleton, Option.some.injEq] at hx
        simp only [tiles] at h3
        rw [← hx]; exact h3
      | cons z more =>
        rw [List.getLast?_cons_cons] at hx
        exact i4 x hx

/-- A run of the interpreter up to a bound below `end_ip`, started in a state
the FDE program reaches from `s0`, ends (if it succeeds) in a state the program
reaches from `s0`, with a location counter that is not below the one it started
with, provided the location counter never decreases along the program. -/
theorem run_cfi_loop_mono (t : Target) (env : Env) (pi : ProcInfo) (s0 : Cfi) (E : Nat)
    (hE : E < pi.end_ip)
    (hmono : ∀ n s, cfi_iter t env pi pi.unwind_info n s0 = some s → s.ip < pi.end_ip →
      s.addr < pi.unwind_info.fde_instr_end →
      (cfi_step t env pi pi.unwind_info s).ret = none →
      s.ip ≤ (cfi_step t env pi pi.unwind_info s).st.ip) :
    ∀ (fuel : Nat) (s : Cfi) (o : Outcome),
      (∃ n, cfi_iter t env pi pi.unwind_info n s0 = some s) →
      run_cfi_loop t env pi pi.unwind_info E pi.unwind_info.fde_instr_end fuel s = some o →
      o.ret = none →
      (∃ n, cfi_iter t env pi pi.unwind_info n s0 = some o.st) ∧ s.ip ≤ o.st.ip := by
  intro fuel
  induction fuel with
  | zero =>
    intro s o hs h hr
    simp only [run_cfi_loop] at h
    split at h
    · simp at h
    · rw [← Option.some.inj h]
      exact ⟨hs, Nat.le_refl _⟩
  | succ k ih =>
    intro s o hs h hr
    simp only [run_cfi_loop] at h
    split at h
    · rename_i hc
      cases hret : (cfi_step t env pi pi.unwind_info s).ret with
      | some e =>
        simp only [hret] at h
        rw [← Option.some.inj h, hret] at hr
        exact absurd hr (by simp)
      | none =>
        simp only [hret] at h
        obtain ⟨n, hn⟩ := hs
        have h1 := hmono n s hn (by omega) hc.2 hret
        have hn1 : cfi_iter t env pi pi.unwind_info (n + 1) s0 =
            some (cfi_step t env pi pi.unwind_info s).st := by
          simp only [cfi_iter, hn, hret, if_true]
        obtain ⟨i1, i2⟩ := ih _ o ⟨n + 1, hn1⟩ h hr
        exact ⟨i1, Nat.le_trans h1 i2⟩
    · rw [← Option.some.inj h]
      exact ⟨hs, Nat.le_refl _⟩

/-- The loop of the iterator stops at once when the return code is negative. -/
theorem table_iterate_loop_stop (t : Target) (env : Env) (pi : ProcInfo)
    (cb : List Slice → Slice → Option UnwError) (fuel n : Nat) (x xf : IterSt)
    (hx : x.ret ≠ none) (h : table_iterate_loop t env pi cb fuel n x = some xf) : xf = x := by
  cases n with
  | zero =>
    simp only [table_iterate_loop] at h
    rw [if_neg (fun hc => hx hc.1)] at h
    exact (Option.some.inj h).symm
  | succ m =>
    simp only [table_iterate_loop] at h
    rw [if_neg (fun hc => hx hc.1)] at h
    exact (Option.some.inj h).symm

/-- The loop of the iterator ends where its condition fails. -/
theorem table_iterate_loop_exit (t : Target) (env : Env) (pi : ProcInfo)
    (cb : List Slice → Slice → Option UnwError) (fuel : Nat) :
    ∀ (n : Nat) (x xf : IterSt), table_iterate_loop t env pi cb fuel n x = some xf →
      ¬ (xf.ret = none ∧ xf.st.ip < pi.end_ip ∧ xf.st.addr < pi.unwind_info.fde_instr_end) := by
  intro n
  induction n with
  | zero =>
    intro x xf h
    simp only [table_iterate_loop] at h
    split at h
    · simp at h
    · rename_i hc
      rw [← Option.some.inj h]
      exact hc
  | succ n ih =>
    intro x xf h
    simp only [table_iterate_loop] at h
    split at h
    · split at h
      · simp at h
      · split at h
        · exact ih _ _ h
        · exact ih _ _ h
    · rename_i hc
      rw [← Option.some.inj h]
      exact hc

/-- The loop of the iterator keeps the slices reported so far a tiling from `a`
to the current location counter, provided the location counter never decreases
along the program. -/
theorem table_iterate_loop_tiles (t : Target) (env : Env) (pi : ProcInfo)
    (cb : List Slice → Slice → Option UnwError) (fuel : Nat) (s0 : Cfi) (a : Nat)
    (hmono : ∀ n s, cfi_iter t env pi pi.unwind_info n s0 = some s → s.ip < pi.end_ip →
      s.addr < pi.unwind_info.fde_instr_end →
      (cfi_step t env pi pi.unwind_info s).ret = none →
      s.ip ≤ (cfi_step t env pi pi.unwind_info s).st.ip) :
    ∀ (n : Nat) (x xf : IterSt), table_iterate_loop t env pi cb fuel n x = some xf →
      xf.ret = none → (∃ k, cfi_iter t env pi pi.unwind_info k s0 = some x.st) →
      tiles a x.out x.st.ip → tiles a xf.out xf.st.ip := by
  intro n
  induction n with
  | zero =>
    intro x xf h hret hx ht
    simp only [table_iterate_loop] at h
    split at h
    · simp at h
    · rw [← Option.some.inj h]
      exact ht
  | succ n ih =>
    intro x xf h hret hx ht
    simp only [table_iterate_loop] at h
    split at h
    · rename_i hc
      split at h
      · simp at h
      · rename_i o ho
        have hrun : run_cfi_loop t env pi pi.unwind_info x.st.ip pi.unwind_info.fde_instr_end
            fuel x.st = some o := ho
        by_cases hor : o.ret = none
        · obtain ⟨hreach, hle⟩ :=
            run_cfi_loop_mono t env pi s0 x.st.ip hc.2.1 hmono fuel x.st o hx hrun hor
          split at h
          · rename_i hc2
            exact ih _ xf h hret hreach (tiles_append _ _ _ _ _ ht hc2.2)
          · rename_i hc2
            have heq : o.st.ip = x.st.ip := by
              have : ¬ (x.st.ip < o.st.ip) := fun hlt => hc2 ⟨hor, hlt⟩
              omega
            refine ih ⟨o.ret, o.st, x.out⟩ xf h hret hreach ?_
            show tiles a x.out o.st.ip
            rw [heq]
            exact ht
        · rw [if_neg (fun hc2 => hor hc2.1)] at h
          have := table_iterate_loop_stop t env pi cb fuel n ⟨o.ret, o.st, x.out⟩ xf hor h
          rw [this] at hret
          exact absurd hret hor
    · rw [← Option.some.inj h]
      exact ht

/-- C27: let the location counter never decrease along the FDE program (every
iteration of the interpreter loop that the program reaches from its start, below
`end_ip` and within the FDE bytes, leaves `ip` at least as large as it found
it), let `last_ip` be at or after `end_ip` on a target that reports up to
`last_ip`, and let dwarf_reg_states_table_iterate succeed. Then the intervals
passed to the callback are non-empty, the first begins at `start_ip`, each later
one begins where the one before it ended, and the last one ends at or after
`end_ip`: the slices tile the interval from `start_ip` to a point `e` at or
after `end_ip` without gap or overlap (with no slice at all, the procedure is
empty). -/
theorem C27_slices_tile (t : Target) (env : Env) (pi : ProcInfo)
    (cb : List Slice → Slice → Option UnwError) (fuel : Nat)
    (r : Option UnwError × List Slice × List RegState)
    (hmono : ∀ d n s, setup_fde t env pi fuel = some d →
      cfi_iter t env pi pi.unwind_info n
        ⟨pi.start_ip, pi.unwind_info.fde_instr_start, d.sr, []⟩ = some s →
      s.ip < pi.end_ip → s.addr < pi.unwind_info.fde_instr_end →
      (cfi_step t env pi pi.unwind_info s).ret = none →
      s.ip ≤ (cfi_step t env pi pi.unwind_info s).st.ip)
    (hlast : t.need_last_ip = true → pi.end_ip ≤ pi.last_ip)
    (h : dwarf_reg_states_table_iterate t env pi cb fuel = some r) (hret : r.1 = none) :
    (∀ sl ∈ r.2.1, sl.prev_ip < sl.curr_ip) ∧
    (∀ sl, r.2.1.head? = some sl → sl.prev_ip = pi.start_ip) ∧
    (∀ i x y, r.2.1.get? i = some x → r.2.1.get? (i + 1) = some y → y.prev_ip = x.curr_ip) ∧
    (∀ sl, r.2.1.getLast? = some sl → pi.end_ip ≤ sl.curr_ip) ∧
    (r.2.1 = [] → pi.end_ip ≤ pi.start_ip) ∧
    ∃ e, pi.end_ip ≤ e ∧ tiles pi.start_ip r.2.1 e := by
  have key : ∃ e, pi.end_ip ≤ e ∧ tiles pi.start_ip r.2.1 e := by
    unfold dwarf_reg_states_table_iterate at h
    split at h
    · simp at h
    · rename_i o0 ho0
      split at h
      · simp at h
      · rename_i x hx
        simp only [] at h
        have hlim : pi.end_ip ≤ (if t.need_last_ip = true then pi.last_ip else pi.end_ip) := by
          by_cases hn : t.need_last_ip = true
          · rw [if_pos hn]; exact hlast hn
          · rw [if_neg hn]
        generalize (if t.need_last_ip = true then pi.last_ip else pi.end_ip) = limit at h hlim
        have htl : x.ret = none → tiles pi.start_ip x.out x.st.ip := by
          intro hxr
          exact table_iterate_loop_tiles t env pi cb fuel
            ⟨pi.start_ip, pi.unwind_info.fde_instr_start, o0.sr, []⟩ pi.start_ip
            (fun n s hn => hmono o0 n s ho0 hn) fuel _ x hx hxr ⟨0, rfl⟩ rfl
        by_cases hc : x.ret = none ∧ x.st.ip < limit
        · rw [if_pos hc] at h
          rw [← Option.some.inj h]
          exact ⟨limit, hlim, tiles_append _ _ _ _ _ (htl hc.1) hc.2⟩
        · rw [if_neg hc] at h
          rw [← Option.some.inj h] at hret ⊢
          have hxr : x.ret = none := hret
          have : ¬ (x.st.ip < limit) := fun hlt => hc ⟨hxr, hlt⟩
          exact ⟨x.st.ip, by omega, htl hxr⟩
  obtain ⟨e, he, ht⟩ := key
  obtain ⟨i1, i2, i3, i4, i5⟩ := tiles_spec _ _ _ ht
  refine ⟨i1, i2, i3, ?_, ?_, e, he, ht⟩
  · intro sl hsl
    rw [i4 sl hsl]
    exact he
  · intro hnil
    rw [hnil] at ht
    simp only [tiles] at ht
    omega

/-- Once an iteration has failed, no state is reached. -/
theorem cfi_iter_none (t : Target) (env : Env) (pi : ProcInfo) (dci : CieInfo) (s : Cfi)
    (n : Nat) (h : cfi_iter t env pi dci n s = none) :
    ∀ k, cfi_iter t env pi dci (n + k) s = none := by
  intro k
  induction k with
  | zero => exact h
  | succ k ih =>
    show cfi_iter t env pi dci (n + k + 1) s = none
    simp only [cfi_iter, ih]

/-- The location counter never decreases along the FDE program of the two-slice
example. -/
theorem two_slice_mono (d : DriverOut) (n : Nat) (s : Cfi)
    (hd : setup_fde x86_64 (mem_env two_slice_prog) two_slice_pi 10 = some d)
    (h : cfi_iter x86_64 (mem_env two_slice_prog) two_slice_pi two_slice_pi.unwind_info n
      ⟨two_slice_pi.start_ip, two_slice_pi.unwind_info.fde_instr_start, d.sr, []⟩ = some s) :
    s.ip ≤ (cfi_step x86_64 (mem_env two_slice_prog) two_slice_pi two_slice_pi.unwind_info s).st.ip := by
  have hd2 : two_slice_setup = d := by
    unfold two_slice_setup
    rw [hd]
    rfl
  subst hd2
  have hs : ∀ k, cfi_iter x86_64 (mem_env two_slice_prog) two_slice_pi two_slice_pi.unwind_info k
      ⟨two_slice_pi.start_ip, two_slice_pi.unwind_info.fde_instr_start, two_slice_setup.sr, []⟩
      = some s →
      s = (cfi_iter x86_64 (mem_env two_slice_prog) two_slice_pi two_slice_pi.unwind_info k
        ⟨two_slice_pi.start_ip, two_slice_pi.unwind_info.fde_instr_start, two_slice_setup.sr,
          []⟩).getD ⟨0, 0, zero_state_record, []⟩ := by
    intro k hk
    rw [hk]
    rfl
  have h4 : cfi_iter x86_64 (mem_env two_slice_prog) two_slice_pi two_slice_pi.unwind_info 4
      ⟨two_slice_pi.start_ip, two_slice_pi.unwind_info.fde_instr_start, two_slice_setup.sr, []⟩
      = none := Option.isNone_iff_eq_none.mp (by rfl)
  match n, h with
  | 0, h => rw [hs 0 h]; decide
  | 1, h => rw [hs 1 h]; decide
  | 2, h => rw [hs 2 h]; decide
  | 3, h => rw [hs 3 h]; decide
  | k + 4, h =>
    have := cfi_iter_none _ _ _ _ _ 4 h4 k
    rw [Nat.add_comm] at this
    rw [this] at h
    exact absurd h (by simp)

/-- C27 at a concrete input: for the FDE program `def_cfa_offset 16; advance_loc
4; def_cfa_offset 32` of a procedure at `[0x100, 0x200)` the iterator reports
the slices `[0x100, 0x104)` and `[0x104, 0x200)`. -/
theorem C27_slices_tile_example :
    two_slice_iter.map (fun sl => (sl.prev_ip, sl.curr_ip)) = [(0x100, 0x104), (0x104, 0x200)] ∧
    ∃ e, two_slice_pi.end_ip ≤ e ∧ tiles two_slice_pi.start_ip
      ((dwarf_reg_states_table_iterate x86_64 (mem_env two_slice_prog) two_slice_pi
        (fun _ _ => none) 10).getD (some UnwError.EUNSPEC, [], [])).2.1 e :=
  ⟨by decide,
   (C27_slices_tile x86_64 (mem_env two_slice_prog) two_slice_pi (fun _ _ => none) 10
     ((dwarf_reg_states_table_iterate x86_64 (mem_env two_slice_prog) two_slice_pi
        (fun _ _ => none) 10).getD (some UnwError.EUNSPEC, [], []))
     (fun d n s hd h _ _ _ => two_slice_mono d n s hd h)
     (fun hn => absurd hn (by decide)) (by rfl) (by decide)).2.2.2.2.2⟩

/-! ## The payload of a REGISTER slot -/

/-- C31 (the code departs from the claim): for an empty CIE program and the FDE
program `09 00 11` (register r0, r17) on x86-64, where DWARF_NUM_PRESERVED_REGS
is 17, setup_fde and parse_fde both succeed, and slot 0 of the record they
produce is tagged REGISTER with the payload 17, which is not below 17: the first
operand goes through read_regnum, which rejects a number of 17 or more, the
second is read by dwarf_read_uleb128 and stored unchecked. The body of the loop
of apply_reg_state for register 0 then copies new_loc[17], one element past the
array of 17 locations. -/
theorem C31_register_payload_unchecked :
    (setup_fde x86_64 (mem_env reg17_prog) reg17_pi 10).map (fun d => d.ret) = some none ∧
    (parse_fde x86_64 (mem_env reg17_prog) reg17_pi 0 0x150 reg17_setup.sr 10).map
      (fun d => (d.ret, d.sr.rs_current.where_ 0, d.sr.rs_current.val 0)) =
      some (none, Where.REG, 17) ∧
    x86_64.NUM_PRESERVED_REGS = 17 ∧
    ¬ (reg17_rs.val 0 < x86_64.NUM_PRESERVED_REGS) ∧
    (read_regnum x86_64 (mem_acc [0x11]) 0).ret = some EBADREG ∧
    Except.get_or (fun _ => XLoc.null)
      (apply_slot x86_64 (x_env (fun _ => 0) (fun _ => 0) reg17_pi) (mem_acc reg17_prog)
        (x_cursor 0x150 0 reg17_pi) reg17_rs 0 0 (fun r => XLoc.reg r)) 0 = XLoc.reg 17 := by
  decide

end Gparser

